import Mathlib

/-!
# mangarr: chapter selection, page fetching and archive building

A shallow embedding of `internal/parse/parse.go`, `internal/sharedhttp/http.go`,
`internal/download/download.go`, `internal/files/files.go`, of the run for one
chapter in `cmd/download.go` and `cmd/monitor.go`, and of the naming
(`internal/templater`, `internal/utils`, `internal/sanitize`), of
`AppConfig.processLines` and of helpers of the adapters in `internal/source`.

Conventions of the embedding

* A Go `string` is a `List Char` where the code takes it apart
  (`strings.Split`, `strings.TrimSpace`), and a `String` where it is only
  compared or appended to.
* A Go `map[K]V` is an association list `List (K × V)`; only its keys matter to
  the functions below.  Go leaves the order of `range` over a map unspecified:
  a `RangeOrder` records the order one run picks at each `range` statement, and
  the theorems hold for every such choice.
* Chapter numbers (`float32`) are modelled twice.  `Float32 F` is a float32 value:
  NaN, or a number of the linearly ordered type `F`, under Go's `<=`, `==` and
  `min`/`max`, all of which treat NaN apart; `parse.float32` holds the functions
  of `parse.go` on such values.  The functions of namespace `parse` itself are
  the same functions on the numbers `F` alone; on inputs without NaN the two
  agree (`float32_ChapterSelection_num`, `float32_GetMinAndMaxKeys_num`).
  `strconv.ParseFloat(s, 32)` is library code and is a parameter
  `parseFloat`, `none` standing for `err != nil`.  `parseDecimal` (plain
  decimals, as rationals) and `parseDecimalOrNaN` (the spelling "NaN" as well)
  are the instances the concrete examples are run with.
* A function returning `(value, error)` returns a pair whose second component is
  `none` for `err == nil`.
-/

namespace Mangarr

/-! ## Go library functions used by the code -/

namespace strings

/-- Go `strings.Contains(s, sep)` for a one-character `sep`. -/
def Contains (s : List Char) (sep : Char) : Bool :=
  s.any (fun c => c == sep)

/-- Go `strings.Split(s, sep)` for a one-character `sep`: the pieces of `s`
between the occurrences of `sep`; never the empty list. -/
def Split (s : List Char) (sep : Char) : List (List Char) :=
  match s with
  | [] => [[]]
  | c :: cs =>
    if c = sep then [] :: Split cs sep
    else
      match Split cs sep with
      | [] => [[c]]
      | p :: ps => (c :: p) :: ps

/-- Go `unicode.IsSpace`. -/
def isSpace (c : Char) : Bool :=
  let n := c.toNat
  (9 ≤ n && n ≤ 13) || n == 32 || n == 0x85 || n == 0xA0 || n == 0x1680 ||
  (0x2000 ≤ n && n ≤ 0x200A) || n == 0x2028 || n == 0x2029 || n == 0x202F ||
  n == 0x205F || n == 0x3000

/-- Go `strings.TrimSpace`: leading and trailing white space removed. -/
def TrimSpace (s : List Char) : List Char :=
  ((s.dropWhile isSpace).reverse.dropWhile isSpace).reverse

end strings

/-- The order in which one run visits the keys at its `range` statements over
maps: `pick i keys` is the order used at the `i`-th statement, a rearrangement
of the keys. -/
structure RangeOrder (K : Type) where
  pick : Nat → List K → List K
  perm : ∀ i l, (pick i l).Perm l

/-- The run that visits the keys in the order the association list has them. -/
def RangeOrder.stored (K : Type) : RangeOrder K :=
  ⟨fun _ l => l, fun _ l => List.Perm.refl l⟩

/-- The run that visits the keys in the opposite order. -/
def RangeOrder.backwards (K : Type) : RangeOrder K :=
  ⟨fun _ l => l.reverse, fun _ l => List.reverse_perm l⟩

/-- The keys of a Go map. -/
def mapKeys {K V : Type} (m : List (K × V)) : List K :=
  m.map Prod.fst

/-- Go `m[k] = true` on a `map[K]bool` all of whose values are `true`, the map
being given by its key set. -/
def setKey {K : Type} [DecidableEq K] (m : List K) (k : K) : List K :=
  if k ∈ m then m else m ++ [k]

/-- Go `v, ok := m[k]`. -/
def mapLookup {K V : Type} [DecidableEq K] (m : List (K × V)) (k : K) : Option V :=
  (m.find? (fun e => decide (e.1 = k))).map Prod.snd

/-! ## internal/domain -/

/-- The struct `domain.ImageInfo`. -/
structure ImageInfo where
  ImageURL : String
  EncryptionKey : String
  Width : ℚ
  Height : ℚ
  deriving DecidableEq

/-- The struct `domain.Chapter`. -/
structure Chapter where
  ID : String
  URL : String
  Number : ℚ
  Title : String
  IsManhwa : Bool
  ImageInfo : List ImageInfo
  deriving DecidableEq

/-! ## internal/parse -/

namespace parse

/-- The errors of `ChapterSelection`, `getRange` and `GetMinAndMaxKeys`, one
constructor per `fmt.Errorf` site; `numError` is the `*strconv.NumError` that
`ChapterSelection` hands on unchanged. -/
inductive Error where
  | invalidRangeFormat (part : List Char)
  | invalidStartOfRange (s : List Char)
  | invalidEndOfRange (s : List Char)
  | startGreaterThanEnd (s e : List Char)
  | numError (s : List Char)
  | mapIsEmpty
  deriving DecidableEq, Repr

section
variable {F V : Type} [LinearOrder F]

/-- The function `getRange`, for the two-element `rangeParts` it is called with
(on an error the Go code returns zeros, which its caller drops). -/
def getRange (parseFloat : List Char → Option F) (rangeParts : List (List Char)) :
    Except Error (F × F) :=
  match parseFloat (strings.TrimSpace (rangeParts.getD 0 [])) with
  | none => .error (.invalidStartOfRange (rangeParts.getD 0 []))
  | some start =>
    match parseFloat (strings.TrimSpace (rangeParts.getD 1 [])) with
    | none => .error (.invalidEndOfRange (rangeParts.getD 1 []))
    | some end_ =>
      if start > end_ then
        .error (.startGreaterThanEnd (rangeParts.getD 0 []) (rangeParts.getD 1 []))
      else .ok (start, end_)

/-- The inner loop of `ChapterSelection` (lines 29-33): every available chapter
within `[start, end_]` is put into `uniqueChapters`. -/
def addRange (start end_ : F) (visit : List F) (uniqueChapters : List F) : List F :=
  visit.foldl (fun u chapter =>
    if chapter ≥ start ∧ chapter ≤ end_ then setKey u chapter else u) uniqueChapters

/-- The loop `for _, part := range parts` of `ChapterSelection`, `i` being the
index of the first part of `parts` and `uniqueChapters` the set built so far:
the final `uniqueChapters`, or the error the loop returns with. -/
def selectionLoop (parseFloat : List Char → Option F) (ord : RangeOrder F)
    (availableChapters : List (F × V)) :
    Nat → List (List Char) → List F → Except Error (List F)
  | _, [], uniqueChapters => .ok uniqueChapters
  | i, part :: parts, uniqueChapters =>
    if strings.Contains part '-' then
      let rangeParts := strings.Split part '-'
      if rangeParts.length ≠ 2 then .error (.invalidRangeFormat part)
      else
        match getRange parseFloat rangeParts with
        | .error err => .error err
        | .ok (start, end_) =>
          selectionLoop parseFloat ord availableChapters (i + 1) parts
            (addRange start end_ (ord.pick i (mapKeys availableChapters)) uniqueChapters)
    else
      match parseFloat (strings.TrimSpace part) with
      | none => .error (.numError (strings.TrimSpace part))
      | some chapter =>
        selectionLoop parseFloat ord availableChapters (i + 1) parts
          (setKey uniqueChapters chapter)

/-- The function `ChapterSelection`: the selected chapter numbers and the error
(`([], some err)` is Go's `nil, err`).  The last `range`, over
`uniqueChapters`, is statement number `len(parts)` of the run. -/
def ChapterSelection (parseFloat : List Char → Option F) (ord : RangeOrder F)
    (input : List Char) (availableChapters : List (F × V)) : List F × Option Error :=
  let parts := strings.Split input ','
  match selectionLoop parseFloat ord availableChapters 0 parts [] with
  | .error err => ([], some err)
  | .ok uniqueChapters => (ord.pick parts.length uniqueChapters, none)

/-- Go `slices.Min` on a slice given by its first element and the rest. -/
def slicesMin {K : Type} [LinearOrder K] (x0 : K) (rest : List K) : K :=
  rest.foldl (fun m x => min m x) x0

/-- Go `slices.Max` on a slice given by its first element and the rest. -/
def slicesMax {K : Type} [LinearOrder K] (x0 : K) (rest : List K) : K :=
  rest.foldl (fun m x => max m x) x0

/-- The function `GetMinAndMaxKeys` on keys that are linearly ordered (for
float32 keys, NaN included, see `float32.GetMinAndMaxKeys`).  The keys are collected in the order of statement 0 of
the run; the collected slice is never empty once `len(someMap) == 0` is
excluded, so the branch for an empty slice is never taken. -/
def GetMinAndMaxKeys {K : Type} [LinearOrder K] (ord : RangeOrder K)
    (someMap : List (K × V)) : List K × List K × Option Error :=
  if someMap.length = 0 then ([], [], some .mapIsEmpty)
  else
    match ord.pick 0 (mapKeys someMap) with
    | [] => ([], [], some .mapIsEmpty)
    | k :: keys => ([slicesMin k keys], [slicesMax k keys], none)

end

/-- Digits of a decimal numeral read from the left: the number read so far. -/
def readDigits : List Char → Nat → Option Nat
  | [], acc => some acc
  | c :: cs, acc =>
    if c.isDigit then readDigits cs (acc * 10 + (c.toNat - 48)) else none

/-- An instance of `strconv.ParseFloat(s, 32)` on the plain decimals
`digits`, `digits.digits`, `digits.` and `.digits` (at least one digit, no
sign, no exponent): the rational the numeral denotes.  It agrees with the
library on every such numeral whose value a float32 holds exactly. -/
def parseDecimal (s : List Char) : Option ℚ :=
  let intPart := s.takeWhile Char.isDigit
  let afterInt := s.dropWhile Char.isDigit
  match afterInt with
  | [] =>
    if intPart.length = 0 then none
    else (readDigits intPart 0).map (fun n => mkRat n 1)
  | c :: frac =>
    if c = '.' ∧ 0 < intPart.length + frac.length then
      (readDigits (intPart ++ frac) 0).map (fun n => mkRat n (10 ^ frac.length))
    else none

section
variable {F V : Type} [LinearOrder F]

/-- The code's verdict on one token: `true` when the loop body falls through
to the next token, `false` when it returns an error. -/
def accepts (parseFloat : List Char → Option F) (part : List Char) : Bool :=
  if strings.Contains part '-' then
    match strings.Split part '-' with
    | [a, b] =>
      match parseFloat (strings.TrimSpace a), parseFloat (strings.TrimSpace b) with
      | some A, some B => decide (A ≤ B)
      | _, _ => false
    | _ => false
  else (parseFloat (strings.TrimSpace part)).isSome

/-- What one accepted token contributes: a range token the available keys
within its bounds, a single-number token its number. -/
def selects (parseFloat : List Char → Option F) (availableChapters : List (F × V))
    (part : List Char) (n : F) : Prop :=
  if strings.Contains part '-' then
    ∃ a b A B, strings.Split part '-' = [a, b] ∧
      parseFloat (strings.TrimSpace a) = some A ∧
      parseFloat (strings.TrimSpace b) = some B ∧
      n ∈ mapKeys availableChapters ∧ A ≤ n ∧ n ≤ B
  else parseFloat (strings.TrimSpace part) = some n

/-- A token that is a single number: `strconv.ParseFloat` accepts it, white
space around it apart. -/
def numberToken (parseFloat : List Char → Option F) (part : List Char) : Prop :=
  ∃ n, parseFloat (strings.TrimSpace part) = some n

/-- A token that is a range `A-B` of the two numbers `A` and `B`. -/
def rangeToken (parseFloat : List Char → Option F) (part : List Char) (A B : F) : Prop :=
  ∃ a b, part = a ++ '-' :: b ∧ parseFloat (strings.TrimSpace a) = some A ∧
    parseFloat (strings.TrimSpace b) = some B

/-- A bad token: malformed (neither a single number nor a range of two
numbers), or a range `A-B` with `A > B`. -/
def badToken (parseFloat : List Char → Option F) (part : List Char) : Prop :=
  (¬ numberToken parseFloat part ∧ ¬ ∃ A B, rangeToken parseFloat part A B) ∨
  ∃ A B, rangeToken parseFloat part A B ∧ A > B

end

/-- A chapter of the title "Demo" with the given number and page count. -/
def demoChapter (number : ℚ) (pages : Nat) : Chapter :=
  ⟨"", "", number, "", false, List.replicate pages ⟨"", "", 0, 0⟩⟩

/-- The chapters of the title "Demo": chapter 1 with 3 pages and chapter 2.5
with 2 pages. -/
def demoChapters : List (ℚ × Chapter) :=
  [(1, demoChapter 1 3), (mkRat 5 2, demoChapter (mkRat 5 2) 2)]

/-- The chapters of "Demo" as another run may hold them: the other way round,
with other values. -/
def demoChaptersAgain : List (ℚ × String) :=
  [(mkRat 5 2, "two and a half"), (1, "one")]

end parse

/-! ## internal/sharedhttp and the retry library -/

/-- The error messages of the page fetch, one constructor per `fmt.Errorf`
site of `CheckStatusCode`, `singleFile`, `decryptImage` and
`appendImageExtension`, and one per library call whose error is handed on. -/
inductive ErrorKind where
  | unrecoverableStatus (statusCode : Int)
  | methodNotAllowed (statusCode : Int)
  | imageNotFound (statusCode : Int)
  | serverError (statusCode : Int)
  | unexpectedStatus (statusCode : Int)
  | failedToCreateRequest
  | failedToGetImage
  | failedToReadImageData
  | failedToDecodeKey
  | unsupportedContentType (contentType : String)
  | createFailed
  | copyFailed
  deriving DecidableEq, Repr

/-- A Go `error` of the page fetch: as made by `fmt.Errorf`, or wrapped by
`retry.Unrecoverable`. -/
inductive GoError where
  | plain (e : ErrorKind)
  | unrecoverable (e : ErrorKind)
  deriving DecidableEq, Repr

namespace retry

/-- The library's `IsRecoverable`, the default `RetryIf`: an error is retried
unless `retry.Unrecoverable` wrapped it. -/
def IsRecoverable : GoError → Bool
  | .plain _ => true
  | .unrecoverable _ => false

/-- The library's `unpackUnrecoverable`: the error inside the wrapper. -/
def unpackUnrecoverable : GoError → ErrorKind
  | .plain e => e
  | .unrecoverable e => e

/-- How one call of the retried function ends. -/
inductive Outcome where
  | ok
  | err (e : GoError)
  | panic
  deriving DecidableEq, Repr

/-- How `retry.Do` ends: `nil`, the log of the attempts' errors, or the panic
of the retried function passing through. -/
inductive Result where
  | nil
  | errors (errorLog : List ErrorKind)
  | panic
  deriving DecidableEq, Repr

/-- The loop `for n < config.attempts` of `retry.Do` with the default options
other than the number of attempts (`RetryIf` is `IsRecoverable`, every error
is logged); `remaining` is `config.attempts - n`.  The delay between two
attempts is not modelled. -/
def loop {σ : Type} (retryableFunc : σ → Outcome × σ) :
    Nat → σ → List ErrorKind → Result × σ
  | 0, s, errorLog => (.errors errorLog, s)
  | remaining + 1, s, errorLog =>
    match retryableFunc s with
    | (.ok, s1) => (.nil, s1)
    | (.panic, s1) => (.panic, s1)
    | (.err e, s1) =>
      let errorLog := errorLog ++ [unpackUnrecoverable e]
      if !IsRecoverable e then (.errors errorLog, s1)
      else if remaining = 0 then (.errors errorLog, s1)
      else loop retryableFunc remaining s1 errorLog

/-- The library's `retry.Do(retryableFunc, retry.Attempts(attempts), ...)`. -/
def Do {σ : Type} (retryableFunc : σ → Outcome × σ) (attempts : Nat) (s : σ) : Result × σ :=
  loop retryableFunc attempts s []

end retry

namespace sharedhttp

/-- The function `CheckStatusCode`; `none` is `nil`. -/
def CheckStatusCode (statusCode : Int) : Option GoError :=
  if statusCode = 200 then none
  else if statusCode = 401 ∨ statusCode = 403 then
    some (.unrecoverable (.unrecoverableStatus statusCode))
  else if statusCode = 405 then
    some (.unrecoverable (.methodNotAllowed statusCode))
  else if statusCode = 404 then
    some (.plain (.imageNotFound statusCode))
  else if statusCode = 502 ∨ statusCode = 503 ∨ statusCode = 504 ∨ statusCode = 500 then
    some (.plain (.serverError statusCode))
  else some (.unrecoverable (.unexpectedStatus statusCode))

/-- The statuses the fetch retries on: 404 and 500, 502, 503, 504. -/
def retryableStatus (statusCode : Int) : Prop :=
  statusCode = 404 ∨ statusCode = 500 ∨ statusCode = 502 ∨ statusCode = 503 ∨ statusCode = 504

end sharedhttp

/-! ## internal/download -/

namespace download

/-- The part of an `http.Response` the fetch reads: status code,
`Content-Type` header and body bytes. -/
structure Response where
  StatusCode : Int
  ContentType : String
  Body : List Nat
  deriving DecidableEq, Repr

/-- What the outside world does at one attempt: the response `client.Do`
returns (`none` when it returns an error), and whether reading the whole body,
`os.Create` and writing the file succeed. -/
structure Exchange where
  resp : Option Response
  readOk : Bool
  createOk : Bool
  writeOk : Bool
  deriving DecidableEq, Repr

/-- The outside world of a page fetch: which URLs `http.NewRequestWithContext`
accepts, and what happens at the request number `n` (counted from 0). -/
structure Env where
  validURL : String → Bool
  exchange : Nat → Exchange

/-- The state a fetch changes: the number of requests sent so far and the
files written, by name. -/
structure World where
  requests : Nat
  files : List (String × List Nat)
  deriving DecidableEq, Repr

/-- Go `os.Create`: the file exists and is empty afterwards. -/
def World.create (w : World) (name : String) : World :=
  { w with files := (name, []) :: w.files.filter (fun f => f.1 ≠ name) }

/-- The bytes `data` written to the file `name` in full. -/
def World.write (w : World) (name : String) (data : List Nat) : World :=
  { w with files := (name, data) :: w.files.filter (fun f => f.1 ≠ name) }

/-- The function `appendImageExtension`, on the `Content-Type` of the
response. -/
def appendImageExtension (contentType : String) (filename : String) :
    String × Option GoError :=
  if contentType = "image/jpeg" ∨ contentType = "image/jpg" then (filename ++ ".jpg", none)
  else if contentType = "image/png" then (filename ++ ".png", none)
  else if contentType = "image/gif" then (filename ++ ".gif", none)
  else if contentType = "image/webp" then (filename ++ ".webp", none)
  else (filename, some (.plain (.unsupportedContentType contentType)))

/-- The content types that have a file extension. -/
def supportedContentType (contentType : String) : Prop :=
  contentType = "image/jpeg" ∨ contentType = "image/jpg" ∨ contentType = "image/png" ∨
  contentType = "image/gif" ∨ contentType = "image/webp"

/-- The function that `singleFile` hands to `retry.Do` (lines 97-129). -/
def singleFileAttempt (env : Env) (filenameNoExt : String) (w : World) :
    retry.Outcome × World :=
  let x := env.exchange w.requests
  let w := { w with requests := w.requests + 1 }
  match x.resp with
  | none => (.err (.plain .failedToGetImage), w)
  | some resp =>
    match sharedhttp.CheckStatusCode resp.StatusCode with
    | some err => (.err err, w)
    | none =>
      match appendImageExtension resp.ContentType filenameNoExt with
      | (_, some err) => (.err err, w)
      | (filename, none) =>
        if !x.createOk then (.err (.plain .createFailed), w)
        else if !(x.readOk && x.writeOk) then (.err (.plain .copyFailed), w.create filename)
        else (.ok, w.write filename resp.Body)

/-- The function `singleFile`; the error of a URL that
`http.NewRequestWithContext` rejects is shown as a log of one entry. -/
def singleFile (env : Env) (url filenameNoExt : String) (w : World) : retry.Result × World :=
  if !env.validURL url then (.errors [.failedToCreateRequest], w)
  else retry.Do (singleFileAttempt env filenameNoExt) 3 w

/-- The value of one hexadecimal digit (`encoding/hex`). -/
def fromHexChar (c : Char) : Option Nat :=
  if '0' ≤ c ∧ c ≤ '9' then some (c.toNat - 48)
  else if 'a' ≤ c ∧ c ≤ 'f' then some (c.toNat - 97 + 10)
  else if 'A' ≤ c ∧ c ≤ 'F' then some (c.toNat - 65 + 10)
  else none

/-- Go `hex.DecodeString`: the bytes, or `none` for an odd length or a
character that is no hexadecimal digit. -/
def hexDecodeString : List Char → Option (List Nat)
  | [] => some []
  | [_] => none
  | a :: b :: rest =>
    match fromHexChar a, fromHexChar b, hexDecodeString rest with
    | some hi, some lo, some bytes => some ((hi * 16 + lo) :: bytes)
    | _, _, _ => none

/-- The XOR step of `decryptImage` (lines 174-177): byte `i` of `data` is
XORed with `key[i % keyLen]`. -/
def xorKey (data key : List Nat) : List Nat :=
  data.mapIdx (fun i b => b ^^^ key.getD (i % key.length) 0)

/-- The function that `decryptImage` hands to `retry.Do` (lines 152-200); with
an empty key and a non-empty body `i % keyLen` panics. -/
def decryptImageAttempt (env : Env) (encryptionHex filenameNoExt : String) (w : World) :
    retry.Outcome × World :=
  let x := env.exchange w.requests
  let w := { w with requests := w.requests + 1 }
  match x.resp with
  | none => (.err (.plain .failedToGetImage), w)
  | some resp =>
    match sharedhttp.CheckStatusCode resp.StatusCode with
    | some err => (.err err, w)
    | none =>
      if !x.readOk then (.err (.plain .failedToReadImageData), w)
      else
        match hexDecodeString encryptionHex.toList with
        | none => (.err (.plain .failedToDecodeKey), w)
        | some key =>
          if key.length = 0 ∧ resp.Body ≠ [] then (.panic, w)
          else
            let data := xorKey resp.Body key
            match appendImageExtension resp.ContentType filenameNoExt with
            | (_, some err) => (.err err, w)
            | (filename, none) =>
              if !x.createOk then (.err (.plain .createFailed), w)
              else if !x.writeOk then (.err (.plain .copyFailed), w.create filename)
              else (.ok, w.write filename data)

/-- The function `decryptImage`; the error of a URL that
`http.NewRequestWithContext` rejects is shown as a log of one entry. -/
def decryptImage (env : Env) (url encryptionHex filenameNoExt : String) (w : World) :
    retry.Result × World :=
  if !env.validURL url then (.errors [.failedToCreateRequest], w)
  else retry.Do (decryptImageAttempt env encryptionHex filenameNoExt) 3 w

/-- A server that answers the first request with 404 and every later one
with a PNG image of three bytes; the disk works. -/
def notFoundThenImage : Env :=
  ⟨fun _ => true, fun n =>
    if n = 0 then ⟨some ⟨404, "text/plain", []⟩, true, true, true⟩
    else ⟨some ⟨200, "image/png", [1, 2, 3]⟩, true, true, true⟩⟩

/-- A server that answers the first request with 403 and every later one
with a PNG image of three bytes; the disk works. -/
def forbiddenThenImage : Env :=
  ⟨fun _ => true, fun n =>
    if n = 0 then ⟨some ⟨403, "text/plain", []⟩, true, true, true⟩
    else ⟨some ⟨200, "image/png", [1, 2, 3]⟩, true, true, true⟩⟩

/-- Go `fmt.Sprintf("%03d", n)` for `n >= 0`: the decimal digits of `n`, with
zeros in front up to a width of three. -/
def sprintf03d (n : Nat) : String :=
  let digits := Nat.toDigits 10 n
  String.mk (List.replicate (3 - digits.length) '0' ++ digits)

/-- The name `filenameNoExt` that `Chapter` gives the page at position `i` of
`chapter.ImageInfo` (line 47), relative to the scratch directory `temp`. -/
def pageFilenameNoExt (i : Nat) : String :=
  sprintf03d (i + 1)

end download

/-! ## internal/files -/

namespace files

/-- The constant `binSize`. -/
def binSize : Nat := 10

/-- A file of the scratch directory: its name, its bytes, the width that
`image.DecodeConfig` reports for it (`none` when the header does not decode),
and whether `os.Open` and writing it into the zip archive succeed. -/
structure PageFile where
  name : String
  data : List Nat
  width : Option Nat
  openOk : Bool
  zipOk : Bool
  deriving DecidableEq, Repr

/-- The errors `CreateCbzArchive` returns, by the call that failed. -/
inductive Error where
  | mkdirAll
  | create
  | openFile (name : String)
  | addToZip (name : String)
  deriving DecidableEq, Repr

/-- What `os.MkdirAll` and `os.Create` do at the target path `cbzPath`. -/
structure Target where
  mkdirOk : Bool
  createOk : Bool
  deriving DecidableEq, Repr

/-- What a call of `CreateCbzArchive` leaves: the error returned, whether the
file at `cbzPath` was created, and the entries written to it, in order. -/
structure Archive where
  err : Option Error
  created : Bool
  entries : List (String × List Nat)
  deriving DecidableEq, Repr

/-- The order in which `filepath.Walk` visits the files of a directory:
lexical order of the names (byte-wise comparison of strings). -/
def walkOrder (dir : List PageFile) : List PageFile :=
  dir.insertionSort (fun a b => ¬ b.name.toList < a.name.toList)

/-- Go `widthCount[bin]++` on a `map[int]int`. -/
def increment : List (Nat × Nat) → Nat → List (Nat × Nat)
  | [], bin => [(bin, 1)]
  | (b, count) :: rest, bin =>
    if b = bin then (b, count + 1) :: rest else (b, count) :: increment rest bin

/-- The first walk (lines 47-67) over the files still to visit: the width
census, or the error `os.Open` stops the walk with. -/
def census : List PageFile → List (Nat × Nat) → Except Error (List (Nat × Nat))
  | [], widthCount => .ok widthCount
  | f :: rest, widthCount =>
    if !f.openOk then .error (.openFile f.name)
    else
      match f.width with
      | none => census rest widthCount
      | some width => census rest (increment widthCount ((width / binSize) * binSize))

/-- The loop of lines 72-78 over the entries of `widthCount` in the order
visited: `(maxCount, mostCommonWidth)`. -/
def mostCommon (entries : List (Nat × Nat)) : Nat × Nat :=
  entries.foldl (fun acc e => if e.2 > acc.1 then (e.2, e.1) else acc) (0, 0)

/-- The second walk (lines 80-104) over the files still to visit, `entries`
being the zip entries written so far: the error returned and the entries.
A file that `addFileToZip` fails on leaves no entry. -/
def pack (isManhwa : Bool) (mostCommonWidth : Nat) :
    List PageFile → List (String × List Nat) → Option Error × List (String × List Nat)
  | [], entries => (none, entries)
  | f :: rest, entries =>
    if !f.openOk then (some (.openFile f.name), entries)
    else
      match f.width with
      | none => pack isManhwa mostCommonWidth rest entries
      | some width =>
        if isManhwa ∧ ((width : Int) < (mostCommonWidth : Int) - binSize ∨
            (width : Int) > (mostCommonWidth : Int) + binSize) then
          pack isManhwa mostCommonWidth rest entries
        else if !f.zipOk then (some (.addToZip f.name), entries)
        else pack isManhwa mostCommonWidth rest (entries ++ [(f.name, f.data)])

/-- The function `CreateCbzArchive` on the files of `sourceDir` (a directory
without subdirectories); the `range` over `widthCount` is statement 0 of the
run. -/
def CreateCbzArchive (target : Target) (ord : RangeOrder (Nat × Nat))
    (sourceDir : List PageFile) (isManhwa : Bool) : Archive :=
  if !target.mkdirOk then ⟨some .mkdirAll, false, []⟩
  else if !target.createOk then ⟨some .create, false, []⟩
  else
    match census (walkOrder sourceDir) [] with
    | .error err => ⟨some err, true, []⟩
    | .ok widthCount =>
      let mostCommonWidth := (mostCommon (ord.pick 0 widthCount)).2
      let packed := pack isManhwa mostCommonWidth (walkOrder sourceDir) []
      ⟨packed.1, true, packed.2⟩

/-- The bin of a width: `floor(width / 10) * 10`. -/
def binOf (width : Nat) : Nat :=
  (width / binSize) * binSize

/-- The bins of the pages of a directory whose width decodes. -/
def decodedBins (dir : List PageFile) : List Nat :=
  (dir.filterMap (fun f => f.width)).map binOf

/-- Whether the width of a page decodes and lies within
`[mostCommonWidth - 10, mostCommonWidth + 10]`. -/
def inWindow (mostCommonWidth : Nat) (f : PageFile) : Bool :=
  match f.width with
  | none => false
  | some width =>
    decide ((mostCommonWidth : Int) - 10 ≤ (width : Int) ∧
      (width : Int) ≤ (mostCommonWidth : Int) + 10)

/-- The zip entry of a page file: its name (`info.Name()`) and its bytes. -/
def entryOf (f : PageFile) : String × List Nat :=
  (f.name, f.data)

/-- A page file named `name` with the given decoded width, on a disk that
works. -/
def pageOfWidth (name : String) (width : Nat) : PageFile :=
  ⟨name, [width], some width, true, true⟩

/-- The scratch directory of the spec's example: five pages of the widths
100, 102, 98, 500 and 101. -/
def fivePages : List PageFile :=
  [pageOfWidth "001.jpg" 100, pageOfWidth "002.jpg" 102, pageOfWidth "003.jpg" 98,
   pageOfWidth "004.jpg" 500, pageOfWidth "005.jpg" 101]

/-- A scratch directory listed out of name order: a wide page, a file whose
header does not decode, and a narrow page. -/
def unsortedPages : List PageFile :=
  [pageOfWidth "003.jpg" 500, ⟨"002.jpg", [0], none, true, true⟩, pageOfWidth "001.jpg" 100]

end files

namespace download

/-- The local disk as `Chapter` finds it: whether `os.MkdirTemp` succeeds, the
target path, the width `image.DecodeConfig` reads from the bytes of a file,
and which files of the scratch directory `os.Open` and the zip writer can
handle. -/
structure Disk where
  mkdirTempOk : Bool
  target : files.Target
  decodeWidth : List Nat → Option Nat
  openOk : String → Bool
  zipOk : String → Bool

/-- How a call of `Chapter` ends: `os.MkdirTemp` failed, a page fetch
panicked, or `CreateCbzArchive` was called and left the given archive. -/
inductive ChapterOutcome where
  | mkdirTempFailed
  | panic
  | archived (archive : files.Archive)
  deriving DecidableEq, Repr

/-- What a call of `Chapter` does: how it ends, the positions of the pages
whose fetch returned an error, and the number of requests sent. -/
structure ChapterResult where
  outcome : ChapterOutcome
  failedPages : List Nat
  requests : Nat
  deriving DecidableEq, Repr

/-- The error `Chapter` returns: that of `os.MkdirTemp` or that of
`CreateCbzArchive`; `true` stands for `err != nil`. -/
def ChapterResult.failed (r : ChapterResult) : Bool :=
  match r.outcome with
  | .mkdirTempFailed => true
  | .panic => true
  | .archived archive => archive.err.isSome

/-- The body of one goroutine of `Chapter` (lines 44-60) for the page at
position `i`, sending its requests to the server `env`. -/
def fetchPage (env : Env) (i : Nat) (imageInfo : ImageInfo) (scratch : List (String × List Nat)) :
    retry.Result × World :=
  let filenameNoExt := pageFilenameNoExt i
  if imageInfo.EncryptionKey.length ≠ 0 then
    decryptImage env imageInfo.ImageURL imageInfo.EncryptionKey filenameNoExt ⟨0, scratch⟩
  else singleFile env imageInfo.ImageURL filenameNoExt ⟨0, scratch⟩

/-- The goroutines of `Chapter` for the pages from position `i` on, up to
`wg.Wait()`.  Each page has its own server `envOf i` and its own file, so the
fetches are run one after the other: whether a fetch panicked, the positions
of the failed pages, the requests sent and the scratch directory. -/
def fetchPages (envOf : Nat → Env) :
    Nat → List ImageInfo → List (String × List Nat) → Bool × List Nat × Nat × List (String × List Nat)
  | _, [], scratch => (false, [], 0, scratch)
  | i, imageInfo :: rest, scratch =>
    match fetchPage (envOf i) i imageInfo scratch with
    | (.panic, w) => (true, [], w.requests, w.files)
    | (.nil, w) =>
      let r := fetchPages envOf (i + 1) rest w.files
      (r.1, r.2.1, w.requests + r.2.2.1, r.2.2.2)
    | (.errors _, w) =>
      let r := fetchPages envOf (i + 1) rest w.files
      (r.1, i :: r.2.1, w.requests + r.2.2.1, r.2.2.2)

/-- The files of the scratch directory as `CreateCbzArchive` finds them. -/
def scratchFiles (disk : Disk) (scratch : List (String × List Nat)) : List files.PageFile :=
  scratch.map (fun f => ⟨f.1, f.2, disk.decodeWidth f.2, disk.openOk f.1, disk.zipOk f.1⟩)

/-- The function `Chapter`.  The errors of the page fetches are printed by the
goroutines (lines 51 and 56) and not looked at after `wg.Wait()`. -/
def Chapter (envOf : Nat → Env) (disk : Disk) (ord : RangeOrder (Nat × Nat))
    (chapter : Mangarr.Chapter) : ChapterResult :=
  if !disk.mkdirTempOk then ⟨.mkdirTempFailed, [], 0⟩
  else
    match fetchPages envOf 0 chapter.ImageInfo [] with
    | (true, failedPages, requests, _) => ⟨.panic, failedPages, requests⟩
    | (false, failedPages, requests, scratch) =>
      ⟨.archived (files.CreateCbzArchive disk.target ord (scratchFiles disk scratch)
          chapter.IsManhwa), failedPages, requests⟩

/-- A disk on which everything works and every file decodes as an image of
width 100. -/
def goodDisk : Disk :=
  ⟨true, ⟨true, true⟩, fun _ => some 100, fun _ => true, fun _ => true⟩

/-- A server that answers every request with a PNG image of three bytes. -/
def imageServer : Env :=
  ⟨fun _ => true, fun _ => ⟨some ⟨200, "image/png", [1, 2, 3]⟩, true, true, true⟩⟩

/-- A server that answers every request with 403. -/
def forbiddenServer : Env :=
  ⟨fun _ => true, fun _ => ⟨some ⟨403, "text/plain", []⟩, true, true, true⟩⟩

/-- A server that answers every request with 200 and an HTML page. -/
def htmlServer : Env :=
  ⟨fun _ => true, fun _ => ⟨some ⟨200, "text/html", [60, 104]⟩, true, true, true⟩⟩

/-- A chapter as a provider hands it over, its page list still empty. -/
def chapterWithoutPages : Mangarr.Chapter :=
  ⟨"id", "url", 1, "", false, []⟩

/-- A chapter of two pages without encryption keys. -/
def twoPageChapter : Mangarr.Chapter :=
  ⟨"id", "url", 1, "", false, [⟨"https://host/1", "", 0, 0⟩, ⟨"https://host/2", "", 0, 0⟩]⟩

end download

/-! ## cmd: the run for one chapter -/

namespace cmd

/-- How the goroutine body for one chapter ends, by the message printed. -/
inductive RunOutcome where
  | chapterNotFound
  | getImageURLsFailed
  | skipped
  | downloadFailed
  | finished
  deriving DecidableEq, Repr

/-- What the goroutine body does: how it ends, the calls of the provider's
`GetImageURLs`, whether `download.Chapter` was called, and the page requests
sent. -/
structure Run where
  outcome : RunOutcome
  getImageURLsCalls : Nat
  chapterCalled : Bool
  pageRequests : Nat
  deriving DecidableEq, Repr

/-- The goroutine body of `monitorCmd` (lines 131-152), which is also that of
`downloadCmd` from line 111 on, for the chapter looked up.  `getImageURLs` is the provider's
method (`none` for an error, else the chapter with its pages),
`contentPathOf` the path built by the templater, `sanitize.Filename` and
`filepath.Join`, and `fileExists` tells whether `os.Stat` returns no error. -/
def chapterRun (getImageURLs : Chapter → Option Chapter) (contentPathOf : Chapter → String)
    (fileExists : String → Bool) (envOf : Nat → download.Env) (disk : download.Disk)
    (ord : RangeOrder (Nat × Nat)) (selectedChapter : Chapter) : Run :=
  match getImageURLs selectedChapter with
  | none => ⟨.getImageURLsFailed, 1, false, 0⟩
  | some selectedChapter =>
    let contentPath := contentPathOf selectedChapter
    if fileExists contentPath then ⟨.skipped, 1, false, 0⟩
    else
      let r := download.Chapter envOf disk ord selectedChapter
      if r.failed then ⟨.downloadFailed, 1, true, r.requests⟩
      else ⟨.finished, 1, true, r.requests⟩

/-- The goroutine body of `downloadCmd` (lines 102-134) for the selected
number `num`: the chapter is looked up in the chapter map, then the run is
that of `chapterRun`. -/
def downloadRun (chapters : List (ℚ × Chapter)) (num : ℚ)
    (getImageURLs : Chapter → Option Chapter) (contentPathOf : Chapter → String)
    (fileExists : String → Bool) (envOf : Nat → download.Env) (disk : download.Disk)
    (ord : RangeOrder (Nat × Nat)) : Run :=
  match mapLookup chapters num with
  | none => ⟨.chapterNotFound, 0, false, 0⟩
  | some selectedChapter =>
    chapterRun getImageURLs contentPathOf fileExists envOf disk ord selectedChapter

end cmd

namespace files

/-- A scratch directory with two pages whose bins tie: widths 100 and 500. -/
def twoWidths : List PageFile :=
  [pageOfWidth "001.jpg" 100, pageOfWidth "002.jpg" 500]

end files

/-! ## More Go library functions -/

namespace strings

/-- Go `strings.HasPrefix(s, prefix)`. -/
def HasPrefix : List Char → List Char → Bool
  | _, [] => true
  | [], _ :: _ => false
  | c :: cs, p :: ps => c == p && HasPrefix cs ps

/-- Go `strings.Contains(s, substr)` for a string `substr`. -/
def ContainsStr : List Char → List Char → Bool
  | [], substr => HasPrefix [] substr
  | c :: cs, substr => HasPrefix (c :: cs) substr || ContainsStr cs substr

/-- Go `strings.Trim(s, cutset)`: the characters of `cutset` removed from both
ends of `s`. -/
def Trim (s cutset : List Char) : List Char :=
  ((s.dropWhile (fun c => cutset.contains c)).reverse.dropWhile
    (fun c => cutset.contains c)).reverse

/-- Go `strings.Replace(s, old, new, 1)` for a non-empty `old`: the first
occurrence of `old` replaced. -/
def ReplaceFirst : List Char → List Char → List Char → List Char
  | [], _, _ => []
  | c :: cs, old, new =>
    if HasPrefix (c :: cs) old then new ++ (c :: cs).drop old.length
    else c :: ReplaceFirst cs old new

/-- The scan of `strings.ReplaceAll`: `skip` characters of an occurrence of
`old` already replaced are still to be passed over. -/
def replaceAllFrom (old new : List Char) : Nat → List Char → List Char
  | _, [] => []
  | skip + 1, _ :: cs => replaceAllFrom old new skip cs
  | 0, c :: cs =>
    if HasPrefix (c :: cs) old then new ++ replaceAllFrom old new (old.length - 1) cs
    else c :: replaceAllFrom old new 0 cs

/-- Go `strings.ReplaceAll(s, old, new)` for a non-empty `old`: the occurrences
of `old`, found from the left without overlap, replaced. -/
def ReplaceAll (s old new : List Char) : List Char :=
  replaceAllFrom old new 0 s

/-- Go `strings.SplitN(s, sep, n)` for a one-character `sep` and `n >= 0`: at
most `n` pieces, the last one holding the unsplit rest. -/
def SplitN (s : List Char) (sep : Char) : Nat → List (List Char)
  | 0 => []
  | 1 => [s]
  | n + 2 =>
    if sep ∈ s then
      s.takeWhile (fun c => c ≠ sep) :: SplitN ((s.dropWhile (fun c => c ≠ sep)).drop 1) sep (n + 1)
    else [s]

end strings

/-- The quotation mark. -/
def quote : String := String.singleton (Char.ofNat 34)

/-- The struct `domain.Manga`. -/
structure Manga where
  URL : String
  Title : String
  Chapters : List (ℚ × Chapter)
  deriving DecidableEq

/-- Go `m[k] = v`. -/
def mapSet {K V : Type} [DecidableEq K] : List (K × V) → K → V → List (K × V)
  | [], k, v => [(k, v)]
  | (k0, v0) :: rest, k, v => if k0 = k then (k0, v) :: rest else (k0, v0) :: mapSet rest k v

/-! ## internal/sanitize -/

namespace sanitize

/-- The characters of the class `[<>:"/\\|?*]`. -/
def illegalChars : List Char :=
  ['<', '>', ':', Char.ofNat 34, '/', Char.ofNat 92, '|', '?', '*']

/-- The function `Filename`: spaces and dots trimmed from both ends, then every
character of the class removed. -/
def Filename (title : String) : String :=
  String.mk ((strings.Trim title.toList [' ', '.']).filter (fun c => !illegalChars.contains c))

end sanitize

/-! ## internal/config -/

namespace config

/-- The fields of `domain.Config` that `processLines` reads. -/
structure Config where
  LogLevel : String
  LogPath : String
  deriving DecidableEq

/-- The line `logLevel: "<LogLevel>"` (lines 348 and 368). -/
def logLevelLine (cfg : Config) : String :=
  "logLevel: " ++ quote ++ cfg.LogLevel ++ quote

/-- The line for the log path (lines 352-356 and 376-380). -/
def logPathLine (cfg : Config) : String :=
  if cfg.LogPath = "" then "#logPath: " ++ quote ++ quote
  else "logPath: " ++ quote ++ cfg.LogPath ++ quote

/-- The loop of `processLines` (lines 346-359) over the lines still to visit:
the lines as they are afterwards, `foundLineLogLevel` and `foundLineLogPath`.
Both tests look at `line`, the line as it was. -/
def processLoop (cfg : Config) : List String → Bool → Bool → List String × Bool × Bool
  | [], foundLineLogLevel, foundLineLogPath => ([], foundLineLogLevel, foundLineLogPath)
  | line :: rest, foundLineLogLevel, foundLineLogPath =>
    let hitLevel := !foundLineLogLevel && strings.ContainsStr line.toList "logLevel:".toList
    let afterLevel := if hitLevel then logLevelLine cfg else line
    let foundLineLogLevel := foundLineLogLevel || hitLevel
    let hitPath := !foundLineLogPath && strings.ContainsStr line.toList "logPath:".toList
    let afterPath := if hitPath then logPathLine cfg else afterLevel
    let foundLineLogPath := foundLineLogPath || hitPath
    let r := processLoop cfg rest foundLineLogLevel foundLineLogPath
    (afterPath :: r.1, r.2.1, r.2.2)

/-- The function `AppConfig.processLines`. -/
def processLines (cfg : Config) (lines : List String) : List String :=
  let r := processLoop cfg lines false false
  let lines := r.1
  let lines :=
    if !r.2.1 then
      lines ++ ["# Log level", "#", "# Default: " ++ quote ++ "DEBUG" ++ quote, "#",
        "# Options: " ++ quote ++ "ERROR" ++ quote ++ ", " ++ quote ++ "DEBUG" ++ quote ++ ", " ++
          quote ++ "INFO" ++ quote ++ ", " ++ quote ++ "WARN" ++ quote ++ ", " ++ quote ++
          "TRACE" ++ quote, "#", logLevelLine cfg]
    else lines
  if !r.2.2 then lines ++ ["# Log Path", "#", "# Optional", "#", logPathLine cfg]
  else lines

end config

/-! ## internal/source -/

namespace source

/-- How a helper of an adapter ends: with a value, with an error, or in a
panic. -/
inductive Outcome (α : Type) where
  | ok (value : α)
  | error
  | panic
  deriving DecidableEq, Repr

/-- The function `asurascans.splitChapterInfo`; `parts[1]` panics when the
input has no space. -/
def splitChapterInfo (parseFloat : List Char → Option ℚ) (input : String) :
    Outcome (ℚ × String) :=
  let parts := strings.SplitN input.toList ' ' 3
  match parts[1]? with
  | none => .panic
  | some chapterNumberStr =>
    match parseFloat chapterNumberStr with
    | none => .error
    | some chapterNumber =>
      let chapterTitle := strings.TrimSpace (List.intercalate [' '] (parts.drop 2))
      .ok (chapterNumber, sanitize.Filename (String.mk chapterTitle))

/-- A match of `Chapter (\d+(\.\d+)?)` that starts at the head of `s`: the
first submatch. -/
def chapterNumberAt (s : List Char) : Option (List Char) :=
  if strings.HasPrefix s "Chapter ".toList then
    let rest := s.drop 8
    let whole := rest.takeWhile Char.isDigit
    if whole.length = 0 then none
    else
      match rest.dropWhile Char.isDigit with
      | c :: more =>
        let fraction := more.takeWhile Char.isDigit
        if c = '.' ∧ fraction.length ≠ 0 then some (whole ++ '.' :: fraction) else some whole
      | [] => some whole
  else none

/-- Go `chapterNumberPattern.FindStringSubmatch(name)`, given by the first
submatch of the leftmost match (`none` when nothing matches). -/
def findChapterNumber : List Char → Option (List Char)
  | [] => none
  | c :: cs =>
    match chapterNumberAt (c :: cs) with
    | some m => some m
    | none => findChapterNumber cs

/-- The function `tcbscans.getChapterNumber`: the number and whether an error
is returned (`false` for `nil`). -/
def getChapterNumber (parseFloat : List Char → Option ℚ) (name : String) : ℚ × Bool :=
  match findChapterNumber name.toList with
  | some m =>
    match parseFloat m with
    | none => (0, true)
    | some number => (number, false)
  | none => (0, false)

/-- The part of a decoded `mangadexChapter` that `GetImageURLs` reads. -/
structure MangadexChapter where
  BaseURL : String
  Hash : String
  Data : List String
  deriving DecidableEq

/-- The loop of `mangadex.GetImageURLs` (lines 278-285); `joinPath` is
`url.JoinPath`, `none` standing for its error. -/
def mangadexImageInfos (joinPath : String → List String → Option String)
    (chapterResp : MangadexChapter) : List String → List ImageInfo → Option (List ImageInfo)
  | [], imageInfos => some imageInfos
  | imageURL :: rest, imageInfos =>
    match joinPath chapterResp.BaseURL ["data", chapterResp.Hash, imageURL] with
    | none => none
    | some imagePath =>
      mangadexImageInfos joinPath chapterResp rest (imageInfos ++ [⟨imagePath, "", 0, 0⟩])

/-- The function `mangadex.GetImageURLs` from line 278 on, `chapterResp` and
`errFunc` being what the request left: whether an error is returned, and the
chapter afterwards. -/
def mangadexGetImageURLs (joinPath : String → List String → Option String)
    (chapterResp : MangadexChapter) (errFunc : Bool) (chapter : Chapter) : Bool × Chapter :=
  match mangadexImageInfos joinPath chapterResp chapterResp.Data [] with
  | none => (true, chapter)
  | some imageInfos =>
    if imageInfos.length = 0 then (true, chapter)
    else (errFunc, { chapter with ImageInfo := imageInfos })

/-- A chapter of a decoded `cubariResponse`. -/
structure CubariChapter where
  Groups : List (String × List String)
  Title : String
  deriving DecidableEq

/-- The part of a decoded `cubariResponse` that `GetManga` reads. -/
structure CubariResponse where
  Title : String
  Chapters : List (String × CubariChapter)
  deriving DecidableEq

/-- The function `cubari.getChapterName`: what follows the first colon (the
whole string when there is none), white space trimmed. -/
def getChapterName (chapterString : String) : String :=
  let s := chapterString.toList
  String.mk (strings.TrimSpace (if ':' ∈ s then (s.dropWhile (fun c => c ≠ ':')).drop 1 else s))

/-- The loop of `cubari.GetManga` (lines 108-130) over the chapters still to
visit, in the order of the list: the chapter map, or `none` for the error of
`strconv.ParseFloat`. -/
def cubariChapters (parseFloat : List Char → Option ℚ) (groupID : String) :
    List (String × CubariChapter) → List (ℚ × Chapter) → Option (List (ℚ × Chapter))
  | [], chapters => some chapters
  | (num, chapter) :: rest, chapters =>
    match parseFloat num.toList with
    | none => none
    | some chapterNum =>
      let chapterTitle := getChapterName chapter.Title
      match mapLookup chapter.Groups groupID with
      | some imageURLs =>
        cubariChapters parseFloat groupID rest
          (mapSet chapters chapterNum
            ⟨"", "", chapterNum, sanitize.Filename chapterTitle, false,
              imageURLs.map (fun imageURL => ⟨imageURL, "", 0, 0⟩)⟩)
      | none => cubariChapters parseFloat groupID rest chapters

/-- The function `cubari.GetManga` from line 98 on, `cubariResp` and
`retryErr` being what the request left: the manga, or `none` for an error. -/
def cubariGetManga (parseFloat : List Char → Option ℚ) (groupID : String)
    (cubariResp : CubariResponse) (retryErr : Bool) : Option Manga :=
  if cubariResp.Title.length = 0 then none
  else
    match cubariChapters parseFloat groupID cubariResp.Chapters [] with
    | none => none
    | some chapters =>
      if chapters.length = 0 then none
      else if retryErr then none
      else some ⟨"", sanitize.Filename cubariResp.Title, chapters⟩

/-- The function `cubari.GetImageURLs`: no error, the chapter as it was. -/
def cubariGetImageURLs (chapter : Chapter) : Bool × Chapter :=
  (false, chapter)

/-- A response of cubari in which the group "g" has chapter 1 with an empty
list of pages. -/
def cubariEmptyGroup : CubariResponse :=
  ⟨"Demo", [("1", ⟨[("g", [])], "Chapter 1: One"⟩)]⟩

end source

/-! ## internal/utils and internal/templater -/

namespace utils

/-- The function `PadFloat`; `formatFloat` is
`strconv.FormatFloat(float64(num), 'f', -1, 32)`. -/
def PadFloat (formatFloat : ℚ → List Char) (num : ℚ) (width : Int) : List Char :=
  let str := formatFloat num
  let parts := strings.Split str '.'
  let intPart := parts.headD []
  let padding := width - (intPart.length : Int)
  let intPart := if padding > 0 then List.replicate padding.toNat '0' ++ intPart else intPart
  if parts.length > 1 then intPart ++ '.' :: parts.getD 1 [] else intPart

end utils

namespace templater

/-- The class `\w` of the pattern: ASCII letters, digits and the underscore. -/
def isWordChar (c : Char) : Bool :=
  c.isAlphanum || c == '_'

/-- A match of `templatePattern`: `match[0]`, `match[2]` and `match[3]`. -/
structure Match where
  full : List Char
  varName : List Char
  options : List Char
  deriving DecidableEq, Repr

/-- The characters a lazy `.*?` of the pattern passes before the closing
brace: anything but the brace and the line feed. -/
def isOptionChar (c : Char) : Bool :=
  c != '}' && c != Char.ofNat 10

/-- The match of `{((\w+?)(:.*?)?)}` that starts at the head of `s`, if there
is one: an opening brace, a run of word characters up to a colon or a closing
brace, and after a colon the shortest run up to a closing brace on the same
line. -/
def matchAt (s : List Char) : Option Match :=
  match s with
  | [] => none
  | c :: rest =>
    if c = '{' then
      let name := rest.takeWhile isWordChar
      if name.length = 0 then none
      else
        match rest.dropWhile isWordChar with
        | [] => none
        | d :: after =>
          if d = '}' then some ⟨'{' :: name ++ ['}'], name, []⟩
          else if d = ':' then
            let opts := after.takeWhile isOptionChar
            match after.dropWhile isOptionChar with
            | [] => none
            | e :: _ =>
              if e = '}' then some ⟨'{' :: name ++ ':' :: opts ++ ['}'], name, ':' :: opts⟩
              else none
          else none
    else none

/-- Go `templatePattern.FindAllStringSubmatch(template, -1)`: the matches from
the left, without overlap; `skip` characters of the last match are still to be
passed over. -/
def findAllFrom : Nat → List Char → List Match
  | _, [] => []
  | skip + 1, _ :: cs => findAllFrom skip cs
  | 0, c :: cs =>
    match matchAt (c :: cs) with
    | some m => m :: findAllFrom (m.full.length - 1) cs
    | none => findAllFrom 0 cs

/-- Go `strconv.ParseInt(s, 10, 32)` with its error dropped: the value, 0 for
a string that is no number, the nearest bound for a number out of range. -/
def parseInt32 (s : List Char) : Int :=
  let clamp (v : Int) : Int := if v > 2147483647 then 2147483647
    else if v < -2147483648 then -2147483648 else v
  let magnitude (digits : List Char) : Option Nat :=
    if digits.length = 0 then none else parse.readDigits digits 0
  match s with
  | [] => 0
  | c :: cs =>
    if c = '+' then ((magnitude cs).map (fun n => clamp n)).getD 0
    else if c = '-' then ((magnitude cs).map (fun n => clamp (-(n : Int)))).getD 0
    else ((magnitude (c :: cs)).map (fun n => clamp n)).getD 0

/-- The library functions that print the chapter number:
`strconv.FormatFloat(float64(num), 'f', -1, 32)` and `fmt.Sprintf("%g", num)`. -/
structure NumberFormat where
  formatFloat : ℚ → List Char
  formatG : ℚ → List Char

/-- The method `handleNum`. -/
def handleNum (fmt : NumberFormat) (chapter : Chapter) (options : List Char) : List Char :=
  if options.length = 0 then fmt.formatG chapter.Number
  else
    let length := parseInt32 (strings.ReplaceAll options [':'] [])
    utils.PadFloat fmt.formatFloat chapter.Number length

/-- The method `handleMangaTitle`. -/
def handleMangaTitle (manga : Manga) (options : List Char) : List Char :=
  if manga.Title = "" then []
  else
    let cleanString := strings.ReplaceAll options [':'] []
    strings.ReplaceAll cleanString "<.>".toList manga.Title.toList

/-- The method `handleChapterTitle`. -/
def handleChapterTitle (chapter : Chapter) (options : List Char) : List Char :=
  if chapter.Title = "" then []
  else
    let cleanString := strings.ReplaceAll options [':'] []
    strings.ReplaceAll cleanString "<.>".toList chapter.Title.toList

/-- The body of the loop of `ExecTemplate` (lines 58-74) for one match. -/
def execMatch (fmt : NumberFormat) (manga : Manga) (chapter : Chapter)
    (newString : List Char) (m : Match) : List Char :=
  let replace :=
    if m.varName = "num".toList then handleNum fmt chapter m.options
    else if m.varName = "manga".toList then handleMangaTitle manga m.options
    else if m.varName = "title".toList then handleChapterTitle chapter m.options
    else m.full
  strings.ReplaceFirst newString m.full replace

/-- The method `ExecTemplate`. -/
def ExecTemplate (fmt : NumberFormat) (manga : Manga) (chapter : Chapter)
    (template : String) : String :=
  String.mk ((findAllFrom 0 template.toList).foldl (execMatch fmt manga chapter)
    template.toList)

/-- The default of `namingTemplate` (config.go, line 36). -/
def defaultTemplate : String := "\x7bmanga:<.>\x7d Ch. \x7bnum:3\x7d\x7btitle: - <.>\x7d"

/-- An instance of the two library functions on whole numbers from 0 on: the
decimal digits. -/
def wholeNumberFormat : NumberFormat :=
  ⟨fun q => Nat.toDigits 10 q.num.toNat, fun q => Nat.toDigits 10 q.num.toNat⟩

end templater

/-! ## Chapter numbers as float32 values, NaN included -/

/-- A Go `float32`: NaN, or one of the other values, for which `F` stands
(linearly ordered by Go's `<=`; -0 and +0, which are `==`, are one element). -/
inductive Float32 (F : Type) where
  | NaN
  | num (x : F)
  deriving DecidableEq

namespace Float32
variable {F : Type} [LinearOrder F]

/-- Go `a == b` on float32: false as soon as one side is NaN. -/
def eq : Float32 F → Float32 F → Bool
  | num a, num b => decide (a = b)
  | _, _ => false

/-- Go `a <= b` on float32: false as soon as one side is NaN. -/
def le : Float32 F → Float32 F → Bool
  | num a, num b => decide (a ≤ b)
  | _, _ => false

/-- Go `a >= b` on float32: false as soon as one side is NaN. -/
def ge : Float32 F → Float32 F → Bool
  | num a, num b => decide (a ≥ b)
  | _, _ => false

/-- Go `a > b` on float32: false as soon as one side is NaN. -/
def gt : Float32 F → Float32 F → Bool
  | num a, num b => decide (a > b)
  | _, _ => false

/-- Go's built-in `min` on float32: NaN as soon as an argument is NaN. -/
def min : Float32 F → Float32 F → Float32 F
  | num a, num b => num (Min.min a b)
  | _, _ => NaN

/-- Go's built-in `max` on float32: NaN as soon as an argument is NaN. -/
def max : Float32 F → Float32 F → Float32 F
  | num a, num b => num (Max.max a b)
  | _, _ => NaN

/-- The number that a float32 value other than NaN is. -/
def toNum {G : Type} : Float32 G → Option G
  | NaN => none
  | num x => some x

end Float32

/-- The order in which a run on float32 keys visits the keys of maps that have
no NaN key, as an order on the numbers. -/
def RangeOrder.numbers {G : Type} (ord : RangeOrder (Float32 G)) : RangeOrder G :=
  ⟨fun i l => (ord.pick i (l.map Float32.num)).filterMap Float32.toNum,
   fun i l => by
    have h := (ord.perm i (l.map Float32.num)).filterMap Float32.toNum
    have e : (l.map Float32.num).filterMap Float32.toNum = l := by
      rw [List.filterMap_map]
      exact List.filterMap_some l
    rw [e] at h
    exact h⟩

/-! ## internal/parse on float32 keys

The functions of `parse.go` once more, now with the chapter numbers the
program has: float32 values, NaN included.  `strconv.ParseFloat` reads "NaN"
as NaN without an error, so a token of the expression and a chapter key of a
provider response can be NaN. -/

namespace parse
namespace float32

section
variable {F V : Type} [LinearOrder F]

/-- Go `m[k] = true` on a `map[float32]bool` all of whose values are `true`,
the map being given by its entries: a key that is `==` to `k` is overwritten,
otherwise an entry is added.  NaN is `==` to no key, so it is added each time. -/
def setKey (m : List (Float32 F)) (k : Float32 F) : List (Float32 F) :=
  if m.any (fun e => Float32.eq e k) then m else m ++ [k]

/-- Go `v, ok := m[k]` on a `map[float32]V`: the entry whose key is `==` to
`k`; there is none for NaN. -/
def mapLookup (m : List (Float32 F × V)) (k : Float32 F) : Option V :=
  (m.find? (fun e => Float32.eq e.1 k)).map Prod.snd

/-- The function `getRange`, for the two-element `rangeParts` it is called with
(on an error the Go code returns zeros, which its caller drops). -/
def getRange (parseFloat : List Char → Option (Float32 F)) (rangeParts : List (List Char)) :
    Except Error (Float32 F × Float32 F) :=
  match parseFloat (strings.TrimSpace (rangeParts.getD 0 [])) with
  | none => .error (.invalidStartOfRange (rangeParts.getD 0 []))
  | some start =>
    match parseFloat (strings.TrimSpace (rangeParts.getD 1 [])) with
    | none => .error (.invalidEndOfRange (rangeParts.getD 1 []))
    | some end_ =>
      if Float32.gt start end_ then
        .error (.startGreaterThanEnd (rangeParts.getD 0 []) (rangeParts.getD 1 []))
      else .ok (start, end_)

/-- The inner loop of `ChapterSelection` (lines 29-33): every available chapter
with `chapter >= start && chapter <= end` is put into `uniqueChapters`. -/
def addRange (start end_ : Float32 F) (visit : List (Float32 F))
    (uniqueChapters : List (Float32 F)) : List (Float32 F) :=
  visit.foldl (fun u chapter =>
    if Float32.ge chapter start && Float32.le chapter end_ then setKey u chapter else u)
    uniqueChapters

/-- The loop `for _, part := range parts` of `ChapterSelection`, `i` being the
index of the first part of `parts` and `uniqueChapters` the map built so far:
the final `uniqueChapters`, or the error the loop returns with. -/
def selectionLoop (parseFloat : List Char → Option (Float32 F)) (ord : RangeOrder (Float32 F))
    (availableChapters : List (Float32 F × V)) :
    Nat → List (List Char) → List (Float32 F) → Except Error (List (Float32 F))
  | _, [], uniqueChapters => .ok uniqueChapters
  | i, part :: parts, uniqueChapters =>
    if strings.Contains part '-' then
      let rangeParts := strings.Split part '-'
      if rangeParts.length ≠ 2 then .error (.invalidRangeFormat part)
      else
        match getRange parseFloat rangeParts with
        | .error err => .error err
        | .ok (start, end_) =>
          selectionLoop parseFloat ord availableChapters (i + 1) parts
            (addRange start end_ (ord.pick i (mapKeys availableChapters)) uniqueChapters)
    else
      match parseFloat (strings.TrimSpace part) with
      | none => .error (.numError (strings.TrimSpace part))
      | some chapter =>
        selectionLoop parseFloat ord availableChapters (i + 1) parts
          (setKey uniqueChapters chapter)

/-- The function `ChapterSelection`: the selected chapter numbers and the error
(`([], some err)` is Go's `nil, err`).  The last `range`, over
`uniqueChapters`, is statement number `len(parts)` of the run. -/
def ChapterSelection (parseFloat : List Char → Option (Float32 F))
    (ord : RangeOrder (Float32 F)) (input : List Char)
    (availableChapters : List (Float32 F × V)) : List (Float32 F) × Option Error :=
  let parts := strings.Split input ','
  match selectionLoop parseFloat ord availableChapters 0 parts [] with
  | .error err => ([], some err)
  | .ok uniqueChapters => (ord.pick parts.length uniqueChapters, none)

/-- Go `slices.Min` on a float32 slice given by its first element and the
rest: `m = min(m, x[i])` along the slice, so NaN if an element is NaN. -/
def slicesMin (x0 : Float32 F) (rest : List (Float32 F)) : Float32 F :=
  rest.foldl (fun m x => Float32.min m x) x0

/-- Go `slices.Max` on a float32 slice given by its first element and the
rest: `m = max(m, x[i])` along the slice, so NaN if an element is NaN. -/
def slicesMax (x0 : Float32 F) (rest : List (Float32 F)) : Float32 F :=
  rest.foldl (fun m x => Float32.max m x) x0

/-- The function `GetMinAndMaxKeys` at `K = float32`, the one type the program
calls it with.  The keys are collected in the order of statement 0 of the run;
the collected slice is never empty once `len(someMap) == 0` is excluded, so the
branch for an empty slice is never taken. -/
def GetMinAndMaxKeys (ord : RangeOrder (Float32 F)) (someMap : List (Float32 F × V)) :
    List (Float32 F) × List (Float32 F) × Option Error :=
  if someMap.length = 0 then ([], [], some .mapIsEmpty)
  else
    match ord.pick 0 (mapKeys someMap) with
    | [] => ([], [], some .mapIsEmpty)
    | k :: keys => ([slicesMin k keys], [slicesMax k keys], none)

end

/-- An instance of `strconv.ParseFloat(s, 32)`: the spelling "NaN" is read as
NaN, as the library does, and a plain decimal as `parseDecimal` reads it. -/
def parseDecimalOrNaN (s : List Char) : Option (Float32 ℚ) :=
  if s = "NaN".toList then some Float32.NaN else (parseDecimal s).map Float32.num

/-- The chapters of "Demo" under float32 keys: chapters 1 and 2.5. -/
def demoChapters : List (Float32 ℚ × Chapter) :=
  [(Float32.num 1, demoChapter 1 3), (Float32.num (mkRat 5 2), demoChapter (mkRat 5 2) 2)]

/-- The chapter map a provider response with the chapter keys "1" and "NaN"
is stored as (the values are the chapter titles). -/
def nanChapters : List (Float32 ℚ × String) :=
  [(Float32.num 1, "one"), (Float32.NaN, "not a number")]

end float32
end parse

/-! ## Lemmas -/

section lemmas
open parse
variable {F V : Type} [LinearOrder F]

theorem setKey_mem {K : Type} [DecidableEq K] (m : List K) (k n : K) :
    n ∈ setKey m k ↔ n ∈ m ∨ n = k := by
  unfold setKey
  split
  · constructor
    · exact Or.inl
    · rintro (h | h)
      · exact h
      · subst h; assumption
  · simp

theorem setKey_nodup {K : Type} [DecidableEq K] (m : List K) (k : K) (h : m.Nodup) :
    (setKey m k).Nodup := by
  unfold setKey
  split
  · exact h
  · rename_i hk
    exact List.Nodup.append h (List.nodup_singleton k) (by simpa using hk)

theorem addRange_mem (s e : F) (visit u : List F) (n : F) :
    n ∈ addRange s e visit u ↔ n ∈ u ∨ (n ∈ visit ∧ s ≤ n ∧ n ≤ e) := by
  unfold addRange
  induction visit generalizing u with
  | nil => simp
  | cons c cs ih =>
    rw [List.foldl_cons, ih]
    by_cases hc : c ≥ s ∧ c ≤ e
    · rw [if_pos hc, setKey_mem]
      constructor
      · rintro ((h | h) | h)
        · exact Or.inl h
        · subst h; exact Or.inr ⟨List.mem_cons_self _ _, hc.1, hc.2⟩
        · exact Or.inr ⟨List.mem_cons_of_mem _ h.1, h.2⟩
      · rintro (h | ⟨h, h2⟩)
        · exact Or.inl (Or.inl h)
        · rcases List.mem_cons.1 h with h | h
          · exact Or.inl (Or.inr h)
          · exact Or.inr ⟨h, h2⟩
    · rw [if_neg hc]
      constructor
      · rintro (h | h)
        · exact Or.inl h
        · exact Or.inr ⟨List.mem_cons_of_mem _ h.1, h.2⟩
      · rintro (h | ⟨h, h2⟩)
        · exact Or.inl h
        · rcases List.mem_cons.1 h with h | h
          · subst h; exact absurd ⟨h2.1, h2.2⟩ hc
          · exact Or.inr ⟨h, h2⟩

theorem addRange_nodup (s e : F) (visit u : List F) (h : u.Nodup) :
    (addRange s e visit u).Nodup := by
  unfold addRange
  induction visit generalizing u with
  | nil => simpa using h
  | cons c cs ih =>
    rw [List.foldl_cons]
    apply ih
    split
    · exact setKey_nodup _ _ h
    · exact h

theorem getRange_pair (pf : List Char → Option F) (a b : List Char) :
    getRange pf [a, b] =
      match pf (strings.TrimSpace a), pf (strings.TrimSpace b) with
      | none, _ => .error (.invalidStartOfRange a)
      | some _, none => .error (.invalidEndOfRange b)
      | some A, some B => if A > B then .error (.startGreaterThanEnd a b) else .ok (A, B) := by
  unfold getRange
  simp only [List.getD_cons_zero, List.getD_cons_succ]
  cases pf (strings.TrimSpace a) <;> cases pf (strings.TrimSpace b) <;> rfl

theorem loop_accepts (pf : List Char → Option F) (ord : RangeOrder F) (avail : List (F × V))
    (parts : List (List Char)) :
    ∀ (i : Nat) (u : List F), (∀ part ∈ parts, accepts pf part = true) →
      ∃ u2, selectionLoop pf ord avail i parts u = .ok u2 ∧ (u.Nodup → u2.Nodup) ∧
        ∀ n, n ∈ u2 ↔ n ∈ u ∨ ∃ part ∈ parts, selects pf avail part n := by
  induction parts with
  | nil => intro i u _; exact ⟨u, rfl, id, by simp⟩
  | cons part rest ih =>
    intro i u hall
    have hp := hall part (List.mem_cons_self _ _)
    have hrest : ∀ q ∈ rest, accepts pf q = true := fun q hq => hall q (List.mem_cons_of_mem _ hq)
    by_cases hc : strings.Contains part '-' = true
    · simp only [accepts, hc, if_true] at hp
      split at hp
      · rename_i a b hsplit
        split at hp
        · rename_i A B hA hB
          have hAB : A ≤ B := of_decide_eq_true hp
          obtain ⟨u2, h1, h2, h3⟩ := ih (i + 1)
            (addRange A B (ord.pick i (mapKeys avail)) u) hrest
          refine ⟨u2, ?_, fun hu => h2 (addRange_nodup _ _ _ _ hu), ?_⟩
          · simp only [selectionLoop, hc, if_true, hsplit, getRange_pair, hA, hB]
            simp [not_lt.2 hAB, h1]
          · intro n
            rw [h3, addRange_mem, (ord.perm i (mapKeys avail)).mem_iff]
            constructor
            · rintro ((h | h) | ⟨q, hq, h⟩)
              · exact Or.inl h
              · refine Or.inr ⟨part, List.mem_cons_self _ _, ?_⟩
                simp only [selects, hc, if_true]
                exact ⟨a, b, A, B, hsplit, hA, hB, h.1, h.2.1, h.2.2⟩
              · exact Or.inr ⟨q, List.mem_cons_of_mem _ hq, h⟩
            · rintro (h | ⟨q, hq, h⟩)
              · exact Or.inl (Or.inl h)
              · rcases List.mem_cons.1 hq with hq | hq
                · subst hq
                  simp only [selects, hc, if_true] at h
                  obtain ⟨a2, b2, A2, B2, hs, hA2, hB2, hk, hl, hr⟩ := h
                  rw [hsplit] at hs
                  simp only [List.cons.injEq, and_true] at hs
                  obtain ⟨rfl, rfl⟩ := hs
                  rw [hA] at hA2; rw [hB] at hB2
                  cases hA2; cases hB2
                  exact Or.inl (Or.inr ⟨hk, hl, hr⟩)
                · exact Or.inr ⟨q, hq, h⟩
        · exact absurd hp (by simp)
      · exact absurd hp (by simp)
    · simp only [accepts, hc] at hp
      have hc2 : strings.Contains part '-' = false := by simpa using hc
      obtain ⟨ch, hch⟩ := Option.isSome_iff_exists.1 (by simpa using hp)
      obtain ⟨u2, h1, h2, h3⟩ := ih (i + 1) (setKey u ch) hrest
      refine ⟨u2, ?_, fun hu => h2 (setKey_nodup _ _ hu), ?_⟩
      · simp [selectionLoop, hc2, hch, h1]
      · intro n
        rw [h3, setKey_mem]
        constructor
        · rintro ((h | h) | ⟨q, hq, h⟩)
          · exact Or.inl h
          · refine Or.inr ⟨part, List.mem_cons_self _ _, ?_⟩
            simp [selects, hc2, hch, h]
          · exact Or.inr ⟨q, List.mem_cons_of_mem _ hq, h⟩
        · rintro (h | ⟨q, hq, h⟩)
          · exact Or.inl (Or.inl h)
          · rcases List.mem_cons.1 hq with hq | hq
            · subst hq
              simp only [selects, hc2] at h
              rw [hch] at h
              simp at h
              exact Or.inl (Or.inr h.symm)
            · exact Or.inr ⟨q, hq, h⟩

theorem loop_step_reject (pf : List Char → Option F) (ord : RangeOrder F) (avail : List (F × V))
    (part : List Char) (rest : List (List Char)) (i : Nat) (u : List F)
    (h : accepts pf part = false) :
    ∃ e, selectionLoop pf ord avail i (part :: rest) u = .error e := by
  by_cases hc : strings.Contains part '-' = true
  · simp only [accepts, hc, if_true] at h
    by_cases hlen : (strings.Split part '-').length = 2
    · obtain ⟨a, b, hsplit⟩ := List.length_eq_two.1 hlen
      simp only [hsplit] at h
      simp only [selectionLoop, hc, if_true, hsplit, getRange_pair]
      cases hA : pf (strings.TrimSpace a) with
      | none => simp only [List.length_cons, List.length_nil]; exact ⟨_, rfl⟩
      | some A =>
        cases hB : pf (strings.TrimSpace b) with
        | none => simp only [List.length_cons, List.length_nil]; exact ⟨_, rfl⟩
        | some B =>
          rw [hA, hB] at h
          have hAB : A > B := not_le.1 (of_decide_eq_false h)
          simp only [List.length_cons, List.length_nil, hAB, if_true]
          exact ⟨_, rfl⟩
    · simp only [selectionLoop, hc, if_true, ne_eq, hlen, not_false_eq_true]
      exact ⟨_, rfl⟩
  · have hc2 : strings.Contains part '-' = false := by simpa using hc
    simp only [accepts, hc2] at h
    have hnone : pf (strings.TrimSpace part) = none := by simpa using h
    simp only [selectionLoop, hc2, hnone]
    exact ⟨_, rfl⟩

theorem loop_step_accept (pf : List Char → Option F) (ord : RangeOrder F) (avail : List (F × V))
    (part : List Char) (rest : List (List Char)) (i : Nat) (u : List F)
    (h : accepts pf part = true) :
    ∃ u2, selectionLoop pf ord avail i (part :: rest) u =
      selectionLoop pf ord avail (i + 1) rest u2 := by
  by_cases hc : strings.Contains part '-' = true
  · simp only [accepts, hc, if_true] at h
    split at h
    · rename_i a b hsplit
      split at h
      · rename_i A B hA hB
        have hAB : A ≤ B := of_decide_eq_true h
        refine ⟨addRange A B (ord.pick i (mapKeys avail)) u, ?_⟩
        simp only [selectionLoop, hc, if_true, hsplit, getRange_pair, hA, hB]
        simp [not_lt.2 hAB]
      · exact absurd h (by simp)
    · exact absurd h (by simp)
  · have hc2 : strings.Contains part '-' = false := by simpa using hc
    simp only [accepts, hc2] at h
    obtain ⟨ch, hch⟩ := Option.isSome_iff_exists.1 (by simpa using h)
    exact ⟨setKey u ch, by simp [selectionLoop, hc2, hch]⟩

theorem loop_rejects (pf : List Char → Option F) (ord : RangeOrder F) (avail : List (F × V))
    (parts : List (List Char)) :
    ∀ (i : Nat) (u : List F), (∃ part ∈ parts, accepts pf part = false) →
      ∃ e, selectionLoop pf ord avail i parts u = .error e := by
  induction parts with
  | nil => rintro i u ⟨q, hq, _⟩; cases hq
  | cons part rest ih =>
    rintro i u ⟨q, hq, hbad⟩
    cases hacc : accepts pf part with
    | false => exact loop_step_reject pf ord avail part rest i u hacc
    | true =>
      obtain ⟨u2, h2⟩ := loop_step_accept pf ord avail part rest i u hacc
      rw [h2]
      rcases List.mem_cons.1 hq with hq | hq
      · subst hq; rw [hacc] at hbad; cases hbad
      · exact ih (i + 1) u2 ⟨q, hq, hbad⟩

/-! ### `strings.Split` -/

theorem Split_ne_nil (s : List Char) (sep : Char) : strings.Split s sep ≠ [] := by
  induction s with
  | nil => simp [strings.Split]
  | cons c cs ih =>
    unfold strings.Split
    split
    · simp
    · split <;> simp

theorem Split_single (sep : Char) : ∀ (s p : List Char),
    strings.Split s sep = [p] → s = p ∧ sep ∉ s := by
  intro s
  induction s with
  | nil => intro p h; simp [strings.Split] at h; simp [h]
  | cons c cs ih =>
    intro p h
    unfold strings.Split at h
    split at h
    · simp only [List.cons.injEq] at h
      exact absurd h.2 (Split_ne_nil cs sep)
    · rename_i hne
      split at h
      · rename_i hnil; exact absurd hnil (Split_ne_nil cs sep)
      · rename_i q qs hq
        simp only [List.cons.injEq] at h
        obtain ⟨rfl, rfl⟩ := h
        obtain ⟨h1, h2⟩ := ih q hq
        subst h1
        refine ⟨rfl, ?_⟩
        simp only [List.mem_cons, not_or]
        exact ⟨fun e => hne e.symm, h2⟩

theorem Split_of_not_mem (sep : Char) : ∀ (s : List Char), sep ∉ s →
    strings.Split s sep = [s] := by
  intro s
  induction s with
  | nil => intro _; rfl
  | cons c cs ih =>
    intro h
    simp only [List.mem_cons, not_or] at h
    unfold strings.Split
    rw [if_neg (fun e => h.1 e.symm), ih h.2]

theorem Split_cons_sep (sep : Char) (cs : List Char) :
    strings.Split (sep :: cs) sep = [] :: strings.Split cs sep := by
  conv => lhs; unfold strings.Split
  rw [if_pos rfl]

theorem Split_cons_ne (sep c : Char) (cs : List Char) (hc : c ≠ sep) :
    strings.Split (c :: cs) sep =
      match strings.Split cs sep with
      | [] => [[c]]
      | p :: ps => (c :: p) :: ps := by
  conv => lhs; unfold strings.Split
  rw [if_neg hc]

theorem Split_append_sep (sep : Char) (b : List Char) : ∀ (a : List Char),
    strings.Split (a ++ sep :: b) sep = strings.Split a sep ++ strings.Split b sep := by
  intro a
  induction a with
  | nil =>
    rw [List.nil_append, Split_cons_sep]
    rfl
  | cons c cs ih =>
    rw [List.cons_append]
    by_cases hc : c = sep
    · subst hc
      rw [Split_cons_sep, Split_cons_sep, ih]; rfl
    · rw [Split_cons_ne sep c _ hc, Split_cons_ne sep c _ hc, ih]
      cases hs : strings.Split cs sep with
      | nil => exact absurd hs (Split_ne_nil cs sep)
      | cons p ps => rfl

theorem Split_pair (sep : Char) : ∀ (s x y : List Char),
    strings.Split s sep = [x, y] → s = x ++ sep :: y := by
  intro s
  induction s with
  | nil => intro x y h; simp [strings.Split] at h
  | cons c cs ih =>
    intro x y h
    unfold strings.Split at h
    split at h
    · rename_i hc
      simp only [List.cons.injEq] at h
      obtain ⟨rfl, h2⟩ := h
      obtain ⟨h3, _⟩ := Split_single sep cs y h2
      rw [h3, hc]; rfl
    · split at h
      · simp at h
      · rename_i q qs hq
        simp only [List.cons.injEq] at h
        obtain ⟨rfl, rfl⟩ := h
        rw [ih q y hq]; rfl

theorem Contains_iff (s : List Char) (sep : Char) :
    strings.Contains s sep = true ↔ sep ∈ s := by
  unfold strings.Contains
  rw [List.any_eq_true]
  constructor
  · rintro ⟨c, hc, he⟩
    have : c = sep := by simpa using he
    exact this ▸ hc
  · intro h
    exact ⟨sep, h, by simp⟩

theorem Split_pair_unique (sep : Char) (s a b x y : List Char)
    (hs : s = a ++ sep :: b) (h : strings.Split s sep = [x, y]) : a = x ∧ b = y := by
  subst hs
  rw [Split_append_sep] at h
  have h1 := Split_ne_nil a sep
  have h2 := Split_ne_nil b sep
  cases ha : strings.Split a sep with
  | nil => exact absurd ha h1
  | cons p ps =>
    cases hb : strings.Split b sep with
    | nil => exact absurd hb h2
    | cons q qs =>
      rw [ha, hb] at h
      cases ps with
      | nil =>
        simp only [List.singleton_append, List.cons.injEq] at h
        obtain ⟨rfl, rfl, rfl⟩ := h
        exact ⟨(Split_single sep a p ha).1, (Split_single sep b q hb).1⟩
      | cons p2 ps2 =>
        have := congrArg List.length h
        simp at this

theorem selection_accepted (pf : List Char → Option F) (ord : RangeOrder F)
    (input : List Char) (avail : List (F × V))
    (h : ∀ part ∈ strings.Split input ',', accepts pf part = true) :
    (ChapterSelection pf ord input avail).2 = none ∧
    (ChapterSelection pf ord input avail).1.Nodup ∧
    ∀ n, n ∈ (ChapterSelection pf ord input avail).1 ↔
      ∃ part ∈ strings.Split input ',', selects pf avail part n := by
  obtain ⟨u2, h1, h2, h3⟩ := loop_accepts pf ord avail (strings.Split input ',') 0 [] h
  simp only [ChapterSelection, h1]
  refine ⟨trivial, ?_, ?_⟩
  · exact (ord.perm _ u2).nodup_iff.2 (h2 List.nodup_nil)
  · intro n
    rw [(ord.perm _ u2).mem_iff, h3]
    simp

theorem selection_rejected (pf : List Char → Option F) (ord : RangeOrder F)
    (input : List Char) (avail : List (F × V))
    (h : ∃ part ∈ strings.Split input ',', accepts pf part = false) :
    ∃ e, ChapterSelection pf ord input avail = ([], some e) := by
  obtain ⟨e, he⟩ := loop_rejects pf ord avail (strings.Split input ',') 0 [] h
  exact ⟨e, by simp only [ChapterSelection, he]⟩

theorem selection_cases (pf : List Char → Option F) (input : List Char) :
    (∀ part ∈ strings.Split input ',', accepts pf part = true) ∨
    (∃ part ∈ strings.Split input ',', accepts pf part = false) := by
  by_cases h : ∀ part ∈ strings.Split input ',', accepts pf part = true
  · exact Or.inl h
  · right
    push_neg at h
    obtain ⟨p, hp, hne⟩ := h
    exact ⟨p, hp, by simpa using hne⟩

theorem selection_ok_accepts (pf : List Char → Option F) (ord : RangeOrder F)
    (input : List Char) (avail : List (F × V))
    (hok : (ChapterSelection pf ord input avail).2 = none) :
    ∀ part ∈ strings.Split input ',', accepts pf part = true := by
  rcases selection_cases pf input with h | h
  · exact h
  · obtain ⟨e, he⟩ := selection_rejected pf ord input avail h
    rw [he] at hok
    cases hok

theorem accepts_range (pf : List Char → Option F) (a b : List Char) (A B : F)
    (ha : '-' ∉ a) (hb : '-' ∉ b)
    (hA : pf (strings.TrimSpace a) = some A) (hB : pf (strings.TrimSpace b) = some B)
    (hAB : A ≤ B) : accepts pf (a ++ '-' :: b) = true := by
  have hc : strings.Contains (a ++ '-' :: b) '-' = true := by
    rw [Contains_iff]; simp
  have hs : strings.Split (a ++ '-' :: b) '-' = [a, b] := by
    rw [Split_append_sep, Split_of_not_mem _ a ha, Split_of_not_mem _ b hb]; rfl
  simp only [accepts, hc, if_true, hs, hA, hB]
  exact decide_eq_true hAB

theorem selects_range (pf : List Char → Option F) (avail : List (F × V))
    (a b : List Char) (A B n : F) (ha : '-' ∉ a) (hb : '-' ∉ b)
    (hA : pf (strings.TrimSpace a) = some A) (hB : pf (strings.TrimSpace b) = some B) :
    selects pf avail (a ++ '-' :: b) n ↔ n ∈ mapKeys avail ∧ A ≤ n ∧ n ≤ B := by
  have hc : strings.Contains (a ++ '-' :: b) '-' = true := by
    rw [Contains_iff]; simp
  have hs : strings.Split (a ++ '-' :: b) '-' = [a, b] := by
    rw [Split_append_sep, Split_of_not_mem _ a ha, Split_of_not_mem _ b hb]; rfl
  simp only [selects, hc, if_true, hs]
  constructor
  · rintro ⟨a2, b2, A2, B2, he, hA2, hB2, h⟩
    simp only [List.cons.injEq, and_true] at he
    obtain ⟨rfl, rfl⟩ := he
    rw [hA] at hA2; rw [hB] at hB2
    cases hA2; cases hB2
    exact h
  · intro h
    exact ⟨a, b, A, B, rfl, hA, hB, h⟩

theorem badToken_rejected (pf : List Char → Option F) (part : List Char)
    (h : badToken pf part) : accepts pf part = false := by
  cases hacc : accepts pf part with
  | false => rfl
  | true =>
    exfalso
    by_cases hc : strings.Contains part '-' = true
    · simp only [accepts, hc, if_true] at hacc
      split at hacc
      · rename_i x y hsplit
        split at hacc
        · rename_i X Y hX hY
          have hXY : X ≤ Y := of_decide_eq_true hacc
          have hpart := Split_pair '-' part x y hsplit
          rcases h with ⟨_, hnr⟩ | ⟨A, B, ⟨a, b, hab, hA, hB⟩, hgt⟩
          · exact hnr ⟨X, Y, x, y, hpart, hX, hY⟩
          · obtain ⟨rfl, rfl⟩ := Split_pair_unique '-' part a b x y hab hsplit
            rw [hX] at hA; rw [hY] at hB
            cases hA; cases hB
            exact absurd hXY (not_le.2 hgt)
        · exact absurd hacc (by simp)
      · exact absurd hacc (by simp)
    · have hc2 : strings.Contains part '-' = false := by simpa using hc
      simp only [accepts, hc2] at hacc
      obtain ⟨n, hn⟩ := Option.isSome_iff_exists.1 (by simpa using hacc)
      rcases h with ⟨hnn, _⟩ | ⟨A, B, ⟨a, b, hab, _, _⟩, _⟩
      · exact hnn ⟨n, hn⟩
      · have : '-' ∈ part := by rw [hab]; simp
        rw [← Contains_iff] at this
        rw [this] at hc2
        cases hc2

theorem selects_congr {W : Type} (pf : List Char → Option F) (avail1 : List (F × V))
    (avail2 : List (F × W)) (hkeys : ∀ k, k ∈ mapKeys avail1 ↔ k ∈ mapKeys avail2)
    (part : List Char) (n : F) : selects pf avail1 part n ↔ selects pf avail2 part n := by
  unfold selects
  split
  · constructor
    · rintro ⟨a, b, A, B, h1, h2, h3, h4, h5⟩
      exact ⟨a, b, A, B, h1, h2, h3, (hkeys n).1 h4, h5⟩
    · rintro ⟨a, b, A, B, h1, h2, h3, h4, h5⟩
      exact ⟨a, b, A, B, h1, h2, h3, (hkeys n).2 h4, h5⟩
  · exact Iff.rfl

theorem selects_cases (pf : List Char → Option F) (avail : List (F × V))
    (part : List Char) (n : F) (h : selects pf avail part n) :
    n ∈ mapKeys avail ∨
      (strings.Contains part '-' = false ∧ pf (strings.TrimSpace part) = some n) := by
  unfold selects at h
  split at h
  · obtain ⟨_, _, _, _, _, _, _, hk, _⟩ := h
    exact Or.inl hk
  · rename_i hc
    exact Or.inr ⟨by simpa using hc, h⟩

theorem slicesMin_spec {K : Type} [LinearOrder K] (rest : List K) : ∀ (x0 : K),
    (slicesMin x0 rest = x0 ∨ slicesMin x0 rest ∈ rest) ∧
    slicesMin x0 rest ≤ x0 ∧ ∀ k ∈ rest, slicesMin x0 rest ≤ k := by
  unfold slicesMin
  induction rest with
  | nil => intro x0; simp
  | cons y ys ih =>
    intro x0
    rw [List.foldl_cons]
    obtain ⟨h1, h2, h3⟩ := ih (min x0 y)
    refine ⟨?_, le_trans h2 (min_le_left _ _), ?_⟩
    · rcases h1 with h1 | h1
      · rw [h1]
        rcases min_choice x0 y with h | h
        · exact Or.inl h
        · right; rw [h]; exact List.mem_cons_self _ _
      · exact Or.inr (List.mem_cons_of_mem _ h1)
    · intro k hk
      rcases List.mem_cons.1 hk with hk | hk
      · subst hk; exact le_trans h2 (min_le_right _ _)
      · exact h3 k hk

theorem slicesMax_spec {K : Type} [LinearOrder K] (rest : List K) : ∀ (x0 : K),
    (slicesMax x0 rest = x0 ∨ slicesMax x0 rest ∈ rest) ∧
    x0 ≤ slicesMax x0 rest ∧ ∀ k ∈ rest, k ≤ slicesMax x0 rest := by
  unfold slicesMax
  induction rest with
  | nil => intro x0; simp
  | cons y ys ih =>
    intro x0
    rw [List.foldl_cons]
    obtain ⟨h1, h2, h3⟩ := ih (max x0 y)
    refine ⟨?_, le_trans (le_max_left _ _) h2, ?_⟩
    · rcases h1 with h1 | h1
      · rw [h1]
        rcases max_choice x0 y with h | h
        · exact Or.inl h
        · right; rw [h]; exact List.mem_cons_self _ _
      · exact Or.inr (List.mem_cons_of_mem _ h1)
    · intro k hk
      rcases List.mem_cons.1 hk with hk | hk
      · subst hk; exact le_trans (le_max_right _ _) h2
      · exact h3 k hk

theorem mapLookup_of_mem {K : Type} [DecidableEq K] (m : List (K × V)) (k : K)
    (h : k ∈ mapKeys m) : (mapLookup m k).isSome = true := by
  obtain ⟨e, he, hk⟩ := List.mem_map.1 h
  have hfind : (m.find? (fun e => decide (e.1 = k))).isSome = true :=
    List.find?_isSome.2 ⟨e, he, by simpa using hk⟩
  unfold mapLookup
  cases hf : m.find? (fun e => decide (e.1 = k)) with
  | none => rw [hf] at hfind; cases hfind
  | some v => rfl

/-! ### float32 keys -/

theorem Float32_eq_NaN (e : Float32 F) : Float32.eq e Float32.NaN = false := by
  cases e <;> rfl

theorem Float32_eq_num (e : Float32 F) (x : F) :
    Float32.eq e (Float32.num x) = true ↔ e = Float32.num x := by
  cases e with
  | NaN => simp [Float32.eq]
  | num a => simp [Float32.eq]

theorem Float32_min_NaN (a b : Float32 F) (h : a = Float32.NaN ∨ b = Float32.NaN) :
    Float32.min a b = Float32.NaN := by
  rcases h with h | h
  · subst h; rfl
  · subst h; cases a <;> rfl

theorem Float32_max_NaN (a b : Float32 F) (h : a = Float32.NaN ∨ b = Float32.NaN) :
    Float32.max a b = Float32.NaN := by
  rcases h with h | h
  · subst h; rfl
  · subst h; cases a <;> rfl

theorem float32_slicesMin_NaN (rest : List (Float32 F)) : ∀ (x0 : Float32 F),
    Float32.NaN ∈ x0 :: rest → float32.slicesMin x0 rest = Float32.NaN := by
  unfold float32.slicesMin
  induction rest with
  | nil =>
    intro x0 h
    simpa using (List.mem_singleton.1 h).symm
  | cons y ys ih =>
    intro x0 h
    rw [List.foldl_cons]
    apply ih
    rcases List.mem_cons.1 h with h | h
    · rw [Float32_min_NaN x0 y (Or.inl h.symm)]
      exact List.mem_cons_self _ _
    · rcases List.mem_cons.1 h with h | h
      · rw [Float32_min_NaN x0 y (Or.inr h.symm)]
        exact List.mem_cons_self _ _
      · exact List.mem_cons_of_mem _ h

theorem float32_slicesMax_NaN (rest : List (Float32 F)) : ∀ (x0 : Float32 F),
    Float32.NaN ∈ x0 :: rest → float32.slicesMax x0 rest = Float32.NaN := by
  unfold float32.slicesMax
  induction rest with
  | nil =>
    intro x0 h
    simpa using (List.mem_singleton.1 h).symm
  | cons y ys ih =>
    intro x0 h
    rw [List.foldl_cons]
    apply ih
    rcases List.mem_cons.1 h with h | h
    · rw [Float32_max_NaN x0 y (Or.inl h.symm)]
      exact List.mem_cons_self _ _
    · rcases List.mem_cons.1 h with h | h
      · rw [Float32_max_NaN x0 y (Or.inr h.symm)]
        exact List.mem_cons_self _ _
      · exact List.mem_cons_of_mem _ h

/-- On a slice without NaN the float32 minimum is the minimum of the numbers. -/
theorem float32_slicesMin_num (ks : List F) : ∀ (k : F),
    float32.slicesMin (Float32.num k) (ks.map Float32.num) = Float32.num (slicesMin k ks) := by
  unfold float32.slicesMin slicesMin
  induction ks with
  | nil => intro k; rfl
  | cons y ys ih =>
    intro k
    rw [List.map_cons, List.foldl_cons, List.foldl_cons]
    exact ih (min k y)

/-- On a slice without NaN the float32 maximum is the maximum of the numbers. -/
theorem float32_slicesMax_num (ks : List F) : ∀ (k : F),
    float32.slicesMax (Float32.num k) (ks.map Float32.num) = Float32.num (slicesMax k ks) := by
  unfold float32.slicesMax slicesMax
  induction ks with
  | nil => intro k; rfl
  | cons y ys ih =>
    intro k
    rw [List.map_cons, List.foldl_cons, List.foldl_cons]
    exact ih (max k y)

theorem float32_numbers_of_no_NaN {G : Type} (l : List (Float32 G)) (h : Float32.NaN ∉ l) :
    ∃ l0 : List G, l = l0.map Float32.num := by
  induction l with
  | nil => exact ⟨[], rfl⟩
  | cons a as ih =>
    obtain ⟨l0, hl0⟩ := ih (fun hm => h (List.mem_cons_of_mem _ hm))
    cases a with
    | NaN => exact absurd (List.mem_cons_self _ _) h
    | num x => exact ⟨x :: l0, by rw [hl0]; rfl⟩

theorem float32_mapLookup_NaN (m : List (Float32 F × V)) :
    float32.mapLookup m Float32.NaN = none := by
  unfold float32.mapLookup
  have : m.find? (fun e => Float32.eq e.1 Float32.NaN) = none := by
    rw [List.find?_eq_none]
    intro e _
    simp [Float32_eq_NaN]
  rw [this]; rfl

theorem float32_mapLookup_of_mem (m : List (Float32 F × V)) (x : F)
    (h : Float32.num x ∈ mapKeys m) : (float32.mapLookup m (Float32.num x)).isSome = true := by
  obtain ⟨e, he, hk⟩ := List.mem_map.1 h
  have hfind : (m.find? (fun e => Float32.eq e.1 (Float32.num x))).isSome = true :=
    List.find?_isSome.2 ⟨e, he, (Float32_eq_num e.1 x).2 hk⟩
  unfold float32.mapLookup
  cases hf : m.find? (fun e => Float32.eq e.1 (Float32.num x)) with
  | none => rw [hf] at hfind; cases hfind
  | some v => rfl

/-! ### The selection on float32 keys -/

theorem float32_setKey_count_num (u : List (Float32 F)) (k : Float32 F)
    (hu : ∀ x : F, u.count (Float32.num x) ≤ 1) :
    ∀ x : F, (float32.setKey u k).count (Float32.num x) ≤ 1 := by
  intro x
  unfold float32.setKey
  split
  · exact hu x
  · rename_i hany
    rw [List.count_append]
    by_cases hk : k = Float32.num x
    · subst hk
      have hnot : Float32.num x ∉ u := by
        intro hmem
        apply hany
        rw [List.any_eq_true]
        exact ⟨Float32.num x, hmem, (Float32_eq_num _ x).2 rfl⟩
      rw [List.count_eq_zero_of_not_mem hnot]
      simp
    · have h0 : [k].count (Float32.num x) = 0 := by
        rw [List.count_eq_zero]
        intro hmem
        exact hk (List.mem_singleton.1 hmem).symm
      rw [h0]
      exact hu x

theorem float32_setKey_count_NaN (u : List (Float32 F)) (k : Float32 F) :
    (float32.setKey u k).count Float32.NaN =
      u.count Float32.NaN + (if k = Float32.NaN then 1 else 0) := by
  unfold float32.setKey
  by_cases hk : k = Float32.NaN
  · subst hk
    have hany : u.any (fun e => Float32.eq e Float32.NaN) = false := by
      rw [List.any_eq_false]
      intro e _
      simp [Float32_eq_NaN]
    simp [hany]
  · have h0 : [k].count Float32.NaN = 0 := by
      rw [List.count_eq_zero]
      intro hmem
      exact hk (List.mem_singleton.1 hmem).symm
    split
    · simp [hk]
    · rw [List.count_append, h0]

theorem Float32_ge_NaN (start : Float32 F) : Float32.ge Float32.NaN start = false := rfl

theorem float32_addRange_count (start end_ : Float32 F) (visit : List (Float32 F)) :
    ∀ u : List (Float32 F), (∀ x : F, u.count (Float32.num x) ≤ 1) →
      (∀ x : F, (float32.addRange start end_ visit u).count (Float32.num x) ≤ 1) ∧
      (float32.addRange start end_ visit u).count Float32.NaN = u.count Float32.NaN := by
  unfold float32.addRange
  induction visit with
  | nil => intro u hu; exact ⟨hu, rfl⟩
  | cons c cs ih =>
    intro u hu
    rw [List.foldl_cons]
    split
    · rename_i hc
      have hcn : c ≠ Float32.NaN := by
        intro h
        subst h
        simp [Float32_ge_NaN] at hc
      obtain ⟨h1, h2⟩ := ih (float32.setKey u c) (float32_setKey_count_num u c hu)
      refine ⟨h1, ?_⟩
      rw [h2, float32_setKey_count_NaN]
      simp [hcn]
    · exact ih u hu

/-- Along the loop no number enters `uniqueChapters` twice, and NaN enters once
for each single-number token that `strconv.ParseFloat` reads as NaN. -/
theorem float32_selectionLoop_count (parseFloat : List Char → Option (Float32 F))
    (ord : RangeOrder (Float32 F)) (availableChapters : List (Float32 F × V))
    (parts : List (List Char)) : ∀ (i : Nat) (u r : List (Float32 F)),
      (∀ x : F, u.count (Float32.num x) ≤ 1) →
      float32.selectionLoop parseFloat ord availableChapters i parts u = .ok r →
      (∀ x : F, r.count (Float32.num x) ≤ 1) ∧
      r.count Float32.NaN = u.count Float32.NaN +
        (parts.filter (fun part => !strings.Contains part '-' &&
          decide (parseFloat (strings.TrimSpace part) = some Float32.NaN))).length := by
  induction parts with
  | nil =>
    intro i u r hu h
    simp only [float32.selectionLoop, Except.ok.injEq] at h
    subst h
    exact ⟨hu, by simp⟩
  | cons part parts ih =>
    intro i u r hu h
    rw [float32.selectionLoop] at h
    by_cases hc : strings.Contains part '-' = true
    · rw [if_pos hc] at h
      simp only at h
      split at h
      · cases h
      · split at h
        · cases h
        · rename_i start end_ _
          obtain ⟨a1, a2⟩ := float32_addRange_count start end_
            (ord.pick i (mapKeys availableChapters)) u hu
          obtain ⟨h1, h2⟩ := ih (i + 1) _ r a1 h
          refine ⟨h1, ?_⟩
          rw [h2, a2, List.filter_cons]
          simp [hc]
    · rw [if_neg hc] at h
      split at h
      · cases h
      · rename_i chapter hparse
        obtain ⟨h1, h2⟩ := ih (i + 1) _ r (float32_setKey_count_num u chapter hu) h
        refine ⟨h1, ?_⟩
        rw [h2, float32_setKey_count_NaN, List.filter_cons]
        have hc2 : strings.Contains part '-' = false := by simpa using hc
        by_cases hnan : chapter = Float32.NaN
        · subst hnan
          simp [hc2, hparse]
          omega
        · have hne : ¬ parseFloat (strings.TrimSpace part) = some Float32.NaN := by
            rw [hparse]
            intro h
            exact hnan (Option.some.inj h)
          simp [hc2, hnan, hne]

/-! ### Without NaN the float32 functions are the functions on numbers -/

theorem float32_numbers_pick {G : Type} (ord : RangeOrder (Float32 G)) (i : Nat) (l : List G) :
    ord.pick i (l.map Float32.num) = (ord.numbers.pick i l).map Float32.num := by
  have hno : Float32.NaN ∉ ord.pick i (l.map Float32.num) := by
    intro h
    have h2 := (ord.perm i (l.map Float32.num)).mem_iff.1 h
    obtain ⟨y, _, hy⟩ := List.mem_map.1 h2
    cases hy
  obtain ⟨l0, hl0⟩ := float32_numbers_of_no_NaN _ hno
  have e : (l0.map Float32.num).filterMap Float32.toNum = l0 := by
    rw [List.filterMap_map]
    exact List.filterMap_some l0
  simp only [RangeOrder.numbers]
  rw [hl0, e]

theorem float32_setKey_num (u : List F) (k : F) :
    float32.setKey (u.map Float32.num) (Float32.num k) = (setKey u k).map Float32.num := by
  unfold float32.setKey setKey
  by_cases hk : k ∈ u
  · have hany : (u.map Float32.num).any (fun e => Float32.eq e (Float32.num k)) = true := by
      rw [List.any_eq_true]
      exact ⟨Float32.num k, List.mem_map_of_mem _ hk, (Float32_eq_num _ k).2 rfl⟩
    rw [if_pos hany, if_pos hk]
  · have hany : ¬ (u.map Float32.num).any (fun e => Float32.eq e (Float32.num k)) = true := by
      rw [List.any_eq_true]
      rintro ⟨e, he, heq⟩
      obtain ⟨y, hy, rfl⟩ := List.mem_map.1 he
      have := (Float32_eq_num _ k).1 heq
      cases this
      exact hk hy
    rw [if_neg hany, if_neg hk]
    simp

theorem float32_addRange_num (start end_ : F) (visit : List F) : ∀ u : List F,
    float32.addRange (Float32.num start) (Float32.num end_) (visit.map Float32.num)
      (u.map Float32.num) = (addRange start end_ visit u).map Float32.num := by
  unfold float32.addRange addRange
  induction visit with
  | nil => intro u; rfl
  | cons c cs ih =>
    intro u
    rw [List.map_cons, List.foldl_cons, List.foldl_cons]
    by_cases hc : c ≥ start ∧ c ≤ end_
    · have hc2 : (Float32.ge (Float32.num c) (Float32.num start) &&
          Float32.le (Float32.num c) (Float32.num end_)) = true := by
        simpa [Float32.ge, Float32.le] using hc
      rw [if_pos hc2, if_pos hc, float32_setKey_num]
      exact ih _
    · have hc2 : ¬ (Float32.ge (Float32.num c) (Float32.num start) &&
          Float32.le (Float32.num c) (Float32.num end_)) = true := by
        simpa [Float32.ge, Float32.le] using hc
      rw [if_neg hc2, if_neg hc]
      exact ih _

theorem float32_getRange_num (parseFloat : List Char → Option F)
    (rangeParts : List (List Char)) :
    float32.getRange (fun s => (parseFloat s).map Float32.num) rangeParts =
      match getRange parseFloat rangeParts with
      | .error err => .error err
      | .ok (start, end_) => .ok (Float32.num start, Float32.num end_) := by
  unfold float32.getRange getRange
  beta_reduce
  cases h0 : parseFloat (strings.TrimSpace (rangeParts.getD 0 [])) with
  | none => simp
  | some start =>
    cases h1 : parseFloat (strings.TrimSpace (rangeParts.getD 1 [])) with
    | none => simp
    | some end_ =>
      by_cases h : start > end_
      · simp [Float32.gt, h]
      · simp [Float32.gt, h]

theorem float32_mapKeys_num {G W : Type} (availableChapters : List (G × W)) :
    mapKeys (availableChapters.map (fun e => (Float32.num e.1, e.2))) =
      (mapKeys availableChapters).map Float32.num := by
  simp [mapKeys, List.map_map, Function.comp_def]

theorem float32_selectionLoop_num (parseFloat : List Char → Option F) (ord : RangeOrder F)
    (ord32 : RangeOrder (Float32 F))
    (hord : ∀ i l, ord32.pick i (l.map Float32.num) = (ord.pick i l).map Float32.num)
    (availableChapters : List (F × V)) (parts : List (List Char)) : ∀ (i : Nat) (u : List F),
    float32.selectionLoop (fun s => (parseFloat s).map Float32.num) ord32
        (availableChapters.map (fun e => (Float32.num e.1, e.2))) i parts (u.map Float32.num) =
      match selectionLoop parseFloat ord availableChapters i parts u with
      | .error err => .error err
      | .ok r => .ok (r.map Float32.num) := by
  induction parts with
  | nil => intro i u; rfl
  | cons part parts ih =>
    intro i u
    rw [float32.selectionLoop, selectionLoop]
    by_cases hc : strings.Contains part '-' = true
    · rw [if_pos hc, if_pos hc]
      simp only
      by_cases hlen : (strings.Split part '-').length ≠ 2
      · rw [if_pos hlen, if_pos hlen]
      · rw [if_neg hlen, if_neg hlen, float32_getRange_num]
        cases getRange parseFloat (strings.Split part '-') with
        | error err => rfl
        | ok p =>
          obtain ⟨start, end_⟩ := p
          simp only
          rw [float32_mapKeys_num, hord, float32_addRange_num]
          exact ih _ _
    · rw [if_neg hc, if_neg hc]
      cases parseFloat (strings.TrimSpace part) with
      | none => rfl
      | some chapter =>
        simp only [Option.map_some']
        rw [float32_setKey_num]
        exact ih _ _

/-- On a chapter map without NaN key and with a `strconv.ParseFloat` that
returns no NaN, `ChapterSelection` on float32 keys is `ChapterSelection` on the
numbers, for every order of enumeration. -/
theorem float32_ChapterSelection_num (parseFloat : List Char → Option F)
    (ord : RangeOrder (Float32 F)) (input : List Char) (availableChapters : List (F × V)) :
    float32.ChapterSelection (fun s => (parseFloat s).map Float32.num) ord input
        (availableChapters.map (fun e => (Float32.num e.1, e.2))) =
      ((ChapterSelection parseFloat ord.numbers input availableChapters).1.map Float32.num,
        (ChapterSelection parseFloat ord.numbers input availableChapters).2) := by
  have hord := float32_numbers_pick ord
  unfold float32.ChapterSelection ChapterSelection
  simp only
  have h := float32_selectionLoop_num parseFloat ord.numbers ord hord availableChapters
    (strings.Split input ',') 0 []
  rw [List.map_nil] at h
  rw [h]
  cases selectionLoop parseFloat ord.numbers availableChapters 0 (strings.Split input ',') [] with
  | error err => rfl
  | ok r => simp only [hord]

/-- On a map without NaN key `GetMinAndMaxKeys` on float32 keys is
`GetMinAndMaxKeys` on the numbers, for every order of enumeration. -/
theorem float32_GetMinAndMaxKeys_num (ord : RangeOrder (Float32 F)) (someMap : List (F × V)) :
    float32.GetMinAndMaxKeys ord (someMap.map (fun e => (Float32.num e.1, e.2))) =
      ((GetMinAndMaxKeys ord.numbers someMap).1.map Float32.num,
        (GetMinAndMaxKeys ord.numbers someMap).2.1.map Float32.num,
        (GetMinAndMaxKeys ord.numbers someMap).2.2) := by
  unfold float32.GetMinAndMaxKeys GetMinAndMaxKeys
  rw [List.length_map, float32_mapKeys_num, float32_numbers_pick]
  by_cases hlen : someMap.length = 0
  · rw [if_pos hlen, if_pos hlen]; rfl
  · rw [if_neg hlen, if_neg hlen]
    cases ord.numbers.pick 0 (mapKeys someMap) with
    | nil => rfl
    | cons k ks =>
      simp only [List.map_cons, float32_slicesMin_num, float32_slicesMax_num, List.map_nil]

/-! ### The page fetch -/

open download sharedhttp

theorem CheckStatusCode_retryable (statusCode : Int) (h : retryableStatus statusCode) :
    ∃ e, CheckStatusCode statusCode = some (.plain e) := by
  rcases h with h | h | h | h | h <;> subst h <;> exact ⟨_, rfl⟩

theorem appendImageExtension_supported (contentType filename : String)
    (h : supportedContentType contentType) :
    ∃ name, appendImageExtension contentType filename = (name, none) := by
  rcases h with h | h | h | h | h <;> subst h <;> exact ⟨_, rfl⟩

theorem retry_loop_succeeds {σ : Type} (f : σ → retry.Outcome × σ) (cnt : σ → Nat) :
    ∀ (k m : Nat) (s : σ) (errorLog : List ErrorKind),
      (∀ j < k, ∀ t, cnt t = cnt s + j →
        ∃ e t2, f t = (.err (.plain e), t2) ∧ cnt t2 = cnt t + 1) →
      (∀ t, cnt t = cnt s + k → ∃ t2, f t = (.ok, t2) ∧ cnt t2 = cnt t + 1) →
      ∃ t2, retry.loop f (k + 1 + m) s errorLog = (.nil, t2) ∧ cnt t2 = cnt s + (k + 1) := by
  intro k
  induction k with
  | zero =>
    intro m s errorLog _ hlast
    obtain ⟨t2, h1, h2⟩ := hlast s rfl
    refine ⟨t2, ?_, h2⟩
    rw [show 0 + 1 + m = m + 1 by omega]
    simp only [retry.loop, h1]
  | succ k ih =>
    intro m s errorLog hfirst hlast
    obtain ⟨e, t1, h1, h2⟩ := hfirst 0 (Nat.succ_pos k) s rfl
    obtain ⟨t2, h3, h4⟩ := ih m t1 (errorLog ++ [e])
      (fun j hj t ht => hfirst (j + 1) (Nat.succ_lt_succ hj) t (by rw [ht, h2]; omega))
      (fun t ht => hlast t (by rw [ht, h2]; omega))
    refine ⟨t2, ?_, by rw [h4, h2]; omega⟩
    rw [show k + 1 + 1 + m = (k + 1 + m) + 1 by omega]
    simp only [retry.loop, h1, retry.IsRecoverable, retry.unpackUnrecoverable]
    simp [h3]

theorem retry_loop_unrecoverable {σ : Type} (f : σ → retry.Outcome × σ) (remaining : Nat)
    (s s1 : σ) (e : ErrorKind) (errorLog : List ErrorKind)
    (h : f s = (.err (.unrecoverable e), s1)) :
    retry.loop f (remaining + 1) s errorLog = (.errors (errorLog ++ [e]), s1) := by
  simp [retry.loop, h, retry.IsRecoverable, retry.unpackUnrecoverable]

theorem singleFileAttempt_retryable (env : Env) (filenameNoExt : String) (w : World)
    (r : Response) (hr : (env.exchange w.requests).resp = some r)
    (hs : retryableStatus r.StatusCode) :
    ∃ e w2, singleFileAttempt env filenameNoExt w = (.err (.plain e), w2) ∧
      w2.requests = w.requests + 1 := by
  obtain ⟨e, he⟩ := CheckStatusCode_retryable r.StatusCode hs
  exact ⟨e, ⟨w.requests + 1, w.files⟩, by simp only [singleFileAttempt, hr, he], rfl⟩

theorem decryptImageAttempt_retryable (env : Env) (encryptionHex filenameNoExt : String)
    (w : World) (r : Response) (hr : (env.exchange w.requests).resp = some r)
    (hs : retryableStatus r.StatusCode) :
    ∃ e w2, decryptImageAttempt env encryptionHex filenameNoExt w = (.err (.plain e), w2) ∧
      w2.requests = w.requests + 1 := by
  obtain ⟨e, he⟩ := CheckStatusCode_retryable r.StatusCode hs
  exact ⟨e, ⟨w.requests + 1, w.files⟩, by simp only [decryptImageAttempt, hr, he], rfl⟩

theorem singleFileAttempt_ok (env : Env) (filenameNoExt : String) (w : World)
    (r : Response) (hr : (env.exchange w.requests).resp = some r)
    (hs : r.StatusCode = 200) (hct : supportedContentType r.ContentType)
    (hdisk : (env.exchange w.requests).readOk = true ∧
      (env.exchange w.requests).createOk = true ∧ (env.exchange w.requests).writeOk = true) :
    ∃ w2, singleFileAttempt env filenameNoExt w = (.ok, w2) ∧
      w2.requests = w.requests + 1 := by
  obtain ⟨name, hname⟩ := appendImageExtension_supported r.ContentType filenameNoExt hct
  have hcheck : CheckStatusCode r.StatusCode = none := by rw [hs]; rfl
  refine ⟨World.write ⟨w.requests + 1, w.files⟩ name r.Body, ?_, rfl⟩
  simp only [singleFileAttempt, hr, hcheck, hname, hdisk.1, hdisk.2.1, hdisk.2.2]
  rfl

theorem decryptImageAttempt_ok (env : Env) (encryptionHex filenameNoExt : String) (w : World)
    (r : Response) (key : List Nat) (hr : (env.exchange w.requests).resp = some r)
    (hs : r.StatusCode = 200) (hct : supportedContentType r.ContentType)
    (hkey : hexDecodeString encryptionHex.toList = some key) (hne : key ≠ [])
    (hdisk : (env.exchange w.requests).readOk = true ∧
      (env.exchange w.requests).createOk = true ∧ (env.exchange w.requests).writeOk = true) :
    ∃ w2, decryptImageAttempt env encryptionHex filenameNoExt w = (.ok, w2) ∧
      w2.requests = w.requests + 1 := by
  obtain ⟨name, hname⟩ := appendImageExtension_supported r.ContentType filenameNoExt hct
  have hcheck : CheckStatusCode r.StatusCode = none := by rw [hs]; rfl
  have hlen : ¬ (key.length = 0 ∧ r.Body ≠ []) := by
    intro h; exact hne (List.length_eq_zero.1 h.1)
  refine ⟨World.write ⟨w.requests + 1, w.files⟩ name (xorKey r.Body key), ?_, rfl⟩
  simp only [decryptImageAttempt, hr, hcheck, hname, hdisk.1, hdisk.2.1, hdisk.2.2, hkey,
    hlen]
  rfl

section archive
open files

/-! ### The XOR step, file names and unsupported content types -/

theorem xorKey_getElem? (data key : List Nat) (i : Nat) :
    (xorKey data key)[i]? = (data[i]?).map (fun b => b ^^^ key.getD (i % key.length) 0) := by
  unfold xorKey
  rw [List.getElem?_mapIdx]

theorem xorKey_length (data key : List Nat) : (xorKey data key).length = data.length := by
  unfold xorKey
  rw [List.length_mapIdx]

theorem appendImageExtension_unsupported (contentType filename : String)
    (h : ¬ supportedContentType contentType) :
    appendImageExtension contentType filename =
      (filename, some (.plain (.unsupportedContentType contentType))) := by
  simp only [supportedContentType, not_or] at h
  obtain ⟨h1, h2, h3, h4, h5⟩ := h
  unfold appendImageExtension
  rw [if_neg (by simp only [not_or]; exact ⟨h1, h2⟩), if_neg h3, if_neg h4, if_neg h5]

theorem appendImageExtension_name (contentType filename name : String)
    (h : appendImageExtension contentType filename = (name, none)) :
    name ∈ [filename ++ ".jpg", filename ++ ".png", filename ++ ".gif", filename ++ ".webp"] := by
  unfold appendImageExtension at h
  split at h
  · simp only [Prod.mk.injEq, and_true] at h; simp [← h]
  · split at h
    · simp only [Prod.mk.injEq, and_true] at h; simp [← h]
    · split at h
      · simp only [Prod.mk.injEq, and_true] at h; simp [← h]
      · split at h
        · simp only [Prod.mk.injEq, and_true] at h; simp [← h]
        · simp at h

theorem mem_create (w : World) (name : String) (f : String × List Nat)
    (h : f ∈ (w.create name).files) : f ∈ w.files ∨ f.1 = name := by
  simp only [World.create, List.mem_cons, List.mem_filter] at h
  rcases h with h | h
  · exact Or.inr (by rw [h])
  · exact Or.inl h.1

theorem mem_write (w : World) (name : String) (data : List Nat) (f : String × List Nat)
    (h : f ∈ (w.write name data).files) : f ∈ w.files ∨ f.1 = name := by
  simp only [World.write, List.mem_cons, List.mem_filter] at h
  rcases h with h | h
  · exact Or.inr (by rw [h])
  · exact Or.inl h.1

/-- The names a fetch may give the file of the page `filenameNoExt`. -/
theorem singleFileAttempt_files (env : Env) (filenameNoExt : String) (w : World)
    (f : String × List Nat) (h : f ∈ (singleFileAttempt env filenameNoExt w).2.files) :
    f ∈ w.files ∨ f.1 ∈ [filenameNoExt ++ ".jpg", filenameNoExt ++ ".png",
      filenameNoExt ++ ".gif", filenameNoExt ++ ".webp"] := by
  unfold singleFileAttempt at h
  simp only at h
  split at h
  · exact Or.inl h
  · split at h
    · exact Or.inl h
    · split at h
      · exact Or.inl h
      · rename_i name hname
        have hn := appendImageExtension_name _ _ _ hname
        split at h
        · exact Or.inl h
        · split at h
          · rcases mem_create _ _ _ h with h | h
            · exact Or.inl h
            · exact Or.inr (h ▸ hn)
          · rcases mem_write _ _ _ _ h with h | h
            · exact Or.inl h
            · exact Or.inr (h ▸ hn)

theorem decryptImageAttempt_files (env : Env) (encryptionHex filenameNoExt : String)
    (w : World) (f : String × List Nat)
    (h : f ∈ (decryptImageAttempt env encryptionHex filenameNoExt w).2.files) :
    f ∈ w.files ∨ f.1 ∈ [filenameNoExt ++ ".jpg", filenameNoExt ++ ".png",
      filenameNoExt ++ ".gif", filenameNoExt ++ ".webp"] := by
  unfold decryptImageAttempt at h
  simp only at h
  split at h
  · exact Or.inl h
  · split at h
    · exact Or.inl h
    · split at h
      · exact Or.inl h
      · split at h
        · exact Or.inl h
        · split at h
          · exact Or.inl h
          · split at h
            · exact Or.inl h
            · rename_i name hname
              have hn := appendImageExtension_name _ _ _ hname
              split at h
              · exact Or.inl h
              · split at h
                · rcases mem_create _ _ _ h with h | h
                  · exact Or.inl h
                  · exact Or.inr (h ▸ hn)
                · rcases mem_write _ _ _ _ h with h | h
                  · exact Or.inl h
                  · exact Or.inr (h ▸ hn)

theorem retry_loop_invariant {σ : Type} (f : σ → retry.Outcome × σ) (P : σ → Prop)
    (hf : ∀ s, P s → P (f s).2) :
    ∀ (remaining : Nat) (s : σ) (errorLog : List ErrorKind), P s →
      P (retry.loop f remaining s errorLog).2 := by
  intro remaining
  induction remaining with
  | zero => intro s errorLog hs; exact hs
  | succ k ih =>
    intro s errorLog hs
    have h1 := hf s hs
    unfold retry.loop
    cases hfs : f s with
    | mk o s1 =>
      rw [hfs] at h1
      cases o with
      | ok => exact h1
      | panic => exact h1
      | err e =>
        simp only
        split
        · exact h1
        · split
          · exact h1
          · exact ih s1 _ h1

theorem retry_loop_exhausts {σ : Type} (f : σ → retry.Outcome × σ) (s0 s1 s2 s3 : σ)
    (e0 e1 e2 : ErrorKind) (h0 : f s0 = (.err (.plain e0), s1))
    (h1 : f s1 = (.err (.plain e1), s2)) (h2 : f s2 = (.err (.plain e2), s3)) :
    retry.loop f 3 s0 [] = (.errors [e0, e1, e2], s3) := by
  simp [retry.loop, h0, h1, h2, retry.IsRecoverable, retry.unpackUnrecoverable]

theorem singleFileAttempt_unsupported (env : Env) (filenameNoExt : String) (w : World)
    (r : Response) (hr : (env.exchange w.requests).resp = some r) (hs : r.StatusCode = 200)
    (hct : ¬ supportedContentType r.ContentType) :
    singleFileAttempt env filenameNoExt w =
      (.err (.plain (.unsupportedContentType r.ContentType)), ⟨w.requests + 1, w.files⟩) := by
  have hcheck : CheckStatusCode r.StatusCode = none := by rw [hs]; rfl
  simp only [singleFileAttempt, hr, hcheck,
    appendImageExtension_unsupported r.ContentType filenameNoExt hct]

/-! ### Page file names -/

set_option maxRecDepth 1000000 in
theorem sprintf03d_three_digits : ∀ n < 1000, sprintf03d n =
    String.mk [Nat.digitChar (n / 100), Nat.digitChar (n / 10 % 10), Nat.digitChar (n % 10)] := by
  decide

theorem digitChar_lt_digitChar : ∀ a < 10, ∀ b < 10, a < b →
    Nat.digitChar a < Nat.digitChar b := by
  decide

theorem three_chars_lt (a2 a1 a0 b2 b1 b0 : Char) (e1 e2 : List Char)
    (h : a2 < b2 ∨ (a2 = b2 ∧ a1 < b1) ∨ (a2 = b2 ∧ a1 = b1 ∧ a0 < b0)) :
    [a2, a1, a0] ++ e1 < [b2, b1, b0] ++ e2 := by
  rcases h with h | ⟨rfl, h⟩ | ⟨rfl, rfl, h⟩
  · exact List.Lex.rel h
  · exact List.Lex.cons (List.Lex.rel h)
  · exact List.Lex.cons (List.Lex.cons (List.Lex.rel h))

theorem sprintf03d_lt (a b : Nat) (e1 e2 : String) (hab : a < b) (hb : b < 1000) :
    sprintf03d a ++ e1 < sprintf03d b ++ e2 := by
  rw [sprintf03d_three_digits a (by omega), sprintf03d_three_digits b hb,
    String.lt_iff_toList_lt]
  show [Nat.digitChar (a / 100), Nat.digitChar (a / 10 % 10), Nat.digitChar (a % 10)] ++
      e1.toList <
    [Nat.digitChar (b / 100), Nat.digitChar (b / 10 % 10), Nat.digitChar (b % 10)] ++ e2.toList
  apply three_chars_lt
  have hcases : a / 100 < b / 100 ∨ (a / 100 = b / 100 ∧ a / 10 % 10 < b / 10 % 10) ∨
      (a / 100 = b / 100 ∧ a / 10 % 10 = b / 10 % 10 ∧ a % 10 < b % 10) := by omega
  rcases hcases with h | ⟨h1, h⟩ | ⟨h1, h2, h⟩
  · exact Or.inl (digitChar_lt_digitChar _ (by omega) _ (by omega) h)
  · exact Or.inr (Or.inl ⟨by rw [h1], digitChar_lt_digitChar _ (by omega) _ (by omega) h⟩)
  · exact Or.inr (Or.inr ⟨by rw [h1], by rw [h2],
      digitChar_lt_digitChar _ (by omega) _ (by omega) h⟩)

/-! ### The archive builder -/

theorem increment_keys (widthCount : List (Nat × Nat)) (bin : Nat) :
    (increment widthCount bin).map Prod.fst =
      if bin ∈ widthCount.map Prod.fst then widthCount.map Prod.fst
      else widthCount.map Prod.fst ++ [bin] := by
  induction widthCount with
  | nil => simp [increment]
  | cons e rest ih =>
    obtain ⟨b, c⟩ := e
    by_cases hb : b = bin
    · subst hb
      simp [increment]
    · have hb2 : ¬ bin = b := fun h => hb h.symm
      simp only [increment, if_neg hb, List.map_cons, ih, List.mem_cons, hb2, false_or]
      split <;> simp

theorem increment_nodup (widthCount : List (Nat × Nat)) (bin : Nat)
    (h : (widthCount.map Prod.fst).Nodup) : ((increment widthCount bin).map Prod.fst).Nodup := by
  rw [increment_keys]
  split
  · exact h
  · rename_i hb
    exact List.Nodup.append h (List.nodup_singleton bin) (by simpa using hb)

theorem increment_mem (bin : Nat) : ∀ (widthCount : List (Nat × Nat)),
    (widthCount.map Prod.fst).Nodup → ∀ e ∈ increment widthCount bin,
      (e.1 ≠ bin ∧ e ∈ widthCount) ∨
      (e.1 = bin ∧ ((bin ∉ widthCount.map Prod.fst ∧ e.2 = 1) ∨
        ∃ c, (bin, c) ∈ widthCount ∧ e.2 = c + 1)) := by
  intro widthCount
  induction widthCount with
  | nil =>
    intro _ e he
    simp only [increment, List.mem_singleton] at he
    subst he
    exact Or.inr ⟨rfl, Or.inl ⟨by simp, rfl⟩⟩
  | cons x rest ih =>
    obtain ⟨b, c⟩ := x
    intro hnd e he
    simp only [List.map_cons, List.nodup_cons] at hnd
    by_cases hb : b = bin
    · subst hb
      simp only [increment, if_true, List.mem_cons] at he
      rcases he with he | he
      · subst he
        exact Or.inr ⟨rfl, Or.inr ⟨c, List.mem_cons_self _ _, rfl⟩⟩
      · have hne : e.1 ≠ b := by
          intro h
          exact hnd.1 (h ▸ List.mem_map_of_mem Prod.fst he)
        exact Or.inl ⟨hne, List.mem_cons_of_mem _ he⟩
    · simp only [increment, if_neg hb, List.mem_cons] at he
      rcases he with he | he
      · subst he
        exact Or.inl ⟨hb, List.mem_cons_self _ _⟩
      · rcases ih hnd.2 e he with ⟨h1, h2⟩ | ⟨h1, h2⟩
        · exact Or.inl ⟨h1, List.mem_cons_of_mem _ h2⟩
        · refine Or.inr ⟨h1, ?_⟩
          rcases h2 with ⟨h3, h4⟩ | ⟨c2, h3, h4⟩
          · refine Or.inl ⟨?_, h4⟩
            simp only [List.map_cons, List.mem_cons, not_or]
            exact ⟨fun h => hb h.symm, h3⟩
          · exact Or.inr ⟨c2, List.mem_cons_of_mem _ h3, h4⟩

/-- The census after the bins `bins` have been counted: every key once, every
count positive and equal to the number of occurrences of its bin. -/
theorem census_invariant_step (widthCount : List (Nat × Nat)) (bins : List Nat) (bin : Nat)
    (hnd : (widthCount.map Prod.fst).Nodup)
    (hcount : ∀ e ∈ widthCount, 0 < e.2 ∧ e.2 = bins.count e.1)
    (hkeys : ∀ b ∈ bins, b ∈ widthCount.map Prod.fst) :
    ((increment widthCount bin).map Prod.fst).Nodup ∧
    (∀ e ∈ increment widthCount bin, 0 < e.2 ∧ e.2 = (bins ++ [bin]).count e.1) ∧
    (∀ b ∈ bins ++ [bin], b ∈ (increment widthCount bin).map Prod.fst) := by
  refine ⟨increment_nodup _ _ hnd, ?_, ?_⟩
  · intro e he
    rw [List.count_append, List.count_singleton]
    rcases increment_mem bin widthCount hnd e he with ⟨h1, h2⟩ | ⟨h1, h2⟩
    · obtain ⟨p1, p2⟩ := hcount e h2
      have hne : ¬ (bin == e.1) = true := by simpa using fun h => h1 h.symm
      rw [if_neg hne]
      exact ⟨p1, by omega⟩
    · have heq : (bin == e.1) = true := by simpa using h1.symm
      rw [if_pos heq, h1]
      rcases h2 with ⟨h3, h4⟩ | ⟨c, h3, h4⟩
      · have hzero : bins.count bin = 0 :=
          List.count_eq_zero.2 (fun hmem => h3 (hkeys bin hmem))
        omega
      · obtain ⟨_, p2⟩ := hcount (bin, c) h3
        simp only at p2
        omega
  · intro b hb
    rw [increment_keys]
    rcases List.mem_append.1 hb with hb | hb
    · split
      · exact hkeys b hb
      · exact List.mem_append_left _ (hkeys b hb)
    · simp only [List.mem_singleton] at hb
      subst hb
      split
      · assumption
      · exact List.mem_append_right _ (List.mem_singleton_self _)

theorem census_invariant (widths : List Nat) : ∀ (widthCount : List (Nat × Nat))
    (bins : List Nat), (widthCount.map Prod.fst).Nodup →
    (∀ e ∈ widthCount, 0 < e.2 ∧ e.2 = bins.count e.1) →
    (∀ b ∈ bins, b ∈ widthCount.map Prod.fst) →
    ((widths.foldl (fun wc w => increment wc (binOf w)) widthCount).map Prod.fst).Nodup ∧
    (∀ e ∈ widths.foldl (fun wc w => increment wc (binOf w)) widthCount,
      0 < e.2 ∧ e.2 = (bins ++ widths.map binOf).count e.1) ∧
    (∀ b ∈ bins ++ widths.map binOf,
      b ∈ (widths.foldl (fun wc w => increment wc (binOf w)) widthCount).map Prod.fst) := by
  induction widths with
  | nil =>
    intro widthCount bins h1 h2 h3
    simp only [List.foldl_nil, List.map_nil, List.append_nil]
    exact ⟨h1, h2, h3⟩
  | cons w ws ih =>
    intro widthCount bins h1 h2 h3
    obtain ⟨s1, s2, s3⟩ := census_invariant_step widthCount bins (binOf w) h1 h2 h3
    have := ih (increment widthCount (binOf w)) (bins ++ [binOf w]) s1 s2 s3
    simpa [List.append_assoc] using this

theorem census_ok : ∀ (l : List PageFile) (widthCount : List (Nat × Nat)),
    (∀ f ∈ l, f.openOk = true) →
    census l widthCount =
      .ok ((l.filterMap (fun f => f.width)).foldl (fun wc w => increment wc (binOf w))
        widthCount) := by
  intro l
  induction l with
  | nil => intro widthCount _; rfl
  | cons f rest ih =>
    intro widthCount h
    have hf := h f (List.mem_cons_self _ _)
    have hrest : ∀ g ∈ rest, g.openOk = true := fun g hg => h g (List.mem_cons_of_mem _ hg)
    cases hw : f.width with
    | none => simp [census, hf, hw, ih _ hrest]
    | some w => simp [census, hf, hw, ih _ hrest, binOf]

theorem mostCommon_fold (entries : List (Nat × Nat)) : ∀ (acc : Nat × Nat),
    acc.1 ≤ (entries.foldl (fun acc e => if e.2 > acc.1 then (e.2, e.1) else acc) acc).1 ∧
    (∀ e ∈ entries,
      e.2 ≤ (entries.foldl (fun acc e => if e.2 > acc.1 then (e.2, e.1) else acc) acc).1) ∧
    ((entries.foldl (fun acc e => if e.2 > acc.1 then (e.2, e.1) else acc) acc) = acc ∨
      ((entries.foldl (fun acc e => if e.2 > acc.1 then (e.2, e.1) else acc) acc).2,
        (entries.foldl (fun acc e => if e.2 > acc.1 then (e.2, e.1) else acc) acc).1) ∈
          entries) := by
  induction entries with
  | nil => intro acc; simp
  | cons x rest ih =>
    intro acc
    rw [List.foldl_cons]
    by_cases hx : x.2 > acc.1
    · rw [if_pos hx]
      obtain ⟨h1, h2, h3⟩ := ih (x.2, x.1)
      refine ⟨by simp only at h1; omega, ?_, ?_⟩
      · intro e he
        rcases List.mem_cons.1 he with he | he
        · subst he; exact h1
        · exact h2 e he
      · right
        rcases h3 with h3 | h3
        · rw [h3]; exact List.mem_cons_self _ _
        · exact List.mem_cons_of_mem _ h3
    · rw [if_neg hx]
      obtain ⟨h1, h2, h3⟩ := ih acc
      refine ⟨h1, ?_, ?_⟩
      · intro e he
        rcases List.mem_cons.1 he with he | he
        · subst he; omega
        · exact h2 e he
      · rcases h3 with h3 | h3
        · exact Or.inl h3
        · exact Or.inr (List.mem_cons_of_mem _ h3)

theorem mostCommon_spec (entries : List (Nat × Nat)) (hpos : ∀ e ∈ entries, 0 < e.2)
    (hne : entries ≠ []) :
    ((mostCommon entries).2, (mostCommon entries).1) ∈ entries ∧
    ∀ e ∈ entries, e.2 ≤ (mostCommon entries).1 := by
  obtain ⟨_, h2, h3⟩ := mostCommon_fold entries (0, 0)
  refine ⟨?_, h2⟩
  rcases h3 with h3 | h3
  · exfalso
    obtain ⟨x, hx⟩ := List.exists_mem_of_ne_nil entries hne
    have := h2 x hx
    rw [h3] at this
    have := hpos x hx
    omega
  · exact h3

theorem pack_ok (isManhwa : Bool) (mostCommonWidth : Nat) : ∀ (l : List PageFile)
    (entries : List (String × List Nat)),
    (∀ f ∈ l, f.openOk = true ∧ f.zipOk = true) →
    pack isManhwa mostCommonWidth l entries =
      (none, entries ++ (l.filter (fun f =>
        if isManhwa then inWindow mostCommonWidth f else f.width.isSome)).map entryOf) := by
  intro l
  induction l with
  | nil => intro entries _; simp [pack]
  | cons f rest ih =>
    intro entries h
    obtain ⟨ho, hz⟩ := h f (List.mem_cons_self _ _)
    have hrest : ∀ g ∈ rest, g.openOk = true ∧ g.zipOk = true :=
      fun g hg => h g (List.mem_cons_of_mem _ hg)
    cases hw : f.width with
    | none =>
      have hfilter : (if isManhwa then inWindow mostCommonWidth f else f.width.isSome) = false := by
        cases isManhwa <;> simp [inWindow, hw]
      simp only [List.filter_cons, hfilter]
      simp [pack, ho, hw, ih _ hrest]
    | some w =>
      cases isManhwa with
      | false =>
        have hfilter : (if false then inWindow mostCommonWidth f else f.width.isSome) = true := by
          simp [hw]
        simp only [List.filter_cons, hfilter]
        simp [pack, ho, hz, hw, ih _ hrest, entryOf]
      | true =>
        by_cases hout : (w : Int) < (mostCommonWidth : Int) - binSize ∨
            (w : Int) > (mostCommonWidth : Int) + binSize
        · have hwin : inWindow mostCommonWidth f = false := by
            simp only [inWindow, hw, decide_eq_false_iff_not]
            simp only [binSize] at hout
            omega
          simp [pack, ho, hw, hout, hwin, ih _ hrest, List.filter_cons]
        · have hwin : inWindow mostCommonWidth f = true := by
            simp only [inWindow, hw, decide_eq_true_eq]
            simp only [binSize] at hout
            omega
          simp [pack, ho, hz, hw, hout, hwin, ih _ hrest, entryOf, List.filter_cons]

theorem walkOrder_perm (dir : List PageFile) : (walkOrder dir).Perm dir :=
  List.perm_insertionSort _ dir

theorem walkOrder_sorted (dir : List PageFile) :
    (walkOrder dir).Sorted (fun a b => a.name ≤ b.name) := by
  have hiff : ∀ a b : PageFile, (¬ b.name.toList < a.name.toList) ↔ a.name ≤ b.name := by
    intro a b
    rw [← String.lt_iff_toList_lt, not_lt]
  haveI : IsTotal PageFile (fun a b => ¬ b.name.toList < a.name.toList) :=
    ⟨fun a b => by rw [hiff, hiff]; exact le_total _ _⟩
  haveI : IsTrans PageFile (fun a b => ¬ b.name.toList < a.name.toList) :=
    ⟨fun a b c => by rw [hiff, hiff, hiff]; exact le_trans⟩
  have hs := List.sorted_insertionSort (fun a b : PageFile => ¬ b.name.toList < a.name.toList) dir
  exact List.Pairwise.imp (fun {a b} h => (hiff a b).1 h) hs

theorem decodedBins_walkOrder (dir : List PageFile) :
    (decodedBins (walkOrder dir)).Perm (decodedBins dir) := by
  unfold decodedBins
  exact ((walkOrder_perm dir).filterMap _).map _

end archive

section later
open files

/-! ### No panic in the page fetches -/

theorem hexDecodeString_nonempty (s : List Char) (key : List Nat) (hs : s ≠ [])
    (h : hexDecodeString s = some key) : key ≠ [] := by
  match s, hs with
  | [_], _ => simp [hexDecodeString] at h
  | a :: b :: rest, _ =>
    unfold hexDecodeString at h
    split at h
    · simp only [Option.some.injEq] at h
      rw [← h]
      exact List.cons_ne_nil _ _
    · cases h

theorem retry_loop_no_panic {σ : Type} (f : σ → retry.Outcome × σ)
    (hf : ∀ s, (f s).1 ≠ retry.Outcome.panic) :
    ∀ (remaining : Nat) (s : σ) (errorLog : List ErrorKind),
      (retry.loop f remaining s errorLog).1 ≠ retry.Result.panic := by
  intro remaining
  induction remaining with
  | zero => intro s errorLog; simp [retry.loop]
  | succ k ih =>
    intro s errorLog
    have h1 := hf s
    unfold retry.loop
    cases hfs : f s with
    | mk o s1 =>
      rw [hfs] at h1
      cases o with
      | ok => simp
      | panic => exact absurd rfl h1
      | err e =>
        simp only
        split
        · simp
        · split
          · simp
          · exact ih s1 _

theorem singleFileAttempt_no_panic (env : Env) (filenameNoExt : String) (w : World) :
    (singleFileAttempt env filenameNoExt w).1 ≠ retry.Outcome.panic := by
  unfold singleFileAttempt
  simp only
  split
  · simp
  · split
    · simp
    · split
      · simp
      · split
        · simp
        · split <;> simp

theorem decryptImageAttempt_no_panic (env : Env) (encryptionHex filenameNoExt : String)
    (w : World) (hkey : encryptionHex.toList ≠ []) :
    (decryptImageAttempt env encryptionHex filenameNoExt w).1 ≠ retry.Outcome.panic := by
  unfold decryptImageAttempt
  simp only
  split
  · simp
  · split
    · simp
    · split
      · simp
      · split
        · simp
        · rename_i key hdec
          have hne := hexDecodeString_nonempty _ key hkey hdec
          split
          · rename_i hbad
            exact absurd (List.length_eq_zero.1 hbad.1) hne
          · split
            · simp
            · split
              · simp
              · split <;> simp

theorem fetchPage_no_panic (env : Env) (i : Nat) (imageInfo : ImageInfo)
    (scratch : List (String × List Nat)) :
    (fetchPage env i imageInfo scratch).1 ≠ retry.Result.panic := by
  unfold fetchPage
  simp only
  split
  · rename_i hlen
    have hkey : imageInfo.EncryptionKey.toList ≠ [] := by
      intro h
      apply hlen
      show imageInfo.EncryptionKey.toList.length = 0
      rw [h]; rfl
    unfold decryptImage
    split
    · simp
    · exact retry_loop_no_panic _
        (fun s => decryptImageAttempt_no_panic env _ _ s hkey) 3 _ []
  · unfold singleFile
    split
    · simp
    · exact retry_loop_no_panic _ (fun s => singleFileAttempt_no_panic env _ s) 3 _ []

theorem fetchPages_no_panic (envOf : Nat → Env) : ∀ (pages : List ImageInfo) (i : Nat)
    (scratch : List (String × List Nat)), (fetchPages envOf i pages scratch).1 = false := by
  intro pages
  induction pages with
  | nil => intro i scratch; rfl
  | cons p rest ih =>
    intro i scratch
    have hp := fetchPage_no_panic (envOf i) i p scratch
    unfold fetchPages
    cases hf : fetchPage (envOf i) i p scratch with
    | mk r w =>
      rw [hf] at hp
      cases r with
      | panic => exact absurd rfl hp
      | nil => exact ih _ _
      | errors log => exact ih _ _

/-! ### The most common width -/

theorem census_ok_inv : ∀ (l : List PageFile) (widthCount result : List (Nat × Nat)),
    census l widthCount = .ok result →
    result = (l.filterMap (fun f => f.width)).foldl (fun wc w => increment wc (binOf w))
      widthCount := by
  intro l
  induction l with
  | nil =>
    intro widthCount result h
    simp only [census, Except.ok.injEq] at h
    simp [h]
  | cons f rest ih =>
    intro widthCount result h
    unfold census at h
    split at h
    · cases h
    · cases hw : f.width with
      | none =>
        rw [hw] at h
        simp only [List.filterMap_cons, hw]
        exact ih _ _ h
      | some w =>
        rw [hw] at h
        simp only [List.filterMap_cons, hw, List.foldl_cons]
        exact ih _ _ h

/-- With one bin strictly more frequent than all others, every order of
enumeration of the census makes it the most common width. -/
theorem mostCommon_unique_top (ord : RangeOrder (Nat × Nat)) (dir : List PageFile) (top : Nat)
    (htop : top ∈ decodedBins dir)
    (hstrict : ∀ bin ∈ decodedBins dir, bin ≠ top →
      (decodedBins dir).count bin < (decodedBins dir).count top) :
    (mostCommon (ord.pick 0 (((walkOrder dir).filterMap (fun f => f.width)).foldl
      (fun wc w => increment wc (binOf w)) []))).2 = top := by
  obtain ⟨_, i2, i3⟩ := census_invariant
    ((walkOrder dir).filterMap (fun f => f.width)) [] [] (by simp) (by simp) (by simp)
  simp only [List.nil_append] at i2 i3
  have hbins : ((walkOrder dir).filterMap (fun f => f.width)).map binOf =
      decodedBins (walkOrder dir) := rfl
  rw [hbins] at i2 i3
  have hperm := decodedBins_walkOrder dir
  have hpick := ord.perm 0 (((walkOrder dir).filterMap (fun f => f.width)).foldl
    (fun wc w => increment wc (binOf w)) [])
  obtain ⟨e0, he0, hfst0⟩ := List.mem_map.1 (i3 top (hperm.mem_iff.2 htop))
  have hne : ord.pick 0 (((walkOrder dir).filterMap (fun f => f.width)).foldl
      (fun wc w => increment wc (binOf w)) []) ≠ [] :=
    List.ne_nil_of_mem (hpick.mem_iff.2 he0)
  obtain ⟨m1, m2⟩ := mostCommon_spec _ (fun e he => (i2 e (hpick.mem_iff.1 he)).1) hne
  obtain ⟨p1, p2⟩ := i2 _ (hpick.mem_iff.1 m1)
  simp only at p1 p2
  rw [hperm.count_eq] at p2
  have hle := m2 e0 (hpick.mem_iff.2 he0)
  obtain ⟨_, q2⟩ := i2 e0 he0
  rw [hperm.count_eq, hfst0] at q2
  by_contra hcon
  have hmem : (mostCommon (ord.pick 0 (((walkOrder dir).filterMap (fun f => f.width)).foldl
      (fun wc w => increment wc (binOf w)) []))).2 ∈ decodedBins dir :=
    List.count_pos_iff.1 (by omega)
  have := hstrict _ hmem hcon
  omega

end later

section naming
open templater

/-! ### The naming template -/

theorem HasPrefix_cons_cons (c p : Char) (cs ps : List Char) :
    strings.HasPrefix (c :: cs) (p :: ps) = (c == p && strings.HasPrefix cs ps) := rfl

theorem ReplaceFirst_skip_head (p0 : Char) (ps new s : List Char) : ∀ (pre : List Char),
    p0 ∉ pre →
    strings.ReplaceFirst (pre ++ s) (p0 :: ps) new =
      pre ++ strings.ReplaceFirst s (p0 :: ps) new := by
  intro pre
  induction pre with
  | nil => intro _; rfl
  | cons c rest ih =>
    intro h
    simp only [List.mem_cons, not_or] at h
    have hne : (c == p0) = false := by
      simpa using fun e : c = p0 => h.1 e.symm
    simp only [List.cons_append, strings.ReplaceFirst, HasPrefix_cons_cons, hne, Bool.false_and,
      Bool.false_eq_true, if_false]
    exact congrArg (List.cons c) (ih h.2)

/-- An occurrence of `a ++ ":" ++ b` cannot begin in a string without colon
when the character after that string is none of those that follow the first
in `a ++ ":"`. -/
theorem HasPrefix_straddle (b s : List Char) (c0 : Char) : ∀ (a t : List Char),
    t ≠ [] → ':' ∉ t → c0 ∉ a.tail ++ [':'] →
    strings.HasPrefix (t ++ c0 :: s) (a ++ ':' :: b) = false := by
  intro a
  induction a with
  | nil =>
    intro t ht hcolon _
    cases t with
    | nil => exact absurd rfl ht
    | cons c rest =>
      simp only [List.mem_cons, not_or] at hcolon
      have hne : (c == ':') = false := by simpa using fun e : c = ':' => hcolon.1 e.symm
      simp [HasPrefix_cons_cons, hne]
  | cons x rest iha =>
    intro t ht hcolon hc0
    cases t with
    | nil => exact absurd rfl ht
    | cons c t2 =>
      simp only [List.mem_cons, not_or] at hcolon
      simp only [List.tail_cons] at hc0
      simp only [List.cons_append, HasPrefix_cons_cons]
      cases t2 with
      | nil =>
        have hhead : strings.HasPrefix (c0 :: s) (rest ++ ':' :: b) = false := by
          cases rest with
          | nil =>
            have : (c0 == ':') = false := by
              simpa using fun e : c0 = ':' => hc0 (by simp [e])
            simp [HasPrefix_cons_cons, this]
          | cons y rest2 =>
            have : (c0 == y) = false := by
              simpa using fun e : c0 = y => hc0 (by simp [e])
            simp [HasPrefix_cons_cons, this]
        simp [hhead]
      | cons c2 t3 =>
        have hc0rest : c0 ∉ rest.tail ++ [':'] := by
          intro hmem
          apply hc0
          rcases List.mem_append.1 hmem with h | h
          · exact List.mem_append_left _ (List.mem_of_mem_tail h)
          · exact List.mem_append_right _ h
        have := iha (c2 :: t3) (List.cons_ne_nil _ _) hcolon.2 hc0rest
        simp only [List.cons_append] at this
        simp [this]

theorem ReplaceFirst_skip_colon (a b new s : List Char) (c0 : Char)
    (hc0 : c0 ∉ a.tail ++ [':']) : ∀ (pre : List Char), ':' ∉ pre →
    strings.ReplaceFirst (pre ++ c0 :: s) (a ++ ':' :: b) new =
      pre ++ strings.ReplaceFirst (c0 :: s) (a ++ ':' :: b) new := by
  intro pre
  induction pre with
  | nil => intro _; rfl
  | cons c rest ih =>
    intro h
    have hno := HasPrefix_straddle b s c0 a (c :: rest) (List.cons_ne_nil _ _) h hc0
    simp only [List.mem_cons, not_or] at h
    rw [List.cons_append] at hno ⊢
    rw [strings.ReplaceFirst, hno]
    simp only [Bool.false_eq_true, if_false]
    exact congrArg (List.cons c) (ih h.2)

theorem digitChar_not_special : ∀ k < 10, Nat.digitChar k ≠ '.' ∧ Nat.digitChar k ≠ '{' := by
  decide

theorem toDigits_chars (n : Nat) (hn : n < 1000) :
    ∀ c ∈ Nat.toDigits 10 n, c ≠ '.' ∧ c ≠ '{' := by
  intro c hc
  have h3 := sprintf03d_three_digits n hn
  unfold sprintf03d at h3
  replace h3 : List.replicate (3 - (Nat.toDigits 10 n).length) '0' ++ Nat.toDigits 10 n =
      [Nat.digitChar (n / 100), Nat.digitChar (n / 10 % 10), Nat.digitChar (n % 10)] :=
    congrArg String.data h3
  have hmem : c ∈ [Nat.digitChar (n / 100), Nat.digitChar (n / 10 % 10),
      Nat.digitChar (n % 10)] := by
    rw [← h3]
    exact List.mem_append_right _ hc
  simp only [List.mem_cons, List.mem_singleton, List.not_mem_nil, or_false] at hmem
  rcases hmem with h | h | h <;> subst h
  · exact digitChar_not_special _ (by omega)
  · exact digitChar_not_special _ (by omega)
  · exact digitChar_not_special _ (by omega)

theorem PadFloat_whole (formatFloat : ℚ → List Char) (n : Nat) (hn : n < 1000)
    (hfmt : formatFloat (n : ℚ) = Nat.toDigits 10 n) :
    utils.PadFloat formatFloat (n : ℚ) 3 = (sprintf03d n).toList := by
  have hdot : '.' ∉ Nat.toDigits 10 n := fun h => (toDigits_chars n hn _ h).1 rfl
  have hsplit := Split_of_not_mem '.' (Nat.toDigits 10 n) hdot
  unfold utils.PadFloat sprintf03d
  simp only [hfmt, hsplit, List.headD_cons, List.length_singleton, gt_iff_lt, lt_self_iff_false,
    if_false]
  by_cases hlen : (Nat.toDigits 10 n).length < 3
  · have hpos : (0 : Int) < 3 - ((Nat.toDigits 10 n).length : Int) := by omega
    have hnat : (3 - ((Nat.toDigits 10 n).length : Int)).toNat = 3 - (Nat.toDigits 10 n).length := by
      omega
    simp [hpos, hnat]
  · have hpos : ¬ (0 : Int) < 3 - ((Nat.toDigits 10 n).length : Int) := by omega
    have hnat : 3 - (Nat.toDigits 10 n).length = 0 := by omega
    simp [hpos, hnat]

theorem sprintf03d_no_brace (n : Nat) (hn : n < 1000) : '{' ∉ (sprintf03d n).toList := by
  rw [sprintf03d_three_digits n hn]
  show '{' ∉ [Nat.digitChar (n / 100), Nat.digitChar (n / 10 % 10), Nat.digitChar (n % 10)]
  simp only [List.mem_cons, List.mem_singleton, List.not_mem_nil, or_false, not_or]
  exact ⟨fun h => (digitChar_not_special _ (by omega)).2 h.symm,
    fun h => (digitChar_not_special _ (by omega)).2 h.symm,
    fun h => (digitChar_not_special _ (by omega)).2 h.symm⟩

theorem defaultTemplate_matches :
    findAllFrom 0 defaultTemplate.toList =
      [⟨"\x7bmanga:<.>\x7d".toList, "manga".toList, ":<.>".toList⟩,
       ⟨"\x7bnum:3\x7d".toList, "num".toList, ":3".toList⟩,
       ⟨"\x7btitle: - <.>\x7d".toList, "title".toList, ": - <.>".toList⟩] := by
  decide

theorem handleMangaTitle_default (manga : Manga) (h : manga.Title ≠ "") :
    handleMangaTitle manga ":<.>".toList = manga.Title.toList := by
  unfold handleMangaTitle
  rw [if_neg h]
  have h1 : strings.ReplaceAll ":<.>".toList [':'] [] = "<.>".toList := by decide
  simp only [h1]
  simp [strings.ReplaceAll, strings.replaceAllFrom, strings.HasPrefix]

theorem handleChapterTitle_default (chapter : Chapter) :
    handleChapterTitle chapter ": - <.>".toList =
      if chapter.Title = "" then [] else " - ".toList ++ chapter.Title.toList := by
  unfold handleChapterTitle
  split
  · rfl
  · have h1 : strings.ReplaceAll ": - <.>".toList [':'] [] = " - <.>".toList := by decide
    simp only [h1]
    simp [strings.ReplaceAll, strings.replaceAllFrom, strings.HasPrefix]

end naming

/-! ## The claims -/

/-- C1 (counterexample): with chapters 1 and 2.5 available, the expression "5"
is parsed without error and the selection returned is [5], although 5 is not a
key of the available map. -/
theorem ChapterSelection_single_token_not_available :
    ChapterSelection parseDecimal (RangeOrder.stored ℚ) "5".toList demoChapters = ([5], none) ∧
    (5 : ℚ) ∉ mapKeys demoChapters := by
  decide

/-- C1 (amended): whenever ChapterSelection succeeds, every chapter number it
returns is a key of the available map or the number of a single-number token
(a token without "-") of the expression. -/
theorem ChapterSelection_available_or_single (parseFloat : List Char → Option F)
    (ord : RangeOrder F) (input : List Char) (availableChapters : List (F × V))
    (hok : (ChapterSelection parseFloat ord input availableChapters).2 = none)
    (n : F) (hn : n ∈ (ChapterSelection parseFloat ord input availableChapters).1) :
    n ∈ mapKeys availableChapters ∨
    ∃ part ∈ strings.Split input ',', strings.Contains part '-' = false ∧
      parseFloat (strings.TrimSpace part) = some n := by
  have hacc := selection_ok_accepts parseFloat ord input availableChapters hok
  obtain ⟨_, _, hmem⟩ := selection_accepted parseFloat ord input availableChapters hacc
  obtain ⟨part, hpart, hsel⟩ := (hmem n).1 hn
  rcases selects_cases parseFloat availableChapters part n hsel with h | h
  · exact Or.inl h
  · exact Or.inr ⟨part, hpart, h⟩

/-- Witness of C1 (amended): in the selection of "1-2.5, 7" from the chapters
1 and 2.5 the number 7 comes from a single-number token. -/
theorem ChapterSelection_available_or_single_witness :
    (ChapterSelection parseDecimal (RangeOrder.stored ℚ) "1-2.5, 7".toList demoChapters).2 = none ∧
    (7 : ℚ) ∈ (ChapterSelection parseDecimal (RangeOrder.stored ℚ) "1-2.5, 7".toList
      demoChapters).1 ∧
    ((7 : ℚ) ∈ mapKeys demoChapters ∨
      ∃ part ∈ strings.Split "1-2.5, 7".toList ',', strings.Contains part '-' = false ∧
        parseDecimal (strings.TrimSpace part) = some 7) :=
  ⟨by decide, by decide,
    ChapterSelection_available_or_single parseDecimal (RangeOrder.stored ℚ) "1-2.5, 7".toList
      demoChapters (by decide) 7 (by decide)⟩

/-- C2: for an expression that is one range token "A-B" (A and B free of ","
and "-", both accepted by ParseFloat, A <= B), ChapterSelection succeeds and
returns exactly the available keys n with A <= n <= B, each once. -/
theorem ChapterSelection_single_range (parseFloat : List Char → Option F)
    (ord : RangeOrder F) (availableChapters : List (F × V)) (a b : List Char) (A B : F)
    (ha : ',' ∉ a ∧ '-' ∉ a) (hb : ',' ∉ b ∧ '-' ∉ b)
    (hA : parseFloat (strings.TrimSpace a) = some A)
    (hB : parseFloat (strings.TrimSpace b) = some B) (hAB : A ≤ B) :
    (ChapterSelection parseFloat ord (a ++ '-' :: b) availableChapters).2 = none ∧
    (ChapterSelection parseFloat ord (a ++ '-' :: b) availableChapters).1.Nodup ∧
    ∀ n, n ∈ (ChapterSelection parseFloat ord (a ++ '-' :: b) availableChapters).1 ↔
      (n ∈ mapKeys availableChapters ∧ A ≤ n ∧ n ≤ B) := by
  have hsplit : strings.Split (a ++ '-' :: b) ',' = [a ++ '-' :: b] := by
    apply Split_of_not_mem
    simp only [List.mem_append, List.mem_cons, not_or]
    exact ⟨ha.1, by decide, hb.1⟩
  have hacc : ∀ part ∈ strings.Split (a ++ '-' :: b) ',', accepts parseFloat part = true := by
    intro part hpart
    rw [hsplit, List.mem_singleton] at hpart
    subst hpart
    exact accepts_range parseFloat a b A B ha.2 hb.2 hA hB hAB
  obtain ⟨h1, h2, h3⟩ :=
    selection_accepted parseFloat ord (a ++ '-' :: b) availableChapters hacc
  refine ⟨h1, h2, fun n => ?_⟩
  rw [h3 n, hsplit]
  simp only [List.mem_singleton, exists_eq_left]
  exact selects_range parseFloat availableChapters a b A B n ha.2 hb.2 hA hB

/-- Witness of C2: the chapters 1 and 2.5 and the expression "1-2.5", which
yields the chapters 1 and 2.5. -/
theorem ChapterSelection_single_range_witness :
    ChapterSelection parseDecimal (RangeOrder.stored ℚ) ("1".toList ++ '-' :: "2.5".toList)
      demoChapters = ([1, mkRat 5 2], none) ∧
    ((ChapterSelection parseDecimal (RangeOrder.stored ℚ) ("1".toList ++ '-' :: "2.5".toList)
      demoChapters).2 = none ∧
    (ChapterSelection parseDecimal (RangeOrder.stored ℚ) ("1".toList ++ '-' :: "2.5".toList)
      demoChapters).1.Nodup ∧
    ∀ n, n ∈ (ChapterSelection parseDecimal (RangeOrder.stored ℚ)
        ("1".toList ++ '-' :: "2.5".toList) demoChapters).1 ↔
      (n ∈ mapKeys demoChapters ∧ 1 ≤ n ∧ n ≤ mkRat 5 2)) :=
  ⟨by decide,
    ChapterSelection_single_range parseDecimal (RangeOrder.stored ℚ) demoChapters
      "1".toList "2.5".toList 1 (mkRat 5 2) (by decide) (by decide) (by decide) (by decide)
      (by decide)⟩

/-- C3: if one comma-separated token of the expression is malformed (neither a
single number nor a range of two numbers) or is a range A-B with A > B, then
ChapterSelection returns an error and no chapter numbers, whatever the other
tokens are and wherever the bad token stands. -/
theorem ChapterSelection_bad_token (parseFloat : List Char → Option F)
    (ord : RangeOrder F) (input : List Char) (availableChapters : List (F × V))
    (part : List Char) (hpart : part ∈ strings.Split input ',')
    (hbad : badToken parseFloat part) :
    ∃ err, ChapterSelection parseFloat ord input availableChapters = ([], some err) :=
  selection_rejected parseFloat ord input availableChapters
    ⟨part, hpart, badToken_rejected parseFloat part hbad⟩

/-- Witness of C3: the reversed range "3-1" between two good tokens, and the
malformed token "x" after a good one. -/
theorem ChapterSelection_bad_token_witness :
    (∃ err, ChapterSelection parseDecimal (RangeOrder.stored ℚ) "1,3-1,2".toList demoChapters =
      ([], some err)) ∧
    (∃ err, ChapterSelection parseDecimal (RangeOrder.stored ℚ) "1-2,x".toList demoChapters =
      ([], some err)) :=
  ⟨ChapterSelection_bad_token parseDecimal (RangeOrder.stored ℚ) "1,3-1,2".toList demoChapters
      "3-1".toList (by decide)
      (Or.inr ⟨3, 1, ⟨"3".toList, "1".toList, by decide, by decide, by decide⟩, by decide⟩),
   ChapterSelection_bad_token parseDecimal (RangeOrder.stored ℚ) "1-2,x".toList demoChapters
      "x".toList (by decide)
      (Or.inl ⟨fun ⟨_, hn⟩ =>
          Option.noConfusion ((show parseDecimal (strings.TrimSpace "x".toList) = none by
            decide).symm.trans hn),
        fun ⟨_, _, a, b, hab, _⟩ =>
          absurd (show '-' ∈ "x".toList from hab ▸ by simp) (by decide)⟩)⟩

/-- C4 (counterexample): with an empty available map the expression "1" is not
a failure: ChapterSelection returns [1] and no error. -/
theorem ChapterSelection_no_failure_on_empty_map :
    ChapterSelection parseDecimal (RangeOrder.stored ℚ) "1".toList ([] : List (ℚ × Chapter)) =
      ([1], none) := by
  decide

/-- C4 (amended): called with an empty available map, ChapterSelection reports
a failure exactly when the code rejects one of the tokens of the expression;
on every other expression it succeeds and returns exactly the numbers of the
single-number tokens.  The empty map itself is reported as a failure by
GetMinAndMaxKeys. -/
theorem ChapterSelection_empty_available (parseFloat : List Char → Option F)
    (ord : RangeOrder F) (input : List Char) :
    (((∃ part ∈ strings.Split input ',', accepts parseFloat part = false) ∧
        ∃ err, ChapterSelection parseFloat ord input ([] : List (F × V)) = ([], some err)) ∨
      ((∀ part ∈ strings.Split input ',', accepts parseFloat part = true) ∧
        (ChapterSelection parseFloat ord input ([] : List (F × V))).2 = none ∧
        ∀ n, n ∈ (ChapterSelection parseFloat ord input ([] : List (F × V))).1 ↔
          ∃ part ∈ strings.Split input ',', strings.Contains part '-' = false ∧
            parseFloat (strings.TrimSpace part) = some n)) ∧
    GetMinAndMaxKeys ord ([] : List (F × V)) = ([], [], some Error.mapIsEmpty) := by
  refine ⟨?_, rfl⟩
  rcases selection_cases parseFloat input with h | h
  · right
    obtain ⟨h1, _, h3⟩ := selection_accepted parseFloat ord input ([] : List (F × V)) h
    refine ⟨h, h1, fun n => ?_⟩
    rw [h3 n]
    constructor
    · rintro ⟨part, hpart, hsel⟩
      rcases selects_cases parseFloat ([] : List (F × V)) part n hsel with hk | hk
      · simp [mapKeys] at hk
      · exact ⟨part, hpart, hk⟩
    · rintro ⟨part, hpart, hc, hn⟩
      refine ⟨part, hpart, ?_⟩
      simp only [selects, hc]
      simpa using hn
  · left
    exact ⟨h, selection_rejected parseFloat ord input ([] : List (F × V)) h⟩

/-- C5 (counterexample): on the map with the chapter keys 1 and NaN
GetMinAndMaxKeys returns [NaN] and [NaN] without an error, whichever way the
keys are enumerated; NaN is not `<=` the key 1, the key 1 is not `<=` NaN, and
looking the returned latest key up in the same map fails. -/
theorem GetMinAndMaxKeys_NaN_key :
    float32.GetMinAndMaxKeys (RangeOrder.stored (Float32 ℚ)) float32.nanChapters =
      ([Float32.NaN], [Float32.NaN], none) ∧
    float32.GetMinAndMaxKeys (RangeOrder.backwards (Float32 ℚ)) float32.nanChapters =
      ([Float32.NaN], [Float32.NaN], none) ∧
    Float32.num 1 ∈ mapKeys float32.nanChapters ∧
    Float32.le Float32.NaN (Float32.num (1 : ℚ)) = false ∧
    Float32.le (Float32.num (1 : ℚ)) Float32.NaN = false ∧
    float32.mapLookup float32.nanChapters Float32.NaN = none := by
  decide

/-- C5 (amended): GetMinAndMaxKeys returns an error exactly when the map is
empty; for a non-empty map it returns two one-element slices [lo] and [hi].
If no key of the map is NaN, lo and hi are keys of the map, lo <= k <= hi for
every key k, and the lookup of hi in the same map succeeds.  If a key of the
map is NaN, lo and hi are NaN and the lookup of hi fails. -/
theorem GetMinAndMaxKeys_lowest_highest (ord : RangeOrder (Float32 F))
    (someMap : List (Float32 F × V)) :
    (someMap = [] ∧ float32.GetMinAndMaxKeys ord someMap = ([], [], some Error.mapIsEmpty)) ∨
    (someMap ≠ [] ∧ ∃ lo hi, float32.GetMinAndMaxKeys ord someMap = ([lo], [hi], none) ∧
      (Float32.NaN ∉ mapKeys someMap →
        lo ∈ mapKeys someMap ∧ hi ∈ mapKeys someMap ∧
        (∀ k ∈ mapKeys someMap, Float32.le lo k = true ∧ Float32.le k hi = true) ∧
        (float32.mapLookup someMap hi).isSome = true) ∧
      (Float32.NaN ∈ mapKeys someMap →
        lo = Float32.NaN ∧ hi = Float32.NaN ∧ float32.mapLookup someMap hi = none)) := by
  cases someMap with
  | nil => exact Or.inl ⟨rfl, rfl⟩
  | cons e es =>
    right
    refine ⟨by simp, ?_⟩
    have hperm := ord.perm 0 (mapKeys (e :: es))
    cases hpick : ord.pick 0 (mapKeys (e :: es)) with
    | nil =>
      rw [hpick] at hperm
      have := hperm.length_eq
      simp [mapKeys] at this
    | cons k ks =>
      rw [hpick] at hperm
      refine ⟨float32.slicesMin k ks, float32.slicesMax k ks, ?_, ?_, ?_⟩
      · simp [float32.GetMinAndMaxKeys, hpick]
      · intro hnan
        have hnan2 : Float32.NaN ∉ k :: ks := fun h => hnan (hperm.mem_iff.1 h)
        obtain ⟨l0, hl0⟩ := float32_numbers_of_no_NaN (k :: ks) hnan2
        cases l0 with
        | nil => cases hl0
        | cons x xs =>
          rw [List.map_cons] at hl0
          obtain ⟨hk, hks⟩ := List.cons.inj hl0
          subst hk
          subst hks
          rw [float32_slicesMin_num, float32_slicesMax_num]
          obtain ⟨m1, m2, m3⟩ := slicesMin_spec xs x
          obtain ⟨x1, x2, x3⟩ := slicesMax_spec xs x
          have hmem : ∀ y, (y = x ∨ y ∈ xs) → Float32.num y ∈ mapKeys (e :: es) := by
            intro y hy
            rw [← hperm.mem_iff]
            rcases hy with hy | hy
            · rw [hy]; exact List.mem_cons_self _ _
            · exact List.mem_cons_of_mem _ (List.mem_map_of_mem _ hy)
          refine ⟨hmem _ m1, hmem _ x1, ?_, float32_mapLookup_of_mem _ _ (hmem _ x1)⟩
          intro key hkey
          rw [← hperm.mem_iff] at hkey
          rcases List.mem_cons.1 hkey with h | h
          · subst h
            exact ⟨by simpa [Float32.le] using m2, by simpa [Float32.le] using x2⟩
          · obtain ⟨y, hy, rfl⟩ := List.mem_map.1 h
            exact ⟨by simpa [Float32.le] using m3 y hy, by simpa [Float32.le] using x3 y hy⟩
      · intro hnan
        have hnan2 : Float32.NaN ∈ k :: ks := hperm.mem_iff.2 hnan
        rw [float32_slicesMin_NaN ks k hnan2, float32_slicesMax_NaN ks k hnan2]
        exact ⟨rfl, rfl, float32_mapLookup_NaN _⟩

/-- Witness of C5 (amended): the chapters 1 and 2.5 of "Demo", enumerated
backwards, have no NaN key; the lowest key is 1, the highest 2.5, and the
lookup of 2.5 succeeds. -/
theorem GetMinAndMaxKeys_lowest_highest_witness :
    Float32.NaN ∉ mapKeys float32.demoChapters ∧
    ∃ lo hi, float32.GetMinAndMaxKeys (RangeOrder.backwards (Float32 ℚ)) float32.demoChapters =
        ([lo], [hi], none) ∧
      lo ∈ mapKeys float32.demoChapters ∧ hi ∈ mapKeys float32.demoChapters ∧
      (∀ k ∈ mapKeys float32.demoChapters, Float32.le lo k = true ∧ Float32.le k hi = true) ∧
      (float32.mapLookup float32.demoChapters hi).isSome = true := by
  refine ⟨by decide, ?_⟩
  rcases GetMinAndMaxKeys_lowest_highest (RangeOrder.backwards (Float32 ℚ))
    float32.demoChapters with h | ⟨_, lo, hi, h1, h2, _⟩
  · exact absurd h.1 (by decide)
  · exact ⟨lo, hi, h1, h2 (by decide)⟩

/-- C6 (counterexample): on the expression "NaN,NaN" ChapterSelection succeeds
and returns two elements, NaN twice: the repeated token does not collapse. -/
theorem ChapterSelection_repeated_NaN_token :
    float32.ChapterSelection float32.parseDecimalOrNaN (RangeOrder.stored (Float32 ℚ))
      "NaN,NaN".toList float32.demoChapters = ([Float32.NaN, Float32.NaN], none) ∧
    ¬ (float32.ChapterSelection float32.parseDecimalOrNaN (RangeOrder.stored (Float32 ℚ))
      "NaN,NaN".toList float32.demoChapters).1.Nodup := by
  decide

/-- C6 (amended): whenever ChapterSelection succeeds, the returned list contains
no chapter number other than NaN twice, also when tokens overlap or repeat;
it contains NaN once for each single-number token that ParseFloat reads as NaN,
so it contains nothing twice when at most one token is such a NaN. -/
theorem ChapterSelection_no_number_twice (parseFloat : List Char → Option (Float32 F))
    (ord : RangeOrder (Float32 F)) (input : List Char)
    (availableChapters : List (Float32 F × V))
    (hok : (float32.ChapterSelection parseFloat ord input availableChapters).2 = none) :
    (∀ x : F, (float32.ChapterSelection parseFloat ord input availableChapters).1.count
      (Float32.num x) ≤ 1) ∧
    (float32.ChapterSelection parseFloat ord input availableChapters).1.count Float32.NaN =
      ((strings.Split input ',').filter (fun part => !strings.Contains part '-' &&
        decide (parseFloat (strings.TrimSpace part) = some Float32.NaN))).length ∧
    (((strings.Split input ',').filter (fun part => !strings.Contains part '-' &&
        decide (parseFloat (strings.TrimSpace part) = some Float32.NaN))).length ≤ 1 →
      (float32.ChapterSelection parseFloat ord input availableChapters).1.Nodup) := by
  unfold float32.ChapterSelection at hok ⊢
  simp only at hok ⊢
  cases hloop : float32.selectionLoop parseFloat ord availableChapters 0
      (strings.Split input ',') [] with
  | error err => rw [hloop] at hok; cases hok
  | ok r =>
    simp only
    obtain ⟨h1, h2⟩ := float32_selectionLoop_count parseFloat ord availableChapters
      (strings.Split input ',') 0 [] r (fun x => by simp) hloop
    have hperm := ord.perm (strings.Split input ',').length r
    have c1 : ∀ x : F, (ord.pick (strings.Split input ',').length r).count
        (Float32.num x) ≤ 1 := fun x => by rw [hperm.count_eq]; exact h1 x
    have c2 : (ord.pick (strings.Split input ',').length r).count Float32.NaN =
        ((strings.Split input ',').filter (fun part => !strings.Contains part '-' &&
          decide (parseFloat (strings.TrimSpace part) = some Float32.NaN))).length := by
      rw [hperm.count_eq, h2]; simp
    refine ⟨c1, c2, fun hle => ?_⟩
    rw [List.nodup_iff_count_le_one]
    intro a
    cases a with
    | NaN => rw [c2]; exact hle
    | num x => exact c1 x

/-- Witness of C6 (amended): the overlapping ranges "1-3,2-4", the repeated
number "2,2" and the expression "NaN,2,NaN,2", on the chapters 1 and 2.5. -/
theorem ChapterSelection_no_number_twice_witness :
    (float32.ChapterSelection float32.parseDecimalOrNaN (RangeOrder.stored (Float32 ℚ))
        "1-3,2-4".toList float32.demoChapters =
        ([Float32.num 1, Float32.num (mkRat 5 2)], none) ∧
      (float32.ChapterSelection float32.parseDecimalOrNaN (RangeOrder.stored (Float32 ℚ))
        "1-3,2-4".toList float32.demoChapters).1.Nodup) ∧
    (float32.ChapterSelection float32.parseDecimalOrNaN (RangeOrder.stored (Float32 ℚ))
        "2,2".toList float32.demoChapters = ([Float32.num 2], none) ∧
      (float32.ChapterSelection float32.parseDecimalOrNaN (RangeOrder.stored (Float32 ℚ))
        "2,2".toList float32.demoChapters).1.Nodup) ∧
    (float32.ChapterSelection float32.parseDecimalOrNaN (RangeOrder.stored (Float32 ℚ))
        "NaN,2,NaN,2".toList float32.demoChapters =
        ([Float32.NaN, Float32.num 2, Float32.NaN], none) ∧
      ∀ x : ℚ, (float32.ChapterSelection float32.parseDecimalOrNaN
        (RangeOrder.stored (Float32 ℚ)) "NaN,2,NaN,2".toList float32.demoChapters).1.count
          (Float32.num x) ≤ 1) :=
  ⟨⟨by decide, (ChapterSelection_no_number_twice float32.parseDecimalOrNaN
      (RangeOrder.stored (Float32 ℚ)) "1-3,2-4".toList float32.demoChapters (by decide)).2.2
      (by decide)⟩,
   ⟨by decide, (ChapterSelection_no_number_twice float32.parseDecimalOrNaN
      (RangeOrder.stored (Float32 ℚ)) "2,2".toList float32.demoChapters (by decide)).2.2
      (by decide)⟩,
   ⟨by decide, (ChapterSelection_no_number_twice float32.parseDecimalOrNaN
      (RangeOrder.stored (Float32 ℚ)) "NaN,2,NaN,2".toList float32.demoChapters (by decide)).1⟩⟩

/-- C7: for a fixed expression and a fixed set of available chapter numbers,
two runs of ChapterSelection (any order of enumeration of the maps, any map
values) both fail, or both succeed with lists that have the same elements. -/
theorem ChapterSelection_deterministic {W : Type} (parseFloat : List Char → Option F)
    (ord1 ord2 : RangeOrder F) (input : List Char)
    (available1 : List (F × V)) (available2 : List (F × W))
    (hkeys : ∀ k, k ∈ mapKeys available1 ↔ k ∈ mapKeys available2) :
    ((ChapterSelection parseFloat ord1 input available1).2 ≠ none ∧
      (ChapterSelection parseFloat ord2 input available2).2 ≠ none) ∨
    ((ChapterSelection parseFloat ord1 input available1).2 = none ∧
      (ChapterSelection parseFloat ord2 input available2).2 = none ∧
      ∀ n, n ∈ (ChapterSelection parseFloat ord1 input available1).1 ↔
        n ∈ (ChapterSelection parseFloat ord2 input available2).1) := by
  rcases selection_cases parseFloat input with h | h
  · right
    obtain ⟨a1, _, a3⟩ := selection_accepted parseFloat ord1 input available1 h
    obtain ⟨b1, _, b3⟩ := selection_accepted parseFloat ord2 input available2 h
    refine ⟨a1, b1, fun n => ?_⟩
    rw [a3 n, b3 n]
    constructor
    · rintro ⟨part, hpart, hsel⟩
      exact ⟨part, hpart, (selects_congr parseFloat available1 available2 hkeys part n).1 hsel⟩
    · rintro ⟨part, hpart, hsel⟩
      exact ⟨part, hpart, (selects_congr parseFloat available1 available2 hkeys part n).2 hsel⟩
  · left
    obtain ⟨e1, he1⟩ := selection_rejected parseFloat ord1 input available1 h
    obtain ⟨e2, he2⟩ := selection_rejected parseFloat ord2 input available2 h
    rw [he1, he2]
    exact ⟨by simp, by simp⟩

/-- Witness of C7: the chapters 1 and 2.5 held in two orders with different
values, enumerated forwards by one run and backwards by the other; the lists
returned for "1-2.5,7" differ in order only. -/
theorem ChapterSelection_deterministic_witness :
    (ChapterSelection parseDecimal (RangeOrder.stored ℚ) "1-2.5,7".toList demoChapters =
        ([1, mkRat 5 2, 7], none) ∧
      ChapterSelection parseDecimal (RangeOrder.backwards ℚ) "1-2.5,7".toList
        demoChaptersAgain = ([7, mkRat 5 2, 1], none)) ∧
    (((ChapterSelection parseDecimal (RangeOrder.stored ℚ) "1-2.5,7".toList demoChapters).2 ≠
          none ∧
        (ChapterSelection parseDecimal (RangeOrder.backwards ℚ) "1-2.5,7".toList
          demoChaptersAgain).2 ≠ none) ∨
      ((ChapterSelection parseDecimal (RangeOrder.stored ℚ) "1-2.5,7".toList demoChapters).2 =
          none ∧
        (ChapterSelection parseDecimal (RangeOrder.backwards ℚ) "1-2.5,7".toList
          demoChaptersAgain).2 = none ∧
        ∀ n, n ∈ (ChapterSelection parseDecimal (RangeOrder.stored ℚ) "1-2.5,7".toList
            demoChapters).1 ↔
          n ∈ (ChapterSelection parseDecimal (RangeOrder.backwards ℚ) "1-2.5,7".toList
            demoChaptersAgain).1)) :=
  ⟨by decide,
    ChapterSelection_deterministic parseDecimal (RangeOrder.stored ℚ) (RangeOrder.backwards ℚ)
      "1-2.5,7".toList demoChapters demoChaptersAgain
      (fun k => by simp [mapKeys, demoChapters, demoChaptersAgain, or_comm])⟩

/-- C8: CheckStatusCode yields no error for 200, an error that is retried for
404, 500, 502, 503 and 504, and an error marked unrecoverable for every other
status code, among them 401, 403 and 405. -/
theorem CheckStatusCode_classification (statusCode : Int) :
    (statusCode = 200 → CheckStatusCode statusCode = none) ∧
    (retryableStatus statusCode →
      ∃ e, CheckStatusCode statusCode = some (.plain e) ∧
        retry.IsRecoverable (.plain e) = true) ∧
    (statusCode ≠ 200 ∧ ¬ retryableStatus statusCode →
      ∃ e, CheckStatusCode statusCode = some (.unrecoverable e) ∧
        retry.IsRecoverable (.unrecoverable e) = false) ∧
    CheckStatusCode 401 = some (.unrecoverable (.unrecoverableStatus 401)) ∧
    CheckStatusCode 403 = some (.unrecoverable (.unrecoverableStatus 403)) ∧
    CheckStatusCode 405 = some (.unrecoverable (.methodNotAllowed 405)) := by
  refine ⟨fun h => by rw [h]; rfl, fun h => ?_, fun h => ?_, rfl, rfl, rfl⟩
  · obtain ⟨e, he⟩ := CheckStatusCode_retryable statusCode h
    exact ⟨e, he, rfl⟩
  · obtain ⟨h200, hnr⟩ := h
    simp only [retryableStatus, not_or] at hnr
    obtain ⟨h404, h500, h502, h503, h504⟩ := hnr
    unfold CheckStatusCode
    rw [if_neg h200]
    by_cases h1 : statusCode = 401 ∨ statusCode = 403
    · rw [if_pos h1]; exact ⟨_, rfl, rfl⟩
    · rw [if_neg h1]
      by_cases h2 : statusCode = 405
      · rw [if_pos h2]; exact ⟨_, rfl, rfl⟩
      · rw [if_neg h2, if_neg h404,
          if_neg (by simp only [not_or]; exact ⟨h502, h503, h504, h500⟩)]
        exact ⟨_, rfl, rfl⟩

/-- C9: under the 3-attempt retry policy, if the first k responses (k <= 2)
carry retryable statuses and response k+1 is 200 with a supported content
type, then singleFile and decryptImage succeed after exactly k+1 requests (the
URL being accepted, the disk working at that attempt and, for decryptImage, the
key being valid non-empty hex). -/
theorem fetch_succeeds_after_retryable (env : Env) (url encryptionHex filenameNoExt : String)
    (w : World) (k : Nat) (key : List Nat) (hk : k ≤ 2)
    (hurl : env.validURL url = true)
    (hkey : hexDecodeString encryptionHex.toList = some key ∧ key ≠ [])
    (hfirst : ∀ j < k, ∃ r, (env.exchange (w.requests + j)).resp = some r ∧
      retryableStatus r.StatusCode)
    (hlast : ∃ r, (env.exchange (w.requests + k)).resp = some r ∧ r.StatusCode = 200 ∧
      supportedContentType r.ContentType)
    (hdisk : (env.exchange (w.requests + k)).readOk = true ∧
      (env.exchange (w.requests + k)).createOk = true ∧
      (env.exchange (w.requests + k)).writeOk = true) :
    ((singleFile env url filenameNoExt w).1 = retry.Result.nil ∧
      (singleFile env url filenameNoExt w).2.requests = w.requests + (k + 1)) ∧
    ((decryptImage env url encryptionHex filenameNoExt w).1 = retry.Result.nil ∧
      (decryptImage env url encryptionHex filenameNoExt w).2.requests = w.requests + (k + 1)) := by
  obtain ⟨r, hr, hs, hct⟩ := hlast
  have h3 : 3 = k + 1 + (2 - k) := by omega
  constructor
  · obtain ⟨t2, h1, h2⟩ := retry_loop_succeeds (singleFileAttempt env filenameNoExt)
      World.requests k (2 - k) w []
      (fun j hj t ht => by
        obtain ⟨r1, hr1, hs1⟩ := hfirst j hj
        exact singleFileAttempt_retryable env filenameNoExt t r1 (by rw [ht]; exact hr1) hs1)
      (fun t ht => singleFileAttempt_ok env filenameNoExt t r (by rw [ht]; exact hr) hs hct
        (by rw [ht]; exact hdisk))
    simp only [singleFile, hurl, retry.Do]
    rw [h3, h1]
    exact ⟨rfl, h2⟩
  · obtain ⟨t2, h1, h2⟩ := retry_loop_succeeds
      (decryptImageAttempt env encryptionHex filenameNoExt) World.requests k (2 - k) w []
      (fun j hj t ht => by
        obtain ⟨r1, hr1, hs1⟩ := hfirst j hj
        exact decryptImageAttempt_retryable env encryptionHex filenameNoExt t r1
          (by rw [ht]; exact hr1) hs1)
      (fun t ht => decryptImageAttempt_ok env encryptionHex filenameNoExt t r key
        (by rw [ht]; exact hr) hs hct hkey.1 hkey.2 (by rw [ht]; exact hdisk))
    simp only [decryptImage, hurl, retry.Do]
    rw [h3, h1]
    exact ⟨rfl, h2⟩

/-- Witness of C9: 404 followed by 200 (k = 1); both fetches succeed with the
second request, and write the page as 001.png. -/
theorem fetch_succeeds_after_retryable_witness :
    (singleFile notFoundThenImage "https://host/1" "001" ⟨0, []⟩ =
        (retry.Result.nil, ⟨2, [("001.png", [1, 2, 3])]⟩) ∧
      decryptImage notFoundThenImage "https://host/1" "0ff0" "001" ⟨0, []⟩ =
        (retry.Result.nil, ⟨2, [("001.png", [14, 242, 12])]⟩)) ∧
    (((singleFile notFoundThenImage "https://host/1" "001" ⟨0, []⟩).1 = retry.Result.nil ∧
      (singleFile notFoundThenImage "https://host/1" "001" ⟨0, []⟩).2.requests = 0 + (1 + 1)) ∧
    ((decryptImage notFoundThenImage "https://host/1" "0ff0" "001" ⟨0, []⟩).1 =
        retry.Result.nil ∧
      (decryptImage notFoundThenImage "https://host/1" "0ff0" "001" ⟨0, []⟩).2.requests =
        0 + (1 + 1))) :=
  ⟨by decide,
    fetch_succeeds_after_retryable notFoundThenImage "https://host/1" "0ff0" "001" ⟨0, []⟩ 1
      [15, 240] (by decide) rfl (by decide)
      (fun j hj => by
        have hj0 : j = 0 := by omega
        subst hj0
        exact ⟨⟨404, "text/plain", []⟩, rfl, Or.inl rfl⟩)
      ⟨⟨200, "image/png", [1, 2, 3]⟩, rfl, rfl, Or.inr (Or.inr (Or.inl rfl))⟩
      ⟨rfl, rfl, rfl⟩⟩

/-- C10: if the first response carries a status that CheckStatusCode marks
unrecoverable (403 for one), singleFile and decryptImage fail after exactly
one request, whatever the later responses would have been, and write no
file. -/
theorem fetch_stops_on_unrecoverable (env : Env) (url encryptionHex filenameNoExt : String)
    (w : World) (r : Response) (hurl : env.validURL url = true)
    (hr : (env.exchange w.requests).resp = some r)
    (hs : ∃ e, CheckStatusCode r.StatusCode = some (.unrecoverable e)) :
    ∃ e, singleFile env url filenameNoExt w =
        (retry.Result.errors [e], ⟨w.requests + 1, w.files⟩) ∧
      decryptImage env url encryptionHex filenameNoExt w =
        (retry.Result.errors [e], ⟨w.requests + 1, w.files⟩) := by
  obtain ⟨e, he⟩ := hs
  refine ⟨e, ?_, ?_⟩
  · simp only [singleFile, hurl, retry.Do]
    exact retry_loop_unrecoverable _ 2 w ⟨w.requests + 1, w.files⟩ e []
      (by simp only [singleFileAttempt, hr, he])
  · simp only [decryptImage, hurl, retry.Do]
    exact retry_loop_unrecoverable _ 2 w ⟨w.requests + 1, w.files⟩ e []
      (by simp only [decryptImageAttempt, hr, he])

/-- Witness of C10: the first response is 403; no second request is sent
although it would have been answered with 200. -/
theorem fetch_stops_on_unrecoverable_witness :
    ∃ e, singleFile forbiddenThenImage "https://host/1" "001" ⟨0, []⟩ =
        (retry.Result.errors [e], ⟨0 + 1, []⟩) ∧
      decryptImage forbiddenThenImage "https://host/1" "0ff0" "001" ⟨0, []⟩ =
        (retry.Result.errors [e], ⟨0 + 1, []⟩) :=
  fetch_stops_on_unrecoverable forbiddenThenImage "https://host/1" "0ff0" "001" ⟨0, []⟩
    ⟨403, "text/plain", []⟩ rfl rfl ⟨_, rfl⟩

section archive
open files

/-- C11: the XOR step of decryptImage is its own inverse: applied twice with
the same non-empty key it gives back the original bytes. -/
theorem xorKey_twice (data key : List Nat) (_hkey : key ≠ []) :
    xorKey (xorKey data key) key = data := by
  apply List.ext_getElem?
  intro i
  rw [xorKey_getElem?, xorKey_getElem?]
  cases data[i]? with
  | none => rfl
  | some b => simp [Nat.xor_cancel_right]

/-- Witness of C11: a payload of three bytes with a key that is shorter, one
of the same length and one that is longer. -/
theorem xorKey_twice_witness :
    xorKey (xorKey [1, 2, 3] [15, 240]) [15, 240] = [1, 2, 3] ∧
    xorKey (xorKey [1, 2, 3] [15, 240, 7]) [15, 240, 7] = [1, 2, 3] ∧
    xorKey (xorKey [1, 2, 3] [15, 240, 7, 9, 200]) [15, 240, 7, 9, 200] = [1, 2, 3] :=
  ⟨xorKey_twice [1, 2, 3] [15, 240] (by decide),
   xorKey_twice [1, 2, 3] [15, 240, 7] (by decide),
   xorKey_twice [1, 2, 3] [15, 240, 7, 9, 200] (by decide)⟩

/-- C12: when decryptImage gets a 200 response with the body data and decodes
a non-empty key, the bytes it writes have the length of data, and byte i is
data[i] XOR key[i mod len(key)]. -/
theorem decryptImage_writes_xor (env : Env) (url encryptionHex filenameNoExt : String)
    (w : World) (r : Response) (key : List Nat) (hurl : env.validURL url = true)
    (hr : (env.exchange w.requests).resp = some r) (hs : r.StatusCode = 200)
    (hct : supportedContentType r.ContentType)
    (hkey : hexDecodeString encryptionHex.toList = some key) (hne : key ≠ [])
    (hdisk : (env.exchange w.requests).readOk = true ∧
      (env.exchange w.requests).createOk = true ∧ (env.exchange w.requests).writeOk = true) :
    ∃ name written,
      decryptImage env url encryptionHex filenameNoExt w =
        (retry.Result.nil, World.write ⟨w.requests + 1, w.files⟩ name written) ∧
      written.length = r.Body.length ∧
      ∀ i b k, r.Body[i]? = some b → key[i % key.length]? = some k →
        written[i]? = some (b ^^^ k) := by
  obtain ⟨name, hname⟩ := appendImageExtension_supported r.ContentType filenameNoExt hct
  have hcheck : CheckStatusCode r.StatusCode = none := by rw [hs]; rfl
  have hlen : ¬ (key.length = 0 ∧ r.Body ≠ []) := fun h => hne (List.length_eq_zero.1 h.1)
  refine ⟨name, xorKey r.Body key, ?_, xorKey_length _ _, ?_⟩
  · simp only [decryptImage, hurl, retry.Do, retry.loop, decryptImageAttempt, hr, hcheck,
      hname, hdisk.1, hdisk.2.1, hdisk.2.2, hkey, hlen]
    rfl
  · intro i b k hb hk
    rw [xorKey_getElem?, hb]
    simp [List.getD_eq_getElem?_getD, hk]

/-- Witness of C12: the body 1, 2, 3 under the key 0f f0 is written as
1 XOR 15, 2 XOR 240, 3 XOR 15. -/
theorem decryptImage_writes_xor_witness :
    decryptImage imageServer "https://host/1" "0ff0" "001" ⟨0, []⟩ =
      (retry.Result.nil, ⟨1, [("001.png", [14, 242, 12])]⟩) ∧
    ∃ name written,
      decryptImage imageServer "https://host/1" "0ff0" "001" ⟨0, []⟩ =
        (retry.Result.nil, World.write ⟨0 + 1, []⟩ name written) ∧
      written.length = [1, 2, 3].length ∧
      ∀ i b k, [1, 2, 3][i]? = some b → [15, 240][i % [15, 240].length]? = some k →
        written[i]? = some (b ^^^ k) :=
  ⟨by decide,
    decryptImage_writes_xor imageServer "https://host/1" "0ff0" "001" ⟨0, []⟩
      ⟨200, "image/png", [1, 2, 3]⟩ [15, 240] rfl rfl rfl (Or.inr (Or.inr (Or.inl rfl)))
      (by decide) (by decide) ⟨rfl, rfl, rfl⟩⟩

/-- C13: appendImageExtension appends ".jpg" for image/jpeg and image/jpg,
".png" for image/png, ".gif" for image/gif and ".webp" for image/webp, and
returns an error for every other content type; every file that singleFile or
decryptImage adds for a page has one of these four extensions. -/
theorem appendImageExtension_extensions (contentType filename : String) :
    ((contentType = "image/jpeg" ∨ contentType = "image/jpg") →
      appendImageExtension contentType filename = (filename ++ ".jpg", none)) ∧
    (contentType = "image/png" →
      appendImageExtension contentType filename = (filename ++ ".png", none)) ∧
    (contentType = "image/gif" →
      appendImageExtension contentType filename = (filename ++ ".gif", none)) ∧
    (contentType = "image/webp" →
      appendImageExtension contentType filename = (filename ++ ".webp", none)) ∧
    (¬ supportedContentType contentType →
      ∃ err, appendImageExtension contentType filename = (filename, some err)) ∧
    (∀ (env : Env) (url encryptionHex : String) (w : World) (f : String × List Nat),
      f ∈ (singleFile env url filename w).2.files ∨
        f ∈ (decryptImage env url encryptionHex filename w).2.files →
      f ∈ w.files ∨ f.1 ∈ [filename ++ ".jpg", filename ++ ".png", filename ++ ".gif",
        filename ++ ".webp"]) := by
  refine ⟨?_, ?_, ?_, ?_, ?_, ?_⟩
  · rintro (h | h) <;> subst h <;> rfl
  · intro h; subst h; rfl
  · intro h; subst h; rfl
  · intro h; subst h; rfl
  · intro h
    exact ⟨_, appendImageExtension_unsupported contentType filename h⟩
  · intro env url encryptionHex w f hf
    rcases hf with hf | hf
    · unfold singleFile at hf
      split at hf
      · exact Or.inl hf
      · revert f
        exact retry_loop_invariant (singleFileAttempt env filename)
          (fun s => ∀ f ∈ s.files, f ∈ w.files ∨ f.1 ∈ [filename ++ ".jpg",
            filename ++ ".png", filename ++ ".gif", filename ++ ".webp"])
          (fun s hs f hf => by
            rcases singleFileAttempt_files env filename s f hf with h | h
            · exact hs f h
            · exact Or.inr h)
          3 w [] (fun f hf => Or.inl hf)
    · unfold decryptImage at hf
      split at hf
      · exact Or.inl hf
      · revert f
        exact retry_loop_invariant (decryptImageAttempt env encryptionHex filename)
          (fun s => ∀ f ∈ s.files, f ∈ w.files ∨ f.1 ∈ [filename ++ ".jpg",
            filename ++ ".png", filename ++ ".gif", filename ++ ".webp"])
          (fun s hs f hf => by
            rcases decryptImageAttempt_files env encryptionHex filename s f hf with h | h
            · exact hs f h
            · exact Or.inr h)
          3 w [] (fun f hf => Or.inl hf)

/-- C14 (counterexample): a server that answers every request with 200 and
content type text/html is asked three times by singleFile, not once. -/
theorem singleFile_retries_unsupported_content_type :
    singleFile htmlServer "https://host/1" "001" ⟨0, []⟩ =
      (retry.Result.errors [.unsupportedContentType "text/html",
        .unsupportedContentType "text/html", .unsupportedContentType "text/html"],
       ⟨3, []⟩) := by
  decide

/-- C14 (amended): a response of status 200 with an unrecognized content type
fails the attempt with an error that is not marked unrecoverable and writes no
file; when all three responses are of this kind, singleFile fails after
exactly three requests and leaves the files as they were. -/
theorem singleFile_unsupported_content_type (env : Env) (url filenameNoExt : String)
    (w : World) (hurl : env.validURL url = true)
    (hall : ∀ j < 3, ∃ r, (env.exchange (w.requests + j)).resp = some r ∧
      r.StatusCode = 200 ∧ ¬ supportedContentType r.ContentType) :
    (∃ e, singleFileAttempt env filenameNoExt w =
        (retry.Outcome.err e, ⟨w.requests + 1, w.files⟩) ∧ retry.IsRecoverable e = true) ∧
    ∃ e0 e1 e2, singleFile env url filenameNoExt w =
      (retry.Result.errors [e0, e1, e2], ⟨w.requests + 3, w.files⟩) := by
  obtain ⟨r0, hr0, hs0, hc0⟩ := hall 0 (by omega)
  obtain ⟨r1, hr1, hs1, hc1⟩ := hall 1 (by omega)
  obtain ⟨r2, hr2, hs2, hc2⟩ := hall 2 (by omega)
  have a0 := singleFileAttempt_unsupported env filenameNoExt w r0 hr0 hs0 hc0
  have a1 := singleFileAttempt_unsupported env filenameNoExt ⟨w.requests + 1, w.files⟩ r1
    hr1 hs1 hc1
  have a2 := singleFileAttempt_unsupported env filenameNoExt ⟨w.requests + 1 + 1, w.files⟩ r2
    hr2 hs2 hc2
  refine ⟨⟨_, a0, rfl⟩, .unsupportedContentType r0.ContentType,
    .unsupportedContentType r1.ContentType, .unsupportedContentType r2.ContentType, ?_⟩
  simp only [singleFile, hurl, retry.Do]
  exact retry_loop_exhausts _ _ _ _ _ _ _ _ a0 a1 a2

/-- Witness of C14 (amended): the server that answers every request with an
HTML page. -/
theorem singleFile_unsupported_content_type_witness :
    (∃ e, singleFileAttempt htmlServer "001" ⟨0, []⟩ =
        (retry.Outcome.err e, ⟨0 + 1, []⟩) ∧ retry.IsRecoverable e = true) ∧
    ∃ e0 e1 e2, singleFile htmlServer "https://host/1" "001" ⟨0, []⟩ =
      (retry.Result.errors [e0, e1, e2], ⟨0 + 3, []⟩) :=
  singleFile_unsupported_content_type htmlServer "https://host/1" "001" ⟨0, []⟩ rfl
    (fun _ _ => ⟨⟨200, "text/html", [60, 104]⟩, rfl, rfl,
      by unfold supportedContentType; decide⟩)

/-- C15 (counterexample): in a chapter of 1000 pages the file of the page at
position 999 ("1000.jpg") sorts lexically before the file of the page at
position 998 ("999.jpg"). -/
theorem page_1000_sorts_before_page_999 :
    pageFilenameNoExt 998 ++ ".jpg" = "999.jpg" ∧
    pageFilenameNoExt 999 ++ ".jpg" = "1000.jpg" ∧
    pageFilenameNoExt 999 ++ ".jpg" < pageFilenameNoExt 998 ++ ".jpg" :=
  ⟨by decide, by decide, String.lt_iff_toList_lt.2 (by decide)⟩

/-- C15 (amended): for two page positions i < j of a chapter of at most 999
pages, the file name of page i (index i+1 padded to three digits, plus any
extension) sorts lexically strictly before the file name of page j. -/
theorem pageFilename_lexical_order (i j : Nat) (ext1 ext2 : String) (hij : i < j)
    (hj : j < 999) :
    pageFilenameNoExt i ++ ext1 < pageFilenameNoExt j ++ ext2 :=
  sprintf03d_lt (i + 1) (j + 1) ext1 ext2 (by omega) (by omega)

/-- Witness of C15 (amended): page 9 as a WebP file and page 10 as a JPEG
file, and the last two pages of a chapter of 999 pages. -/
theorem pageFilename_lexical_order_witness :
    pageFilenameNoExt 8 ++ ".webp" < pageFilenameNoExt 9 ++ ".jpg" ∧
    pageFilenameNoExt 997 ++ ".png" < pageFilenameNoExt 998 ++ ".gif" :=
  ⟨pageFilename_lexical_order 8 9 ".webp" ".jpg" (by decide) (by decide),
   pageFilename_lexical_order 997 998 ".png" ".gif" (by decide) (by decide)⟩

/-- C16: with isManhwa set (and a disk that works), CreateCbzArchive archives
a page if and only if its width w decodes and mcb-10 <= w <= mcb+10, where
mcb is a most frequent bin floor(w/10)*10 of the decodable pages; the entries
are written in name order. -/
theorem CreateCbzArchive_manhwa (target : Target) (ord : RangeOrder (Nat × Nat))
    (sourceDir : List PageFile)
    (htarget : target.mkdirOk = true ∧ target.createOk = true)
    (hfiles : ∀ f ∈ sourceDir, f.openOk = true ∧ f.zipOk = true)
    (hnames : (sourceDir.map (fun f => f.name)).Nodup) :
    ∃ mcb,
      (decodedBins sourceDir = [] ∨
        (mcb ∈ decodedBins sourceDir ∧
          ∀ bin, (decodedBins sourceDir).count bin ≤ (decodedBins sourceDir).count mcb)) ∧
      CreateCbzArchive target ord sourceDir true =
        ⟨none, true, ((walkOrder sourceDir).filter (inWindow mcb)).map entryOf⟩ ∧
      ∀ f ∈ sourceDir,
        (entryOf f ∈ (CreateCbzArchive target ord sourceDir true).entries ↔
          inWindow mcb f = true) := by
  have hwalk : ∀ f ∈ walkOrder sourceDir, f.openOk = true ∧ f.zipOk = true :=
    fun f hf => hfiles f ((walkOrder_perm sourceDir).mem_iff.1 hf)
  have hcensus := census_ok (walkOrder sourceDir) [] (fun f hf => (hwalk f hf).1)
  obtain ⟨i1, i2, i3⟩ := census_invariant
    ((walkOrder sourceDir).filterMap (fun f => f.width)) [] [] (by simp) (by simp) (by simp)
  simp only [List.nil_append] at i2 i3
  have hbins : ((walkOrder sourceDir).filterMap (fun f => f.width)).map binOf =
      decodedBins (walkOrder sourceDir) := rfl
  rw [hbins] at i2 i3
  have hperm := decodedBins_walkOrder sourceDir
  have hpick := ord.perm 0 (((walkOrder sourceDir).filterMap (fun f => f.width)).foldl
    (fun wc w => increment wc (binOf w)) [])
  refine ⟨(mostCommon (ord.pick 0 (((walkOrder sourceDir).filterMap (fun f => f.width)).foldl
    (fun wc w => increment wc (binOf w)) []))).2, ?_, ?_, ?_⟩
  · by_cases hnil : decodedBins sourceDir = []
    · exact Or.inl hnil
    · right
      obtain ⟨b0, hb0⟩ := List.exists_mem_of_ne_nil _ hnil
      have hkey0 := i3 b0 (hperm.mem_iff.2 hb0)
      obtain ⟨e0, he0, _⟩ := List.mem_map.1 hkey0
      have hne : ord.pick 0 (((walkOrder sourceDir).filterMap (fun f => f.width)).foldl
          (fun wc w => increment wc (binOf w)) []) ≠ [] :=
        List.ne_nil_of_mem (hpick.mem_iff.2 he0)
      obtain ⟨m1, m2⟩ := mostCommon_spec _
        (fun e he => (i2 e (hpick.mem_iff.1 he)).1) hne
      obtain ⟨p1, p2⟩ := i2 _ (hpick.mem_iff.1 m1)
      simp only at p1 p2
      rw [hperm.count_eq] at p2
      refine ⟨List.count_pos_iff.1 (by omega), fun bin => ?_⟩
      by_cases hbin : bin ∈ decodedBins sourceDir
      · obtain ⟨e, he, hfst⟩ := List.mem_map.1 (i3 bin (hperm.mem_iff.2 hbin))
        have hle := m2 e (hpick.mem_iff.2 he)
        obtain ⟨_, q2⟩ := i2 e he
        rw [hperm.count_eq, hfst] at q2
        omega
      · rw [List.count_eq_zero.2 hbin]
        exact Nat.zero_le _
  · simp [CreateCbzArchive, htarget.1, htarget.2, hcensus, pack_ok true _ _ _ hwalk]
  · intro f hf
    simp only [CreateCbzArchive, htarget.1, htarget.2, hcensus, pack_ok true _ _ _ hwalk,
      Bool.not_true, Bool.false_eq_true, if_false, if_true, List.nil_append]
    rw [List.mem_map]
    constructor
    · rintro ⟨g, hg, hgf⟩
      rw [List.mem_filter] at hg
      have hgdir := (walkOrder_perm sourceDir).mem_iff.1 hg.1
      have hname : g.name = f.name := congrArg Prod.fst hgf
      have : g = f := List.inj_on_of_nodup_map hnames hgdir hf hname
      rw [← this]
      exact hg.2
    · intro hin
      exact ⟨f, List.mem_filter.2 ⟨(walkOrder_perm sourceDir).mem_iff.2 hf, hin⟩, rfl⟩

/-- Witness of C16: of the pages of widths 100, 102, 98, 500 and 101 the four
other than the 500-wide one are archived. -/
theorem CreateCbzArchive_manhwa_witness :
    CreateCbzArchive ⟨true, true⟩ (RangeOrder.stored (Nat × Nat)) fivePages true =
      ⟨none, true, [("001.jpg", [100]), ("002.jpg", [102]), ("003.jpg", [98]),
        ("005.jpg", [101])]⟩ ∧
    ∃ mcb,
      (decodedBins fivePages = [] ∨
        (mcb ∈ decodedBins fivePages ∧
          ∀ bin, (decodedBins fivePages).count bin ≤ (decodedBins fivePages).count mcb)) ∧
      CreateCbzArchive ⟨true, true⟩ (RangeOrder.stored (Nat × Nat)) fivePages true =
        ⟨none, true, ((walkOrder fivePages).filter (inWindow mcb)).map entryOf⟩ ∧
      ∀ f ∈ fivePages,
        (entryOf f ∈ (CreateCbzArchive ⟨true, true⟩ (RangeOrder.stored (Nat × Nat)) fivePages
            true).entries ↔
          inWindow mcb f = true) :=
  ⟨by decide,
    CreateCbzArchive_manhwa ⟨true, true⟩ (RangeOrder.stored (Nat × Nat)) fivePages
      ⟨rfl, rfl⟩ (by decide) (by decide)⟩

/-- C17: with isManhwa not set (and a disk that works), the entries
CreateCbzArchive writes are exactly the files of the scratch directory whose
image header decodes, each once, under its own name, in lexical order of the
names, whatever their widths. -/
theorem CreateCbzArchive_not_manhwa (target : Target) (ord : RangeOrder (Nat × Nat))
    (sourceDir : List PageFile)
    (htarget : target.mkdirOk = true ∧ target.createOk = true)
    (hfiles : ∀ f ∈ sourceDir, f.openOk = true ∧ f.zipOk = true) :
    CreateCbzArchive target ord sourceDir false =
      ⟨none, true, ((walkOrder sourceDir).filter (fun f => f.width.isSome)).map entryOf⟩ ∧
    (walkOrder sourceDir).Perm sourceDir ∧
    (walkOrder sourceDir).Sorted (fun a b => a.name ≤ b.name) := by
  have hwalk : ∀ f ∈ walkOrder sourceDir, f.openOk = true ∧ f.zipOk = true :=
    fun f hf => hfiles f ((walkOrder_perm sourceDir).mem_iff.1 hf)
  have hcensus := census_ok (walkOrder sourceDir) [] (fun f hf => (hwalk f hf).1)
  refine ⟨?_, walkOrder_perm sourceDir, walkOrder_sorted sourceDir⟩
  simp [CreateCbzArchive, htarget.1, htarget.2, hcensus, pack_ok false _ _ _ hwalk]

/-- Witness of C17: a directory listed out of order with a page of width 500,
a file that does not decode and a page of width 100; the two pages that
decode are archived in name order. -/
theorem CreateCbzArchive_not_manhwa_witness :
    CreateCbzArchive ⟨true, true⟩ (RangeOrder.stored (Nat × Nat)) unsortedPages false =
      ⟨none, true, [("001.jpg", [100]), ("003.jpg", [500])]⟩ ∧
    (CreateCbzArchive ⟨true, true⟩ (RangeOrder.stored (Nat × Nat)) unsortedPages false =
      ⟨none, true, ((walkOrder unsortedPages).filter (fun f => f.width.isSome)).map entryOf⟩ ∧
    (walkOrder unsortedPages).Perm unsortedPages ∧
    (walkOrder unsortedPages).Sorted (fun a b => a.name ≤ b.name)) :=
  ⟨by decide,
    CreateCbzArchive_not_manhwa ⟨true, true⟩ (RangeOrder.stored (Nat × Nat)) unsortedPages
      ⟨rfl, rfl⟩ (by decide)⟩

/-- C18 (the code at the failing input): for a chapter that is not a manhwa,
the file 002.jpg, whose header does not decode, is left out of the archive;
the call returns no error. -/
theorem CreateCbzArchive_drops_undecodable_file :
    (⟨"002.jpg", [0], none, true, true⟩ : PageFile) ∈ unsortedPages ∧
    CreateCbzArchive ⟨true, true⟩ (RangeOrder.backwards (Nat × Nat)) unsortedPages false =
      ⟨none, true, [("001.jpg", [100]), ("003.jpg", [500])]⟩ := by
  decide

/-- C19 (counterexample): the target file exists, and the provider's
GetImageURLs is called all the same before the run is skipped, in the
monitor's run and in the download command's run. -/
theorem chapterRun_calls_GetImageURLs_first :
    (cmd.chapterRun (fun c => some c) (fun _ => "/downloads/Demo/Chapter 1.cbz") (fun _ => true)
      (fun _ => imageServer) goodDisk (RangeOrder.stored (Nat × Nat))
      chapterWithoutPages).getImageURLsCalls = 1 ∧
    (cmd.downloadRun demoChapters 1 (fun c => some c) (fun _ => "/downloads/Demo/Chapter 1.cbz")
      (fun _ => true) (fun _ => imageServer) goodDisk
      (RangeOrder.stored (Nat × Nat))).getImageURLsCalls = 1 := by
  decide

/-- C19 (amended): when the provider's GetImageURLs succeeds and a file exists
at the target path, the run for the chapter (monitor and download command)
ends as skipped after that one GetImageURLs call: download.Chapter is not
called and no page request is sent. -/
theorem chapterRun_skips_existing_file (getImageURLs : Chapter → Option Chapter)
    (contentPathOf : Chapter → String) (fileExists : String → Bool) (envOf : Nat → Env)
    (disk : Disk) (ord : RangeOrder (Nat × Nat)) (chapters : List (ℚ × Chapter)) (num : ℚ)
    (selectedChapter withPages : Chapter)
    (hfound : mapLookup chapters num = some selectedChapter)
    (hget : getImageURLs selectedChapter = some withPages)
    (hexists : fileExists (contentPathOf withPages) = true) :
    cmd.chapterRun getImageURLs contentPathOf fileExists envOf disk ord selectedChapter =
      ⟨cmd.RunOutcome.skipped, 1, false, 0⟩ ∧
    cmd.downloadRun chapters num getImageURLs contentPathOf fileExists envOf disk ord =
      ⟨cmd.RunOutcome.skipped, 1, false, 0⟩ := by
  have hrun : cmd.chapterRun getImageURLs contentPathOf fileExists envOf disk ord
      selectedChapter = ⟨cmd.RunOutcome.skipped, 1, false, 0⟩ := by
    simp only [cmd.chapterRun, hget, hexists, if_true]
  refine ⟨hrun, ?_⟩
  simp only [cmd.downloadRun, hfound]
  exact hrun

/-- Witness of C19 (amended): chapter 1 of "Demo", a provider that returns its
pages, and the archive already in place. -/
theorem chapterRun_skips_existing_file_witness :
    cmd.chapterRun (fun _ => some twoPageChapter) (fun _ => "/downloads/Demo/Chapter 1.cbz")
      (fun _ => true) (fun _ => imageServer) goodDisk (RangeOrder.stored (Nat × Nat))
      (demoChapter 1 3) = ⟨cmd.RunOutcome.skipped, 1, false, 0⟩ ∧
    cmd.downloadRun demoChapters 1 (fun _ => some twoPageChapter)
      (fun _ => "/downloads/Demo/Chapter 1.cbz") (fun _ => true) (fun _ => imageServer) goodDisk
      (RangeOrder.stored (Nat × Nat)) = ⟨cmd.RunOutcome.skipped, 1, false, 0⟩ :=
  chapterRun_skips_existing_file (fun _ => some twoPageChapter)
    (fun _ => "/downloads/Demo/Chapter 1.cbz") (fun _ => true) (fun _ => imageServer) goodDisk
    (RangeOrder.stored (Nat × Nat)) demoChapters 1 (demoChapter 1 3) twoPageChapter
    (by decide) rfl rfl

/-- C20 (the code at the failing input): the fetch of the second page of a
chapter of two pages fails with 403, and Chapter returns no error and leaves an
archive with the first page only. -/
theorem Chapter_archives_despite_failed_page :
    download.Chapter (fun i => if i = 0 then imageServer else forbiddenServer) goodDisk
      (RangeOrder.stored (Nat × Nat)) twoPageChapter =
      ⟨ChapterOutcome.archived ⟨none, true, [("001.png", [1, 2, 3])]⟩, [1], 2⟩ ∧
    (download.Chapter (fun i => if i = 0 then imageServer else forbiddenServer) goodDisk
      (RangeOrder.stored (Nat × Nat)) twoPageChapter).failed = false := by
  decide

end archive

section later
open files

/-- C26: in download.Chapter decryptImage is reached only with a non-empty key
string; a non-empty hex string that decodes gives a key of length >= 1, so
that i % keyLen is below keyLen for every i; no page fetch and no run of
Chapter ends in a panic. -/
theorem Chapter_key_index_in_bounds (envOf : Nat → Env) (disk : Disk)
    (ord : RangeOrder (Nat × Nat)) (chapter : Mangarr.Chapter) :
    (∀ (env : Env) (i : Nat) (imageInfo : ImageInfo) (scratch : List (String × List Nat)),
      (imageInfo.EncryptionKey.length = 0 →
        fetchPage env i imageInfo scratch =
          singleFile env imageInfo.ImageURL (pageFilenameNoExt i) ⟨0, scratch⟩) ∧
      (fetchPage env i imageInfo scratch).1 ≠ retry.Result.panic) ∧
    (∀ (s : List Char) (key : List Nat), s ≠ [] → hexDecodeString s = some key →
      1 ≤ key.length ∧ ∀ i, i % key.length < key.length ∧
        (key[i % key.length]?).isSome = true) ∧
    (download.Chapter envOf disk ord chapter).outcome ≠ ChapterOutcome.panic := by
  refine ⟨fun env i imageInfo scratch => ⟨fun h => ?_, fetchPage_no_panic env i imageInfo scratch⟩,
    fun s key hs hdec => ?_, ?_⟩
  · simp [fetchPage, h]
  · have hne := hexDecodeString_nonempty s key hs hdec
    have hpos : 0 < key.length := List.length_pos.2 hne
    refine ⟨hpos, fun i => ?_⟩
    have hlt := Nat.mod_lt i hpos
    exact ⟨hlt, by simp [hlt]⟩
  · unfold download.Chapter
    split
    · simp
    · have hp := fetchPages_no_panic envOf chapter.ImageInfo 0 []
      split
      · rename_i h
        rw [h] at hp
        cases hp
      · simp

/-- C27 (counterexample): for two pages of widths 100 and 500 the bins tie, and
the page that is kept depends on the order in which the width-count map is
enumerated. -/
theorem CreateCbzArchive_tie_depends_on_order :
    CreateCbzArchive ⟨true, true⟩ (RangeOrder.stored (Nat × Nat)) twoWidths true =
      ⟨none, true, [("001.jpg", [100])]⟩ ∧
    CreateCbzArchive ⟨true, true⟩ (RangeOrder.backwards (Nat × Nat)) twoWidths true =
      ⟨none, true, [("002.jpg", [500])]⟩ := by
  decide

/-- C27 (amended): when isManhwa is set and one bin is strictly more frequent
than every other bin, CreateCbzArchive leaves the same archive for every order
of enumeration of the width-count map. -/
theorem CreateCbzArchive_order_independent (target : Target)
    (ord1 ord2 : RangeOrder (Nat × Nat)) (sourceDir : List PageFile) (top : Nat)
    (htop : top ∈ decodedBins sourceDir)
    (hstrict : ∀ bin ∈ decodedBins sourceDir, bin ≠ top →
      (decodedBins sourceDir).count bin < (decodedBins sourceDir).count top) :
    CreateCbzArchive target ord1 sourceDir true =
      CreateCbzArchive target ord2 sourceDir true := by
  unfold CreateCbzArchive
  split
  · rfl
  · split
    · rfl
    · cases hc : census (walkOrder sourceDir) [] with
      | error e => rfl
      | ok widthCount =>
        have hwc := census_ok_inv _ _ _ hc
        simp only
        rw [hwc, mostCommon_unique_top ord1 sourceDir top htop hstrict,
          mostCommon_unique_top ord2 sourceDir top htop hstrict]

/-- Witness of C27 (amended): the five pages of the spec's example, whose bin
100 holds three pages, enumerated forwards and backwards. -/
theorem CreateCbzArchive_order_independent_witness :
    CreateCbzArchive ⟨true, true⟩ (RangeOrder.stored (Nat × Nat)) fivePages true =
      CreateCbzArchive ⟨true, true⟩ (RangeOrder.backwards (Nat × Nat)) fivePages true :=
  CreateCbzArchive_order_independent ⟨true, true⟩ (RangeOrder.stored (Nat × Nat))
    (RangeOrder.backwards (Nat × Nat)) fivePages 100 (by decide) (by decide)

end later

section naming
open templater

/-- C23: for the default naming template, a non-empty manga title M without
colon and a whole chapter number n from 0 to 999 (printed by FormatFloat as its
decimal digits), ExecTemplate returns M, " Ch. ", n as three zero-padded digits
and, when the chapter title T is not empty, " - " and T. -/
theorem ExecTemplate_default (fmt : NumberFormat) (manga : Manga) (chapter : Chapter) (n : Nat)
    (hM : manga.Title ≠ "") (hcolon : ':' ∉ manga.Title.toList) (hn : n ≤ 999)
    (hnum : chapter.Number = (n : ℚ))
    (hfmt : fmt.formatFloat (n : ℚ) = Nat.toDigits 10 n) :
    ExecTemplate fmt manga chapter defaultTemplate =
      manga.Title ++ " Ch. " ++ sprintf03d n ++
        (if chapter.Title = "" then "" else " - " ++ chapter.Title) := by
  have hpad : handleNum fmt chapter ":3".toList = (sprintf03d n).toList := by
    have h1 : strings.ReplaceAll ":3".toList [':'] [] = "3".toList := by decide
    have h2 : parseInt32 "3".toList = 3 := by decide
    have h3 : ¬ (":3".toList.length = 0) := by decide
    unfold handleNum
    rw [if_neg h3]
    simp only [h1, h2, hnum]
    exact PadFloat_whole fmt.formatFloat n (by omega) hfmt
  have step1 : execMatch fmt manga chapter defaultTemplate.toList
      ⟨"\x7bmanga:<.>\x7d".toList, "manga".toList, ":<.>".toList⟩ =
      manga.Title.toList ++ " Ch. \x7bnum:3\x7d\x7btitle: - <.>\x7d".toList := by
    unfold execMatch
    rw [if_neg (by decide), if_pos (by decide)]
    simp only [handleMangaTitle_default manga hM]
    rfl
  have step2 : execMatch fmt manga chapter
      (manga.Title.toList ++ " Ch. \x7bnum:3\x7d\x7btitle: - <.>\x7d".toList)
      ⟨"\x7bnum:3\x7d".toList, "num".toList, ":3".toList⟩ =
      manga.Title.toList ++ (" Ch. ".toList ++ (sprintf03d n).toList ++
        "\x7btitle: - <.>\x7d".toList) := by
    unfold execMatch
    rw [if_pos (by decide)]
    simp only [hpad]
    have k := ReplaceFirst_skip_colon "\x7bnum".toList "3\x7d".toList (sprintf03d n).toList
      "Ch. \x7bnum:3\x7d\x7btitle: - <.>\x7d".toList ' ' (by decide) manga.Title.toList hcolon
    exact k
  have step3 : execMatch fmt manga chapter
      (manga.Title.toList ++ (" Ch. ".toList ++ (sprintf03d n).toList ++
        "\x7btitle: - <.>\x7d".toList))
      ⟨"\x7btitle: - <.>\x7d".toList, "title".toList, ": - <.>".toList⟩ =
      manga.Title.toList ++ (" Ch. ".toList ++ (sprintf03d n).toList ++
        (if chapter.Title = "" then [] else " - ".toList ++ chapter.Title.toList)) := by
    unfold execMatch
    rw [if_neg (by decide), if_neg (by decide), if_pos (by decide)]
    simp only [handleChapterTitle_default]
    have k1 := ReplaceFirst_skip_colon "\x7btitle".toList " - <.>\x7d".toList
      (if chapter.Title = "" then [] else " - ".toList ++ chapter.Title.toList)
      ("Ch. ".toList ++ (sprintf03d n).toList ++ "\x7btitle: - <.>\x7d".toList) ' ' (by decide)
      manga.Title.toList hcolon
    have hbrace : '{' ∉ " Ch. ".toList ++ (sprintf03d n).toList := by
      intro h
      rcases List.mem_append.1 h with h | h
      · exact absurd h (by decide)
      · exact sprintf03d_no_brace n (by omega) h
    have k2 := ReplaceFirst_skip_head '{' "title: - <.>\x7d".toList
      (if chapter.Title = "" then [] else " - ".toList ++ chapter.Title.toList)
      "\x7btitle: - <.>\x7d".toList (" Ch. ".toList ++ (sprintf03d n).toList) hbrace
    have k3 : strings.ReplaceFirst "\x7btitle: - <.>\x7d".toList ('{' :: "title: - <.>\x7d".toList)
        (if chapter.Title = "" then [] else " - ".toList ++ chapter.Title.toList) =
        (if chapter.Title = "" then [] else " - ".toList ++ chapter.Title.toList) := by
      simp [strings.ReplaceFirst, strings.HasPrefix]
    rw [k3] at k2
    exact k1.trans (congrArg (fun l => manga.Title.toList ++ l) k2)
  unfold ExecTemplate
  rw [defaultTemplate_matches]
  simp only [List.foldl_cons, List.foldl_nil, step1, step2, step3]
  apply String.ext
  by_cases hT : chapter.Title = ""
  · simp [hT, String.data_append]
  · simp [hT, String.data_append]

/-- Witness of C23: the example of the configuration file, "Manga Ch. 001 -
Chapter Title", and a chapter without title. -/
theorem ExecTemplate_default_witness :
    ExecTemplate wholeNumberFormat ⟨"", "Manga", []⟩ ⟨"", "", 1, "Chapter Title", false, []⟩
      defaultTemplate = "Manga Ch. 001 - Chapter Title" ∧
    ExecTemplate wholeNumberFormat ⟨"", "Manga", []⟩ ⟨"", "", 1, "Chapter Title", false, []⟩
      defaultTemplate =
      "Manga" ++ " Ch. " ++ sprintf03d 1 ++
        (if "Chapter Title" = "" then "" else " - " ++ "Chapter Title") :=
  ⟨by decide,
    ExecTemplate_default wholeNumberFormat ⟨"", "Manga", []⟩
      ⟨"", "", 1, "Chapter Title", false, []⟩ 1 (by decide) (by decide) (by decide)
      (by simp) (by decide)⟩

end naming

/-- C21 (the code at the failing input): cubari's GetManga stores chapter 1 with
an empty page list when the group's list of pages is empty, and cubari's
GetImageURLs returns no error for it and leaves it without pages; mangadex's
GetImageURLs, a sibling, returns an error whenever it found no page. -/
theorem cubari_succeeds_without_pages :
    source.cubariGetManga parseDecimal "g" source.cubariEmptyGroup false =
      some ⟨"", "Demo", [(1, ⟨"", "", 1, "One", false, []⟩)]⟩ ∧
    source.cubariGetImageURLs ⟨"", "", 1, "One", false, []⟩ =
      (false, ⟨"", "", 1, "One", false, []⟩) ∧
    (∀ (joinPath : String → List String → Option String) (chapterResp : source.MangadexChapter)
      (errFunc : Bool) (chapter : Chapter),
      (source.mangadexGetImageURLs joinPath chapterResp errFunc chapter).1 = false →
      (source.mangadexGetImageURLs joinPath chapterResp errFunc chapter).2.ImageInfo ≠ []) := by
  refine ⟨by decide, rfl, ?_⟩
  intro joinPath chapterResp errFunc chapter h
  unfold source.mangadexGetImageURLs at h ⊢
  split at h
  · cases h
  · split at h
    · cases h
    · rename_i hlen
      rw [if_neg hlen]
      intro hnil
      apply hlen
      have hnil2 : _ = ([] : List ImageInfo) := hnil
      simp only at hnil2
      rw [hnil2]; rfl

/-- C24: the result of sanitize.Filename contains none of the characters
< > : " / \ | ? *, so that it contains no path separator. -/
theorem Filename_no_illegal_char (title : String) :
    (∀ c ∈ (sanitize.Filename title).toList,
      c ∉ ['<', '>', ':', Char.ofNat 34, '/', Char.ofNat 92, '|', '?', '*']) ∧
    '/' ∉ (sanitize.Filename title).toList ∧
    Char.ofNat 92 ∉ (sanitize.Filename title).toList := by
  have hall : ∀ c ∈ (sanitize.Filename title).toList, c ∉ sanitize.illegalChars := by
    intro c hc
    have hc2 : c ∈ (strings.Trim title.toList [' ', '.']).filter
        (fun c => !sanitize.illegalChars.contains c) := hc
    have hf := (List.mem_filter.1 hc2).2
    intro hmem
    have : sanitize.illegalChars.contains c = true := by
      simpa using hmem
    rw [this] at hf
    cases hf
  exact ⟨hall, fun h => hall _ h (by decide), fun h => hall _ h (by decide)⟩

/-- C25 (the code at the failing input): the name "Who are you ?" comes back
with a space at its end, and "?.hidden" with a dot at its beginning, since the
trimming is done before the characters are removed. -/
theorem Filename_leaves_space_or_dot :
    sanitize.Filename "Who are you ?" = "Who are you " ∧
    sanitize.Filename "?.hidden" = ".hidden" := by
  decide

/-- C28 (the code at the failing input): for a text without space, and for
the empty text, splitChapterInfo ends in the panic of parts[1]. -/
theorem splitChapterInfo_panics_without_space :
    source.splitChapterInfo parseDecimal "Chapter" = source.Outcome.panic ∧
    source.splitChapterInfo parseDecimal "" = source.Outcome.panic ∧
    source.splitChapterInfo parseDecimal "Chapter 12 The End" =
      source.Outcome.ok (12, "The End") := by
  decide

/-- C29 (the code at the failing input): for a name without a match of the
pattern, getChapterNumber returns the number 0 and no error. -/
theorem getChapterNumber_no_match_no_error :
    source.findChapterNumber "Special Announcement".toList = none ∧
    source.getChapterNumber parseDecimal "Special Announcement" = (0, false) ∧
    source.getChapterNumber parseDecimal "One Piece Chapter 1050.5" = (mkRat 2101 2, false) := by
  decide

/-- C30 (the code at the failing input): a line that contains both "logLevel:"
and "logPath:" is replaced by the logPath line, and the output has no logLevel
line. -/
theorem processLines_loses_logLevel_line :
    config.processLines ⟨"DEBUG", ""⟩ ["# logLevel: and logPath: are set below", "a: 1"] =
      ["#logPath: " ++ quote ++ quote, "a: 1"] ∧
    config.logLevelLine ⟨"DEBUG", ""⟩ ∉
      config.processLines ⟨"DEBUG", ""⟩ ["# logLevel: and logPath: are set below", "a: 1"] := by
  decide

end lemmas

end Mangarr
